import Mathlib

/-!
TullPatcherF4: parsers and the Prepare / Patch pipeline.

A shallow embedding of `Locations.cpp`, `Quests.cpp`, `Armors.cpp` and
`ArmorAddons.cpp`.

* A `RE::TESForm*` is a `TESForm` value (identity plus runtime record kind);
  `As<T>()` is the kind test.
* `Utils::GetFormFromString` is a parameter `getForm : String → Option TESForm`
  (`none` is the null pointer).
* `std::unordered_map<K*, PatchData>` is an association list with `operator[]`.
* An escaping C++ exception (`std::bad_optional_access`, `std::bad_any_cast`) is
  the result `none` of an `Option`-valued function.
* 32-bit unsigned arithmetic is `Nat` arithmetic reduced `% 2^32`.
-/

namespace TullPatcher

/-! ## The record store (`RE::` forms) -/

/-- The runtime record kind of a form, as tested by `TESForm::As<T>()`. -/
inductive FormType where
  | Keyword
  | Location
  | Quest
  | Armor
  | ArmorAddon
  | Enchantment
  | Other
deriving DecidableEq

/-- A non-null `RE::TESForm*`: the identity of the record and its runtime kind. -/
structure TESForm where
  formID : Nat
  formType : FormType
deriving DecidableEq

/-- The cast `form->As<T>()`: the same pointer when the record is of kind `t`,
the null pointer (`none`) otherwise. -/
def TESForm.As (f : TESForm) (t : FormType) : Option TESForm :=
  if f.formType = t then some f else none

/-! ## `std::unordered_map` as an association list -/

namespace PatchMap

/-- The lookup `m.find(k)`: the value stored under `k`, if any. -/
def find {V : Type} : List (TESForm × V) → TESForm → Option V
  | [], _ => none
  | (k', v) :: rest, k => if k' = k then some v else find rest k

/-- The update `f(m[k])` through `operator[]`: the value under `k` is replaced by
its image under `f`; when `k` has no entry, one is created from the
default-constructed value `dflt` first. -/
def modify {V : Type} (dflt : V) (f : V → V) : List (TESForm × V) → TESForm → List (TESForm × V)
  | [], k => [(k, f dflt)]
  | (k', v) :: rest, k => if k' = k then (k', f v) :: rest else (k', v) :: modify dflt f rest k

/-- The keys of the map. -/
def keys {V : Type} (m : List (TESForm × V)) : List TESForm := m.map Prod.fst

end PatchMap

/-! ## `Parsers.h`: statements, conditionals, the token reader -/

namespace Parsers

/-- Modelled from the spec: the condition of a conditional branch (`Parsers.h` is
not part of the sources); only its truth in the environment matters. -/
structure Condition where
  text : String
deriving DecidableEq

/-- Modelled from the spec: `Parsers::Statement<T>` of `Parsers.h`, a tagged union
of an expression statement (domain payload) and a conditional statement, which
is an ordered list of branches, each with an optional condition (`none` is the
final else) and a nested statement list. -/
inductive Statement (α : Type) where
  | expression (ExpressionStatement : α) : Statement α
  | conditional (ConditionalStatement : List (Option Condition × List (Statement α))) : Statement α

/-- Modelled from the spec: `ConditionalStatement::Evaluates()` of `Parsers.h`. It
returns the statement list of the single branch that applies (the first branch
that is an else or whose condition holds in the environment `env`), or the empty
list when no branch applies. -/
def Evaluates {α : Type} (env : Condition → Bool) :
    List (Option Condition × List (Statement α)) → List (Statement α)
  | [] => []
  | (none, body) :: _ => body
  | (some c, body) :: rest => if env c then body else Evaluates env rest

mutual
/-- The loop shared by the four `Prepare(const std::vector<Statement<ConfigData>>&)`
overloads: every expression statement goes to `Prepare(const ConfigData&)` (here
`f`), every conditional statement to a recursive call on the result of its
`Evaluates()`. The state `σ` is the global patch map; `none` is an exception
escaping from `f`. -/
def PrepareStatements {σ α : Type} (env : Condition → Bool) (f : σ → α → Option σ) :
    σ → List (Statement α) → Option σ
  | s, [] => some s
  | s, st :: rest =>
    match PrepareStatement env f s st with
    | none => none
    | some s' => PrepareStatements env f s' rest
/-- One iteration of the loop of `PrepareStatements`. -/
def PrepareStatement {σ α : Type} (env : Condition → Bool) (f : σ → α → Option σ) :
    σ → Statement α → Option σ
  | s, .expression d => f s d
  | s, .conditional branches => PrepareEvaluated env f s branches
/-- The call `Prepare(conditional.Evaluates())`, with the branch selection of
`Evaluates` unfolded into the recursion (see `PrepareEvaluated_eq`). -/
def PrepareEvaluated {σ α : Type} (env : Condition → Bool) (f : σ → α → Option σ) :
    σ → List (Option Condition × List (Statement α)) → Option σ
  | s, [] => some s
  | s, (none, body) :: _ => PrepareStatements env f s body
  | s, (some c, body) :: rest =>
    if env c then PrepareStatements env f s body else PrepareEvaluated env f s rest
end

mutual
/-- The flattening of a statement list: every conditional is replaced, in place,
by the recursively flattened result of its `Evaluates()`. -/
def flatten {α : Type} (env : Condition → Bool) : List (Statement α) → List α
  | [] => []
  | st :: rest => flattenStatement env st ++ flatten env rest
/-- The flattening of one statement. -/
def flattenStatement {α : Type} (env : Condition → Bool) : Statement α → List α
  | .expression d => [d]
  | .conditional branches => flattenEvaluated env branches
/-- The flattening of `conditional.Evaluates()`, with the branch selection unfolded
into the recursion (see `flattenEvaluated_eq`). -/
def flattenEvaluated {α : Type} (env : Condition → Bool) :
    List (Option Condition × List (Statement α)) → List α
  | [] => []
  | (none, body) :: _ => flatten env body
  | (some c, body) :: rest => if env c then flatten env body else flattenEvaluated env rest
end

/-- The in-order application of `Prepare(const ConfigData&)` to a flat list of
expression statements. -/
def PrepareFlat {σ α : Type} (f : σ → α → Option σ) : σ → List α → Option σ
  | s, [] => some s
  | s, d :: rest =>
    match f s d with
    | none => none
    | some s' => PrepareFlat f s' rest

/-- Modelled from the spec: the token reader of `Parsers.h`, holding the tokens
not yet consumed. -/
structure Reader where
  tokens : List String
deriving DecidableEq

/-- Modelled from the spec: `reader.EndOfFile()`. -/
def Reader.EndOfFile (r : Reader) : Bool := r.tokens.isEmpty

/-- Modelled from the spec: `reader.Peek()` returns the next token without
consuming it, and the empty token at end of input. -/
def Reader.Peek (r : Reader) : String := r.tokens.headD ""

/-- Modelled from the spec: `reader.GetToken()` consumes and returns the next
token, and yields the empty token at end of input. -/
def Reader.GetToken (r : Reader) : String × Reader := (r.tokens.headD "", ⟨r.tokens.tail⟩)

end Parsers

open Parsers

/-! ## `Locations.cpp` -/

namespace Locations

/-- The enum `FilterType`. -/
inductive FilterType where
  | kFormID
deriving DecidableEq

/-- The enum `ElementType`. -/
inductive ElementType where
  | kKeywords
deriving DecidableEq

/-- The enum `OperationType`. -/
inductive OperationType where
  | kClear
  | kAdd
  | kAddIfNotExists
  | kDelete
deriving DecidableEq

/-- The struct `ConfigData::Operation`. -/
structure Operation where
  OpType : OperationType
  OpForm : Option String
deriving DecidableEq

/-- The struct `ConfigData`. -/
structure ConfigData where
  Filter : FilterType
  FilterForm : String
  Element : ElementType
  Operations : List Operation
deriving DecidableEq

/-- The struct `PatchData::KeywordsData`. The `std::unordered_set` is the list of
its members in iteration order. -/
structure KeywordsData where
  Clear : Bool
  AddKeywordVec : List TESForm
  AddUniqueKeywordSet : List TESForm
  DeleteKeywordVec : List TESForm
deriving DecidableEq

/-- The value-initialised `PatchData::KeywordsData{}`. -/
def KeywordsData.init : KeywordsData := ⟨false, [], [], []⟩

/-- The struct `PatchData`. -/
structure PatchData where
  Keywords : Option KeywordsData
deriving DecidableEq

/-- The default-constructed `PatchData`. -/
def PatchData.init : PatchData := ⟨none⟩

/-- The insertion `AddUniqueKeywordSet.insert(k)`: no effect when `k` is already a
member. -/
def setInsert (s : List TESForm) (k : TESForm) : List TESForm :=
  if k ∈ s then s else s ++ [k]

/-- The body of the loop over `a_configData.Operations` in `Prepare`, run on one
operation. `op.OpForm.value()` on an empty optional throws (`none`); an argument
that does not resolve to a keyword skips the operation (`continue`). -/
def PrepareOperation (getForm : String → Option TESForm) (kd : KeywordsData) (op : Operation) :
    Option KeywordsData :=
  if op.OpType = OperationType.kClear then
    some { kd with Clear := true }
  else if op.OpType = OperationType.kAdd ∨ op.OpType = OperationType.kAddIfNotExists
      ∨ op.OpType = OperationType.kDelete then
    match op.OpForm with
    | none => none
    | some s =>
      match getForm s with
      | none => some kd
      | some opForm =>
        match opForm.As FormType.Keyword with
        | none => some kd
        | some keywordForm =>
          if op.OpType = OperationType.kAdd then
            some { kd with AddKeywordVec := kd.AddKeywordVec ++ [keywordForm] }
          else if op.OpType = OperationType.kAddIfNotExists then
            some { kd with AddUniqueKeywordSet := setInsert kd.AddUniqueKeywordSet keywordForm }
          else
            some { kd with DeleteKeywordVec := kd.DeleteKeywordVec ++ [keywordForm] }
  else
    some kd

/-- The loop `for (const auto& op : a_configData.Operations)` of `Prepare`. -/
def PrepareOperations (getForm : String → Option TESForm) :
    KeywordsData → List Operation → Option KeywordsData
  | kd, [] => some kd
  | kd, op :: ops =>
    match PrepareOperation getForm kd op with
    | none => none
    | some kd' => PrepareOperations getForm kd' ops

/-- The function `Prepare(const ConfigData&)`, acting on `g_patchMap`. The entry of
the location is created by `g_patchMap[location]` as soon as the filter
resolves. -/
def Prepare (getForm : String → Option TESForm) (g_patchMap : List (TESForm × PatchData))
    (a_configData : ConfigData) : Option (List (TESForm × PatchData)) :=
  match a_configData.Filter with
  | FilterType.kFormID =>
    match getForm a_configData.FilterForm with
    | none => some g_patchMap
    | some filterForm =>
      match filterForm.As FormType.Location with
      | none => some g_patchMap
      | some location =>
        match a_configData.Element with
        | ElementType.kKeywords =>
          let patchData := ((PatchMap.find g_patchMap location).getD PatchData.init)
          let keywords := patchData.Keywords.getD KeywordsData.init
          match PrepareOperations getForm keywords a_configData.Operations with
          | none => none
          | some kd => some (PatchMap.modify PatchData.init (fun _ => ⟨some kd⟩) g_patchMap location)

/-- The function `Prepare(const std::vector<Parsers::Statement<ConfigData>>&)`. -/
def PrepareVec (getForm : String → Option TESForm) (env : Condition → Bool)
    (g_patchMap : List (TESForm × PatchData)) (a_configVec : List (Statement ConfigData)) :
    Option (List (TESForm × PatchData)) :=
  PrepareStatements env (Prepare getForm) g_patchMap a_configVec

/-- Modelled from the spec: `RE::BGSLocation::AddKeyword`, the store's `addMember`
(an engine function outside the sources). It appends the keyword, also when it
is already present. -/
def AddKeyword (keywords : List TESForm) (k : TESForm) : List TESForm := keywords ++ [k]

/-- Modelled from the spec: `RE::BGSLocation::RemoveKeyword`, the store's
`removeMember` (an engine function outside the sources). It removes one
occurrence of the keyword, the first one, and does nothing when the keyword is
absent. -/
def RemoveKeyword (keywords : List TESForm) (k : TESForm) : List TESForm := keywords.erase k

/-- The function `ClearKeywords`, on the keyword array of a non-null location:
`while (numKeywords > 0) RemoveKeyword(keywords[0])`. -/
def ClearKeywords (keywords : List TESForm) : List TESForm :=
  match keywords with
  | [] => []
  | k :: rest => ClearKeywords (RemoveKeyword (k :: rest) k)
termination_by keywords.length
decreasing_by simp [RemoveKeyword]

/-- The function `KeywordExists`: a linear scan of the keyword array. -/
def KeywordExists : List TESForm → TESForm → Bool
  | [], _ => false
  | k :: rest, a_keyword => if k = a_keyword then true else KeywordExists rest a_keyword

/-- The function `PatchKeywords`, on the keyword array of the location. -/
def PatchKeywords (keywords : List TESForm) (a_keywordsData : KeywordsData) : List TESForm :=
  -- Clear
  let isCleared := a_keywordsData.Clear
  let l1 := if a_keywordsData.Clear then ClearKeywords keywords else keywords
  -- Delete
  let l2 :=
    if !isCleared && !a_keywordsData.DeleteKeywordVec.isEmpty then
      let delVec := a_keywordsData.DeleteKeywordVec.filter (fun delKywd => KeywordExists l1 delKywd)
      delVec.foldl RemoveKeyword l1
    else l1
  -- Add
  let l3 :=
    if !a_keywordsData.AddKeywordVec.isEmpty then
      a_keywordsData.AddKeywordVec.foldl AddKeyword l2
    else l2
  -- Add if not exists
  if !a_keywordsData.AddUniqueKeywordSet.isEmpty then
    a_keywordsData.AddUniqueKeywordSet.foldl
      (fun l addKywd => if !KeywordExists l addKywd then AddKeyword l addKywd else l) l3
  else l3

/-- The function `Patch(RE::BGSLocation*, const PatchData&)`, on the keyword array
of the location. -/
def PatchLocation (keywords : List TESForm) (a_patchData : PatchData) : List TESForm :=
  match a_patchData.Keywords with
  | some kd => PatchKeywords keywords kd
  | none => keywords

/-- The module state: the globals `g_configVec` and `g_patchMap`, and the keyword
array of every location of the record store. -/
structure State where
  g_configVec : List (Statement ConfigData)
  g_patchMap : List (TESForm × PatchData)
  keywords : TESForm → List TESForm

/-- The loop `for (const auto& patchData : g_patchMap) Patch(first, second)`. -/
def PatchAll (g_patchMap : List (TESForm × PatchData)) (keywords : TESForm → List TESForm) :
    TESForm → List TESForm :=
  g_patchMap.foldl (fun st e => Function.update st e.1 (PatchLocation (st e.1) e.2)) keywords

/-- The function `Patch()`: prepare, apply, then clear both globals. -/
def Patch (getForm : String → Option TESForm) (env : Condition → Bool) (st : State) :
    Option State :=
  match PrepareVec getForm env st.g_patchMap st.g_configVec with
  | none => none
  | some m => some ⟨[], [], PatchAll m st.keywords⟩

end Locations

/-! ## `Quests.cpp` -/

namespace Quests

/-- The enum `FilterType`. -/
inductive FilterType where
  | kFormID
deriving DecidableEq

/-- The enum `ElementType`. -/
inductive ElementType where
  | kFullName
deriving DecidableEq

/-- The struct `ConfigData`. -/
structure ConfigData where
  Filter : FilterType
  FilterForm : String
  Element : ElementType
  AssignValue : Option String
deriving DecidableEq

/-- The struct `PatchData`. -/
structure PatchData where
  FullName : Option String
deriving DecidableEq

/-- The default-constructed `PatchData`. -/
def PatchData.init : PatchData := ⟨none⟩

/-- The function `Prepare(const ConfigData&)`, acting on `g_patchMap`. -/
def Prepare (getForm : String → Option TESForm) (g_patchMap : List (TESForm × PatchData))
    (a_configData : ConfigData) : List (TESForm × PatchData) :=
  match a_configData.Filter with
  | FilterType.kFormID =>
    match getForm a_configData.FilterForm with
    | none => g_patchMap
    | some filterForm =>
      match filterForm.As FormType.Quest with
      | none => g_patchMap
      | some quest =>
        match a_configData.Element with
        | ElementType.kFullName =>
          match a_configData.AssignValue with
          | some v =>
            PatchMap.modify PatchData.init (fun pd => { pd with FullName := some v }) g_patchMap quest
          | none => g_patchMap

/-- The function `Prepare(const std::vector<Parsers::Statement<ConfigData>>&)`. -/
def PrepareVec (getForm : String → Option TESForm) (env : Condition → Bool)
    (g_patchMap : List (TESForm × PatchData)) (a_configVec : List (Statement ConfigData)) :
    Option (List (TESForm × PatchData)) :=
  PrepareStatements env (fun m c => some (Prepare getForm m c)) g_patchMap a_configVec

/-- The fields of a `RE::TESQuest` record that the patcher writes. -/
structure TESQuest where
  fullName : String
deriving DecidableEq

/-- The module state: the globals `g_configVec` and `g_patchMap`, and the quest
records of the store. -/
structure State where
  g_configVec : List (Statement ConfigData)
  g_patchMap : List (TESForm × PatchData)
  quests : TESForm → TESQuest

/-- The body of the apply loop of `Patch()`, on the record of one entry. -/
def PatchQuest (quest : TESQuest) (patchData : PatchData) : TESQuest :=
  match patchData.FullName with
  | some v => { quest with fullName := v }
  | none => quest

/-- The loop `for (const auto& patchData : g_patchMap)` of `Patch()`. -/
def PatchAll (g_patchMap : List (TESForm × PatchData)) (quests : TESForm → TESQuest) :
    TESForm → TESQuest :=
  g_patchMap.foldl (fun st e => Function.update st e.1 (PatchQuest (st e.1) e.2)) quests

/-- The function `Patch()`: prepare, apply, then clear both globals. -/
def Patch (getForm : String → Option TESForm) (env : Condition → Bool) (st : State) :
    Option State :=
  match PrepareVec getForm env st.g_patchMap st.g_configVec with
  | none => none
  | some m => some ⟨[], [], PatchAll m st.quests⟩

end Quests

/-! ## `ArmorAddons.cpp` -/

namespace ArmorAddons

/-- The enum `FilterType`. -/
inductive FilterType where
  | kFormID
deriving DecidableEq

/-- The enum `ElementType`. -/
inductive ElementType where
  | kBipedObjectSlots
deriving DecidableEq

/-- The struct `ConfigData`; `AssignValue` is a `std::uint32_t`. -/
structure ConfigData where
  Filter : FilterType
  FilterForm : String
  Element : ElementType
  AssignValue : Option Nat
deriving DecidableEq

/-- The value-initialised `ConfigData configData{}`. -/
def ConfigData.init : ConfigData := ⟨FilterType.kFormID, "", ElementType.kBipedObjectSlots, none⟩

/-- The struct `PatchData`. -/
structure PatchData where
  BipedObjectSlots : Option Nat
deriving DecidableEq

/-- The default-constructed `PatchData`. -/
def PatchData.init : PatchData := ⟨none⟩

/-- The largest `unsigned long` of the target ABI (the plugin is a Windows DLL:
32 bits). -/
def ULONG_MAX : Nat := 2 ^ 32 - 1

/-- The call `std::from_chars(first, last, parsedValue)` for an `unsigned long` in
base 10, reduced to what `ParseBipedSlot` uses: the value of the longest run of
decimal digits at the start of the token, or `none` when the error code is set
(no digit at the start: `invalid_argument`; value above `ULONG_MAX`:
`result_out_of_range`). Characters after the digit run are not an error. -/
def from_chars (token : String) : Option Nat :=
  let digits := token.data.takeWhile Char.isDigit
  if digits.isEmpty then none
  else
    let value := digits.foldl (fun acc c => 10 * acc + (c.toNat - '0'.toNat)) 0
    if value > ULONG_MAX then none else some value

/-- The function `ArmorAddonParser::ParseBipedSlot`. -/
def ParseBipedSlot (reader : Reader) : Option Nat × Reader :=
  let (token, reader) := reader.GetToken
  if token = "" ∨ token = "|" ∨ token = ";" then (none, reader)
  else
    match from_chars token with
    | none => (none, reader)
    | some parsedValue =>
      if parsedValue ≠ 0 ∧ (parsedValue < 30 ∨ parsedValue > 61) then (none, reader)
      else (some (parsedValue % 2 ^ 32), reader)

/-- The statement `bipedObjectSlotsValue |= 1 << (bipedSlot.value() - 30)`, guarded
by `bipedSlot.value() != 0`, on 32-bit unsigned values. The shift is defined in
C++ for the slots 30..61 only, the non-zero values `ParseBipedSlot` returns; the
`int` result `1 << 31` converts to the unsigned value `2^31`. -/
def orSlot (bipedObjectSlotsValue bipedSlot : Nat) : Nat :=
  if bipedSlot ≠ 0 then
    bipedObjectSlotsValue ||| ((1 <<< (bipedSlot - 30)) % 2 ^ 32)
  else bipedObjectSlotsValue

/-- The outcome of the `while (true)` loop of `ParseAssignment`. -/
inductive SlotLoop where
  | done (bipedObjectSlotsValue : Nat) (reader : Reader)
  | failed (reader : Reader)
  | running
deriving DecidableEq

/-- The `while (true)` loop of `ParseAssignment`, run for at most `fuel`
iterations; `running` means the loop has not left after `fuel` iterations. -/
def slotLoop (parseBipedSlot : Reader → Option Nat × Reader) :
    Nat → Reader → Nat → SlotLoop
  | 0, _, _ => SlotLoop.running
  | fuel + 1, reader, bipedObjectSlotsValue =>
    if reader.Peek = ";" then SlotLoop.done bipedObjectSlotsValue reader
    else
      let (token, reader) := reader.GetToken
      if token ≠ "|" then SlotLoop.failed reader
      else
        match parseBipedSlot reader with
        | (none, reader) => SlotLoop.failed reader
        | (some bipedSlot, reader) =>
          slotLoop parseBipedSlot fuel reader (orSlot bipedObjectSlotsValue bipedSlot)

/-- The `kBipedObjectSlots` branch of `ParseAssignment`, after the `=`: the first
slot, then the loop. The loop is given one iteration more than there are
tokens left. -/
def ParseSlots (parseBipedSlot : Reader → Option Nat × Reader) (reader : Reader) : SlotLoop :=
  match parseBipedSlot reader with
  | (none, reader) => SlotLoop.failed reader
  | (some bipedSlot, reader) =>
    slotLoop parseBipedSlot (reader.tokens.length + 1) reader (orSlot 0 bipedSlot)

/-- The function `ArmorAddonParser::ParseAssignment`: `none` when the loop does not
terminate, otherwise the returned `bool`, the reader and the statement. -/
def ParseAssignment (reader : Reader) (a_config : ConfigData) :
    Option (Bool × Reader × ConfigData) :=
  let (token, reader) := reader.GetToken
  if token ≠ "=" then some (false, reader, a_config)
  else
    match a_config.Element with
    | ElementType.kBipedObjectSlots =>
      match ParseSlots ParseBipedSlot reader with
      | SlotLoop.done v reader => some (true, reader, { a_config with AssignValue := some v })
      | SlotLoop.failed reader => some (false, reader, a_config)
      | SlotLoop.running => none

/-- The function `ArmorAddonParser::ParseFilter`; `parseForm` is `ParseForm()` of
`Parsers.h`, which consumes the tokens of a reference and returns its text. -/
def ParseFilter (parseForm : Reader → Option String × Reader) (reader : Reader)
    (a_config : ConfigData) : Bool × Reader × ConfigData :=
  let (token, reader) := reader.GetToken
  if token = "FilterByFormID" then
    let a_config := { a_config with Filter := FilterType.kFormID }
    let (token, reader) := reader.GetToken
    if token ≠ "(" then (false, reader, a_config)
    else
      match parseForm reader with
      | (none, reader) => (false, reader, a_config)
      | (some filterForm, reader) =>
        let a_config := { a_config with FilterForm := filterForm }
        let (token, reader) := reader.GetToken
        if token ≠ ")" then (false, reader, a_config)
        else (true, reader, a_config)
  else (false, reader, a_config)

/-- The function `ArmorAddonParser::ParseElement`. -/
def ParseElement (reader : Reader) (a_config : ConfigData) : Bool × Reader × ConfigData :=
  let (token, reader) := reader.GetToken
  if token = "BipedObjectSlots" then
    (true, reader, { a_config with Element := ElementType.kBipedObjectSlots })
  else (false, reader, a_config)

/-- The function `ArmorAddonParser::ParseExpressionStatement`: `none` when the loop
of `ParseAssignment` does not terminate, otherwise the optional statement and
the reader. -/
def ParseExpressionStatement (parseForm : Reader → Option String × Reader) (reader : Reader) :
    Option (Option (Statement ConfigData) × Reader) :=
  if reader.EndOfFile ∨ reader.Peek = "" then some (none, reader)
  else
    match ParseFilter parseForm reader ConfigData.init with
    | (false, reader, _) => some (none, reader)
    | (true, reader, configData) =>
      let (token, reader) := reader.GetToken
      if token ≠ "." then some (none, reader)
      else
        match ParseElement reader configData with
        | (false, reader, _) => some (none, reader)
        | (true, reader, configData) =>
          match ParseAssignment reader configData with
          | none => none
          | some (false, reader, _) => some (none, reader)
          | some (true, reader, configData) =>
            let (token, reader) := reader.GetToken
            if token ≠ ";" then some (none, reader)
            else some (some (Statement.expression configData), reader)

/-- The function `ArmorAddonParser::GetBipedSlots`; `a_bipedObjSlots` is a 32-bit
unsigned value, `substr(0, n)` keeps the first `n` characters. -/
def GetBipedSlots (a_bipedObjSlots : Nat) : String :=
  let separtor := " | "
  if a_bipedObjSlots = 0 then "0"
  else
    let retStr := (List.range 32).foldl
      (fun retStr ii =>
        if a_bipedObjSlots &&& ((1 <<< ii) % 2 ^ 32) ≠ 0 then
          retStr ++ (toString (ii + 30) ++ separtor)
        else retStr) ""
    if retStr.data.isEmpty then retStr
    else String.mk (retStr.data.take (retStr.data.length - separtor.data.length))

/-- The function `Prepare(const ConfigData&)`, acting on `g_patchMap`. -/
def Prepare (getForm : String → Option TESForm) (g_patchMap : List (TESForm × PatchData))
    (a_configData : ConfigData) : List (TESForm × PatchData) :=
  match a_configData.Filter with
  | FilterType.kFormID =>
    match getForm a_configData.FilterForm with
    | none => g_patchMap
    | some filterForm =>
      match filterForm.As FormType.ArmorAddon with
      | none => g_patchMap
      | some arma =>
        match a_configData.Element with
        | ElementType.kBipedObjectSlots =>
          match a_configData.AssignValue with
          | some v =>
            PatchMap.modify PatchData.init (fun pd => { pd with BipedObjectSlots := some v })
              g_patchMap arma
          | none => g_patchMap

/-- The function `Prepare(const std::vector<Parsers::Statement<ConfigData>>&)`. -/
def PrepareVec (getForm : String → Option TESForm) (env : Condition → Bool)
    (g_patchMap : List (TESForm × PatchData)) (a_configVec : List (Statement ConfigData)) :
    Option (List (TESForm × PatchData)) :=
  PrepareStatements env (fun m c => some (Prepare getForm m c)) g_patchMap a_configVec

/-- The fields of a `RE::TESObjectARMA` record that the patcher writes. -/
structure TESObjectARMA where
  bipedObjectSlots : Nat
deriving DecidableEq

/-- The module state: the globals `g_configVec` and `g_patchMap`, and the armor
addon records of the store. -/
structure State where
  g_configVec : List (Statement ConfigData)
  g_patchMap : List (TESForm × PatchData)
  armorAddons : TESForm → TESObjectARMA

/-- The body of the apply loop of `Patch()`, on the record of one entry. -/
def PatchArmorAddon (arma : TESObjectARMA) (patchData : PatchData) : TESObjectARMA :=
  match patchData.BipedObjectSlots with
  | some v => { arma with bipedObjectSlots := v }
  | none => arma

/-- The loop `for (const auto& patchData : g_patchMap)` of `Patch()`. -/
def PatchAll (g_patchMap : List (TESForm × PatchData)) (armorAddons : TESForm → TESObjectARMA) :
    TESForm → TESObjectARMA :=
  g_patchMap.foldl (fun st e => Function.update st e.1 (PatchArmorAddon (st e.1) e.2)) armorAddons

/-- The function `Patch()`: prepare, apply, then clear both globals. -/
def Patch (getForm : String → Option TESForm) (env : Condition → Bool) (st : State) :
    Option State :=
  match PrepareVec getForm env st.g_patchMap st.g_configVec with
  | none => none
  | some m => some ⟨[], [], PatchAll m st.armorAddons⟩

/-- Modelled from the spec: the token boundaries of the Lexer (`Parsers.h`) on text
without quoted strings. Whitespace separates tokens and is dropped; each of the
punctuation characters is a token of its own; `cur` is the token being read. -/
def splitTokensAux : List Char → List Char → List String
  | [], cur => if cur.isEmpty then [] else [String.mk cur]
  | c :: rest, cur =>
    if c.isWhitespace then
      (if cur.isEmpty then [] else [String.mk cur]) ++ splitTokensAux rest []
    else if c ∈ ['(', ')', '.', ';', '=', '|', '\x7b', '\x7d'] then
      (if cur.isEmpty then [] else [String.mk cur]) ++ String.mk [c] :: splitTokensAux rest []
    else splitTokensAux rest (cur ++ [c])

/-- Modelled from the spec: the tokens of a text, see `splitTokensAux`. -/
def splitTokens (text : String) : List String := splitTokensAux text.data []

end ArmorAddons

/-! ## `Armors.cpp` -/

namespace Armors

/-- The enum `FilterType`. -/
inductive FilterType where
  | kFormID
deriving DecidableEq

/-- The enum `ElementType`. -/
inductive ElementType where
  | kBipedObjectSlots
  | kFullName
  | kObjectEffect
deriving DecidableEq

/-- The content of the `std::any` of `ConfigData::AssignValue`: the parser stores a
`std::uint32_t` or a `std::string`. -/
inductive AnyValue where
  | uint32 (value : Nat)
  | string (value : String)
deriving DecidableEq

/-- The cast `std::any_cast<std::uint32_t>`; `none` is `std::bad_any_cast`. -/
def AnyValue.castUInt32 : AnyValue → Option Nat
  | AnyValue.uint32 v => some v
  | AnyValue.string _ => none

/-- The cast `std::any_cast<std::string>`; `none` is `std::bad_any_cast`. -/
def AnyValue.castString : AnyValue → Option String
  | AnyValue.string v => some v
  | AnyValue.uint32 _ => none

/-- The struct `ConfigData`. -/
structure ConfigData where
  Filter : FilterType
  FilterForm : String
  Element : ElementType
  AssignValue : Option AnyValue
deriving DecidableEq

/-- The value-initialised `ConfigData configData{}`. -/
def ConfigData.init : ConfigData := ⟨FilterType.kFormID, "", ElementType.kBipedObjectSlots, none⟩

/-- The struct `PatchData`; the pending `RE::EnchantmentItem*` may be the null
pointer (`some none`). -/
structure PatchData where
  BipedObjectSlots : Option Nat
  FullName : Option String
  ObjectEffect : Option (Option TESForm)
deriving DecidableEq

/-- The default-constructed `PatchData`. -/
def PatchData.init : PatchData := ⟨none, none, none⟩

/-- The function `ArmorParser::ParseFilter`; `parseForm` is `ParseForm()` of
`Parsers.h`. -/
def ParseFilter (parseForm : Reader → Option String × Reader) (reader : Reader)
    (a_config : ConfigData) : Bool × Reader × ConfigData :=
  let (token, reader) := reader.GetToken
  if token = "FilterByFormID" then
    let a_config := { a_config with Filter := FilterType.kFormID }
    let (token, reader) := reader.GetToken
    if token ≠ "(" then (false, reader, a_config)
    else
      match parseForm reader with
      | (none, reader) => (false, reader, a_config)
      | (some filterForm, reader) =>
        let a_config := { a_config with FilterForm := filterForm }
        let (token, reader) := reader.GetToken
        if token ≠ ")" then (false, reader, a_config)
        else (true, reader, a_config)
  else (false, reader, a_config)

/-- The function `ArmorParser::ParseElement`. -/
def ParseElement (reader : Reader) (a_config : ConfigData) : Bool × Reader × ConfigData :=
  let (token, reader) := reader.GetToken
  if token = "BipedObjectSlots" then
    (true, reader, { a_config with Element := ElementType.kBipedObjectSlots })
  else if token = "FullName" then
    (true, reader, { a_config with Element := ElementType.kFullName })
  else if token = "ObjectEffect" then
    (true, reader, { a_config with Element := ElementType.kObjectEffect })
  else (false, reader, a_config)

/-- The expression `token.substr(1, token.length() - 2)` on a token of length at
least 1: the count is computed in `std::size_t` (64 bits, wrapping), and `substr`
keeps at most that many characters from position 1. -/
def unquote (token : String) : String :=
  String.mk ((token.data.drop 1).take ((token.data.length + 2 ^ 64 - 2) % 2 ^ 64))

/-- The function `ArmorParser::ParseAssignment`: `none` when the slot loop does not
terminate, otherwise the returned `bool`, the reader and the statement.
`parseBipedSlot` is `ParseBipedSlot()` and `parseForm` is `ParseForm()`, both
inherited from `Parsers.h`; the slot loop is the one of
`ArmorAddonParser::ParseAssignment`, statement for statement. -/
def ParseAssignment (parseBipedSlot : Reader → Option Nat × Reader)
    (parseForm : Reader → Option String × Reader) (reader : Reader) (a_config : ConfigData) :
    Option (Bool × Reader × ConfigData) :=
  let (token, reader) := reader.GetToken
  if token ≠ "=" then some (false, reader, a_config)
  else
    match a_config.Element with
    | ElementType.kBipedObjectSlots =>
      match ArmorAddons.ParseSlots parseBipedSlot reader with
      | ArmorAddons.SlotLoop.done v reader =>
        some (true, reader, { a_config with AssignValue := some (AnyValue.uint32 v) })
      | ArmorAddons.SlotLoop.failed reader => some (false, reader, a_config)
      | ArmorAddons.SlotLoop.running => none
    | ElementType.kFullName =>
      let (token, reader) := reader.GetToken
      if ¬ token.data.head? = some '"' then some (false, reader, a_config)
      else if ¬ token.data.getLast? = some '"' then some (false, reader, a_config)
      else some (true, reader, { a_config with AssignValue := some (AnyValue.string (unquote token)) })
    | ElementType.kObjectEffect =>
      if reader.Peek = "null" then
        let (token, reader) := reader.GetToken
        some (true, reader, { a_config with AssignValue := some (AnyValue.string token) })
      else
        match parseForm reader with
        | (none, reader) => some (false, reader, a_config)
        | (some effectForm, reader) =>
          some (true, reader, { a_config with AssignValue := some (AnyValue.string effectForm) })

/-- The function `ArmorParser::ParseExpressionStatement`: `none` when the slot loop
does not terminate, otherwise the optional statement and the reader. -/
def ParseExpressionStatement (parseBipedSlot : Reader → Option Nat × Reader)
    (parseForm : Reader → Option String × Reader) (reader : Reader) :
    Option (Option (Statement ConfigData) × Reader) :=
  if reader.EndOfFile ∨ reader.Peek = "" then some (none, reader)
  else
    match ParseFilter parseForm reader ConfigData.init with
    | (false, reader, _) => some (none, reader)
    | (true, reader, configData) =>
      let (token, reader) := reader.GetToken
      if token ≠ "." then some (none, reader)
      else
        match ParseElement reader configData with
        | (false, reader, _) => some (none, reader)
        | (true, reader, configData) =>
          match ParseAssignment parseBipedSlot parseForm reader configData with
          | none => none
          | some (false, reader, _) => some (none, reader)
          | some (true, reader, configData) =>
            let (token, reader) := reader.GetToken
            if token ≠ ";" then some (none, reader)
            else some (some (Statement.expression configData), reader)

/-- The function `Prepare(const ConfigData&)`, acting on `g_patchMap`; `none` is a
`std::bad_any_cast` escaping. -/
def Prepare (getForm : String → Option TESForm) (g_patchMap : List (TESForm × PatchData))
    (a_configData : ConfigData) : Option (List (TESForm × PatchData)) :=
  match a_configData.Filter with
  | FilterType.kFormID =>
    match getForm a_configData.FilterForm with
    | none => some g_patchMap
    | some filterForm =>
      match filterForm.As FormType.Armor with
      | none => some g_patchMap
      | some armo =>
        match a_configData.Element with
        | ElementType.kBipedObjectSlots =>
          match a_configData.AssignValue with
          | some a =>
            match a.castUInt32 with
            | none => none
            | some v =>
              some (PatchMap.modify PatchData.init (fun pd => { pd with BipedObjectSlots := some v })
                g_patchMap armo)
          | none => some g_patchMap
        | ElementType.kFullName =>
          match a_configData.AssignValue with
          | some a =>
            match a.castString with
            | none => none
            | some v =>
              some (PatchMap.modify PatchData.init (fun pd => { pd with FullName := some v })
                g_patchMap armo)
          | none => some g_patchMap
        | ElementType.kObjectEffect =>
          match a_configData.AssignValue with
          | none => some g_patchMap
          | some a =>
            match a.castString with
            | none => none
            | some effectFormStr =>
              if effectFormStr = "null" then
                some (PatchMap.modify PatchData.init (fun pd => { pd with ObjectEffect := some none })
                  g_patchMap armo)
              else
                match getForm effectFormStr with
                | none => some g_patchMap
                | some effectForm =>
                  match effectForm.As FormType.Enchantment with
                  | none => some g_patchMap
                  | some objectEffect =>
                    some (PatchMap.modify PatchData.init
                      (fun pd => { pd with ObjectEffect := some (some objectEffect) })
                      g_patchMap armo)

/-- The function `Prepare(const std::vector<Parsers::Statement<ConfigData>>&)`. -/
def PrepareVec (getForm : String → Option TESForm) (env : Condition → Bool)
    (g_patchMap : List (TESForm × PatchData)) (a_configVec : List (Statement ConfigData)) :
    Option (List (TESForm × PatchData)) :=
  PrepareStatements env (Prepare getForm) g_patchMap a_configVec

/-- The fields of a `RE::TESObjectARMO` record that the patcher writes. -/
structure TESObjectARMO where
  bipedObjectSlots : Nat
  fullName : String
  formEnchanting : Option TESForm
deriving DecidableEq

/-- The module state: the globals `g_configVec` and `g_patchMap`, and the armor
records of the store. -/
structure State where
  g_configVec : List (Statement ConfigData)
  g_patchMap : List (TESForm × PatchData)
  armors : TESForm → TESObjectARMO

/-- The body of the apply loop of `Patch()`, on the record of one entry. -/
def PatchArmor (armo : TESObjectARMO) (patchData : PatchData) : TESObjectARMO :=
  let armo :=
    match patchData.BipedObjectSlots with
    | some v => { armo with bipedObjectSlots := v }
    | none => armo
  let armo :=
    match patchData.FullName with
    | some v => { armo with fullName := v }
    | none => armo
  match patchData.ObjectEffect with
  | some v => { armo with formEnchanting := v }
  | none => armo

/-- The loop `for (const auto& patchData : g_patchMap)` of `Patch()`. -/
def PatchAll (g_patchMap : List (TESForm × PatchData)) (armors : TESForm → TESObjectARMO) :
    TESForm → TESObjectARMO :=
  g_patchMap.foldl (fun st e => Function.update st e.1 (PatchArmor (st e.1) e.2)) armors

/-- The function `Patch()`: prepare, apply, then clear both globals. -/
def Patch (getForm : String → Option TESForm) (env : Condition → Bool) (st : State) :
    Option State :=
  match PrepareVec getForm env st.g_patchMap st.g_configVec with
  | none => none
  | some m => some ⟨[], [], PatchAll m st.armors⟩

end Armors

/-! ## Specification vocabulary and sample inputs -/

/-- The sequence of arguments with which `Prepare(const ConfigData&)` is called
while `Prepare(const std::vector<...>&)` runs on `a_configVec`: the loop of
`PrepareStatements` with a callee that only records its argument. -/
def PrepareCalls {α : Type} (env : Condition → Bool) (a_configVec : List (Statement α)) :
    Option (List α) :=
  PrepareStatements env (fun log d => some (log ++ [d])) [] a_configVec

/-- A sample store lookup: one record of each kind the patcher targets. -/
def sampleForms : String → Option TESForm
  | "Loc" => some ⟨1, FormType.Location⟩
  | "Kw" => some ⟨2, FormType.Keyword⟩
  | "Qst" => some ⟨3, FormType.Quest⟩
  | "Armo" => some ⟨4, FormType.Armor⟩
  | "Arma" => some ⟨5, FormType.ArmorAddon⟩
  | "Ench" => some ⟨6, FormType.Enchantment⟩
  | _ => none

/-- A sample environment in which the condition `yes` holds and no other. -/
def sampleEnv (c : Condition) : Bool := decide (c.text = "yes")

/-- A sample `ParseForm`: a reference is a single token. -/
def sampleParseForm (reader : Reader) : Option String × Reader :=
  let (token, reader) := reader.GetToken
  if token = "" then (none, reader) else (some token, reader)

/-- A sample Quests statement whose filter reference is not in the store. -/
def Quests.sampleUnresolved : Quests.ConfigData :=
  ⟨Quests.FilterType.kFormID, "Missing", Quests.ElementType.kFullName, some "x"⟩

/-- A sample Quests statement naming the quest of the sample store. -/
def Quests.sampleRename (name : String) : Quests.ConfigData :=
  ⟨Quests.FilterType.kFormID, "Qst", Quests.ElementType.kFullName, some name⟩

/-- A sample conditional whose only branch has a condition that is false in
`sampleEnv`, and whose body holds a statement with an unresolvable reference. -/
def Quests.sampleDead : List (Option Condition × List (Statement Quests.ConfigData)) :=
  [(some ⟨"no"⟩, [Statement.expression Quests.sampleUnresolved])]

/-- The reference replay of the spec, in its words: the collection `L` emptied if
the Clear flag `c` is set, then with each member of `D` that is present removed,
then with every element of `A` appended in order, then with each element of `U`
appended only if it is not present at that moment. -/
def Locations.replay (L : List TESForm) (c : Bool) (D A U : List TESForm) : List TESForm :=
  let afterClear := if c then [] else L
  let afterDelete :=
    D.foldl (fun l d => if d ∈ l then Locations.RemoveKeyword l d else l) afterClear
  let afterAdd := A.foldl (fun l a => Locations.AddKeyword l a) afterDelete
  U.foldl (fun l u => if u ∈ l then l else Locations.AddKeyword l u) afterAdd

/-- The operations that a flat statement list holds for the location `T`: those of
the statements whose filter resolves to `T`, in statement order. -/
def Locations.operationsOn (getForm : String → Option TESForm) (T : TESForm) :
    List Locations.ConfigData → List Locations.Operation
  | [] => []
  | c :: rest =>
    (if (getForm c.FilterForm).bind (fun f => f.As FormType.Location) = some T
      then c.Operations else []) ++ Locations.operationsOn getForm T rest

/-- The keywords that the operations of kind `t` in `ops` resolve to, in order;
operations whose argument does not resolve to a keyword are left out. -/
def Locations.resolvedArgs (getForm : String → Option TESForm) (t : Locations.OperationType)
    (ops : List Locations.Operation) : List TESForm :=
  ops.filterMap (fun op =>
    if op.OpType = t then (op.OpForm.bind getForm).bind (fun f => f.As FormType.Keyword)
    else none)

/-- The pending keyword data of the location `T` in the patch map, value-initialised
when `T` has no entry or its `Keywords` is empty. -/
def Locations.pendingKeywords (m : List (TESForm × Locations.PatchData)) (T : TESForm) :
    Locations.KeywordsData :=
  ((PatchMap.find m T).getD Locations.PatchData.init).Keywords.getD Locations.KeywordsData.init

/-- A sample Locations statement: `Clear`, `Add(Kw)` and `Delete(Kw)` on the
location of the sample store. -/
def Locations.sampleClearAddDelete : Locations.ConfigData :=
  ⟨Locations.FilterType.kFormID, "Loc", Locations.ElementType.kKeywords,
    [⟨Locations.OperationType.kClear, none⟩, ⟨Locations.OperationType.kAdd, some "Kw"⟩,
      ⟨Locations.OperationType.kDelete, some "Kw"⟩]⟩

/-- A sample Locations state: the statement `sampleClearAddDelete` is loaded, the
patch map is empty and every location holds the keyword of the sample store. -/
def Locations.sampleState : Locations.State :=
  ⟨[Statement.expression Locations.sampleClearAddDelete], [], fun _ => [⟨2, FormType.Keyword⟩]⟩

/-- A sample batch: `Add` of the sample keyword twice and `AddIfNotExists` of it. -/
def Locations.sampleAddTwice : Locations.KeywordsData :=
  ⟨false, [⟨2, FormType.Keyword⟩, ⟨2, FormType.Keyword⟩], [⟨2, FormType.Keyword⟩], []⟩

/-- The keyword array of the location `T` after `Patch()`, when `Patch()` returns. -/
def Locations.keywordsAfterPatch (getForm : String → Option TESForm) (env : Condition → Bool)
    (st : Locations.State) (T : TESForm) : Option (List TESForm) :=
  (Locations.Patch getForm env st).map (fun st' => st'.keywords T)

/-- A sample Locations state: `Delete(Kw)` and `Add(Kw)` in one statement, `Clear`
in a second one, both on the location of the sample store, which holds the
keyword. -/
def Locations.sampleSpread : Locations.State :=
  ⟨[Statement.expression ⟨Locations.FilterType.kFormID, "Loc", Locations.ElementType.kKeywords,
      [⟨Locations.OperationType.kDelete, some "Kw"⟩, ⟨Locations.OperationType.kAdd, some "Kw"⟩]⟩,
    Statement.expression ⟨Locations.FilterType.kFormID, "Loc", Locations.ElementType.kKeywords,
      [⟨Locations.OperationType.kClear, none⟩]⟩],
   [], fun _ => [⟨2, FormType.Keyword⟩]⟩

/-- The statement `c` assigns the FullName of the quest `T` the value `v`: its
filter resolves to `T` as a quest and it carries the value `v`. -/
def Quests.assignsFullName (getForm : String → Option TESForm) (T : TESForm)
    (c : Quests.ConfigData) (v : String) : Prop :=
  (getForm c.FilterForm).bind (fun f => f.As FormType.Quest) = some T ∧
    c.Element = Quests.ElementType.kFullName ∧ c.AssignValue = some v

/-- The statement `c` assigns the BipedObjectSlots of the armor addon `T` the value
`v`. -/
def ArmorAddons.assignsSlots (getForm : String → Option TESForm) (T : TESForm)
    (c : ArmorAddons.ConfigData) (v : Nat) : Prop :=
  (getForm c.FilterForm).bind (fun f => f.As FormType.ArmorAddon) = some T ∧
    c.Element = ArmorAddons.ElementType.kBipedObjectSlots ∧ c.AssignValue = some v

/-- The statement `c` assigns the FullName of the armor `T` the value `v`. -/
def Armors.assignsFullName (getForm : String → Option TESForm) (T : TESForm)
    (c : Armors.ConfigData) (v : String) : Prop :=
  (getForm c.FilterForm).bind (fun f => f.As FormType.Armor) = some T ∧
    c.Element = Armors.ElementType.kFullName ∧ c.AssignValue = some (Armors.AnyValue.string v)

/-- The statement `c` assigns the BipedObjectSlots of the armor `T` the value `v`. -/
def Armors.assignsSlots (getForm : String → Option TESForm) (T : TESForm)
    (c : Armors.ConfigData) (v : Nat) : Prop :=
  (getForm c.FilterForm).bind (fun f => f.As FormType.Armor) = some T ∧
    c.Element = Armors.ElementType.kBipedObjectSlots ∧
    c.AssignValue = some (Armors.AnyValue.uint32 v)

/-- The stored type of `AssignValue`, when present, matches the element: a
`std::uint32_t` for BipedObjectSlots, a `std::string` for FullName and
ObjectEffect. -/
def Armors.WellTyped (c : Armors.ConfigData) : Prop :=
  match c.Element, c.AssignValue with
  | _, none => True
  | Armors.ElementType.kBipedObjectSlots, some (Armors.AnyValue.uint32 _) => True
  | Armors.ElementType.kFullName, some (Armors.AnyValue.string _) => True
  | Armors.ElementType.kObjectEffect, some (Armors.AnyValue.string _) => True
  | _, _ => False

/-- A sample Quests state: the quest of the sample store is renamed `a`, then `b`
inside a conditional whose condition holds in `sampleEnv`; a last statement has
an unresolvable filter. -/
def Quests.sampleState : Quests.State :=
  ⟨[Statement.expression (Quests.sampleRename "a"),
    Statement.conditional [(some ⟨"yes"⟩, [Statement.expression (Quests.sampleRename "b")])],
    Statement.expression Quests.sampleUnresolved],
   [], fun _ => ⟨"old"⟩⟩

/-- A numeral token: a non-empty token made of decimal digits only. -/
def isNumeral (token : String) : Prop :=
  token.data ≠ [] ∧ ∀ c ∈ token.data, c.isDigit = true

/-- The number a numeral token denotes. -/
def numeralValue (token : String) : Nat :=
  token.data.foldl (fun acc c => 10 * acc + (c.toNat - '0'.toNat)) 0

/-- The tokens of the slot list `v1 | v2 | ... | vn`: the decimal numerals of the
values, separated by the token `|`. -/
def slotTokens : List Nat → List String
  | [] => []
  | [v] => [toString v]
  | v :: rest => toString v :: "|" :: slotTokens rest

/-- The slot values that `GetBipedSlots` prints for a mask: `ii + 30` for every set
bit `ii`, in increasing order. -/
def ArmorAddons.printedSlots (a_bipedObjSlots : Nat) : List Nat :=
  ((List.range 32).filter (fun ii => a_bipedObjSlots &&& ((1 <<< ii) % 2 ^ 32) ≠ 0)).map
    (fun ii => ii + 30)

/-- A sample Locations statement list on the location of the sample store: `Add(Kw)`
and `AddIfNotExists(Kw)` in a first statement, then `AddIfNotExists(Kw)`,
`Add(Kw)` and `Delete(Kw)` in a second one. -/
def Locations.sampleAccumulate : List (Statement Locations.ConfigData) :=
  [Statement.expression ⟨Locations.FilterType.kFormID, "Loc", Locations.ElementType.kKeywords,
      [⟨Locations.OperationType.kAdd, some "Kw"⟩,
        ⟨Locations.OperationType.kAddIfNotExists, some "Kw"⟩]⟩,
    Statement.expression ⟨Locations.FilterType.kFormID, "Loc", Locations.ElementType.kKeywords,
      [⟨Locations.OperationType.kAddIfNotExists, some "Kw"⟩,
        ⟨Locations.OperationType.kAdd, some "Kw"⟩,
        ⟨Locations.OperationType.kDelete, some "Kw"⟩]⟩]

/-- The statement `if (!patchData.Keywords.has_value()) patchData.Keywords =
PatchData::KeywordsData{};` of `Locations::Prepare`, with `patchData` the
reference `g_patchMap[location]`, as a step on the module state (the globals and
the record store, which `Prepare` reaches through the pointers it resolves). -/
def Locations.initKeywords (st : Locations.State) (location : TESForm) : Locations.State :=
  { st with
    g_patchMap :=
      PatchMap.modify Locations.PatchData.init
        (fun pd => ⟨some (pd.Keywords.getD Locations.KeywordsData.init)⟩) st.g_patchMap location }

/-- A write `patchData.Keywords->... = ...` of `Locations::Prepare`, with `patchData`
the reference `g_patchMap[location]`, as a step on the module state. -/
def Locations.writeKeywords (st : Locations.State) (location : TESForm)
    (f : Locations.KeywordsData → Locations.KeywordsData) : Locations.State :=
  { st with
    g_patchMap :=
      PatchMap.modify Locations.PatchData.init (fun pd => ⟨pd.Keywords.map f⟩)
        st.g_patchMap location }

/-- The body of the loop over `a_configData.Operations` in `Locations::Prepare`, as a
step on the module state; `none` is `std::bad_optional_access` escaping. -/
def Locations.PrepareOperationState (getForm : String → Option TESForm) (location : TESForm)
    (st : Locations.State) (op : Locations.Operation) : Option Locations.State :=
  if op.OpType = Locations.OperationType.kClear then
    some (Locations.writeKeywords st location (fun kd => { kd with Clear := true }))
  else if op.OpType = Locations.OperationType.kAdd
      ∨ op.OpType = Locations.OperationType.kAddIfNotExists
      ∨ op.OpType = Locations.OperationType.kDelete then
    match op.OpForm with
    | none => none
    | some s =>
      match getForm s with
      | none => some st
      | some opForm =>
        match opForm.As FormType.Keyword with
        | none => some st
        | some keywordForm =>
          if op.OpType = Locations.OperationType.kAdd then
            some (Locations.writeKeywords st location
              (fun kd => { kd with AddKeywordVec := kd.AddKeywordVec ++ [keywordForm] }))
          else if op.OpType = Locations.OperationType.kAddIfNotExists then
            some (Locations.writeKeywords st location
              (fun kd => { kd with
                AddUniqueKeywordSet := Locations.setInsert kd.AddUniqueKeywordSet keywordForm }))
          else
            some (Locations.writeKeywords st location
              (fun kd => { kd with DeleteKeywordVec := kd.DeleteKeywordVec ++ [keywordForm] }))
  else
    some st

/-- The loop `for (const auto& op : a_configData.Operations)` of `Locations::Prepare`,
on the module state. -/
def Locations.PrepareOperationsState (getForm : String → Option TESForm) (location : TESForm) :
    Locations.State → List Locations.Operation → Option Locations.State
  | st, [] => some st
  | st, op :: ops =>
    match Locations.PrepareOperationState getForm location st op with
    | none => none
    | some st' => Locations.PrepareOperationsState getForm location st' ops

/-- The function `Locations::Prepare(const ConfigData&)` as a step on the module
state: the globals `g_configVec` and `g_patchMap` and the keyword arrays of the
record store, which the function could reach through the `RE::BGSLocation*` it
resolves. -/
def Locations.PrepareState (getForm : String → Option TESForm) (st : Locations.State)
    (a_configData : Locations.ConfigData) : Option Locations.State :=
  match a_configData.Filter with
  | Locations.FilterType.kFormID =>
    match getForm a_configData.FilterForm with
    | none => some st
    | some filterForm =>
      match filterForm.As FormType.Location with
      | none => some st
      | some location =>
        match a_configData.Element with
        | Locations.ElementType.kKeywords =>
          Locations.PrepareOperationsState getForm location (Locations.initKeywords st location)
            a_configData.Operations

/-- The call `Prepare(g_configVec)` at the start of `Locations::Patch()`, on the
module state: the loop of `Prepare(const std::vector<...>&)` over the statement
list held in `g_configVec`, every expression statement going to
`Locations.PrepareState`. -/
def Locations.PreparePhase (getForm : String → Option TESForm) (env : Condition → Bool)
    (st : Locations.State) : Option Locations.State :=
  PrepareStatements env (Locations.PrepareState getForm) st st.g_configVec

/-- The rest of `Locations::Patch()` after `Prepare(g_configVec)`: the apply loop
and the clearing of both globals. -/
def Locations.ApplyPhase (st : Locations.State) : Locations.State :=
  ⟨[], [], Locations.PatchAll st.g_patchMap st.keywords⟩

/-- The function `Quests::Prepare(const ConfigData&)` as a step on the module state:
the globals and the quest records of the store, which the function could reach
through the `RE::TESQuest*` it resolves. -/
def Quests.PrepareState (getForm : String → Option TESForm) (st : Quests.State)
    (a_configData : Quests.ConfigData) : Quests.State :=
  match a_configData.Filter with
  | Quests.FilterType.kFormID =>
    match getForm a_configData.FilterForm with
    | none => st
    | some filterForm =>
      match filterForm.As FormType.Quest with
      | none => st
      | some quest =>
        match a_configData.Element with
        | Quests.ElementType.kFullName =>
          match a_configData.AssignValue with
          | some v =>
            { st with
              g_patchMap :=
                PatchMap.modify Quests.PatchData.init (fun pd => { pd with FullName := some v })
                  st.g_patchMap quest }
          | none => st

/-- The call `Prepare(g_configVec)` at the start of `Quests::Patch()`, on the module
state. -/
def Quests.PreparePhase (getForm : String → Option TESForm) (env : Condition → Bool)
    (st : Quests.State) : Option Quests.State :=
  PrepareStatements env (fun s c => some (Quests.PrepareState getForm s c)) st st.g_configVec

/-- The rest of `Quests::Patch()` after `Prepare(g_configVec)`. -/
def Quests.ApplyPhase (st : Quests.State) : Quests.State :=
  ⟨[], [], Quests.PatchAll st.g_patchMap st.quests⟩

/-- The function `Armors::Prepare(const ConfigData&)` as a step on the module state:
the globals and the armor records of the store, which the function could reach
through the `RE::TESObjectARMO*` it resolves; `none` is a `std::bad_any_cast`
escaping. -/
def Armors.PrepareState (getForm : String → Option TESForm) (st : Armors.State)
    (a_configData : Armors.ConfigData) : Option Armors.State :=
  match a_configData.Filter with
  | Armors.FilterType.kFormID =>
    match getForm a_configData.FilterForm with
    | none => some st
    | some filterForm =>
      match filterForm.As FormType.Armor with
      | none => some st
      | some armo =>
        match a_configData.Element with
        | Armors.ElementType.kBipedObjectSlots =>
          match a_configData.AssignValue with
          | some a =>
            match a.castUInt32 with
            | none => none
            | some v =>
              some { st with
                g_patchMap :=
                  PatchMap.modify Armors.PatchData.init
                    (fun pd => { pd with BipedObjectSlots := some v }) st.g_patchMap armo }
          | none => some st
        | Armors.ElementType.kFullName =>
          match a_configData.AssignValue with
          | some a =>
            match a.castString with
            | none => none
            | some v =>
              some { st with
                g_patchMap :=
                  PatchMap.modify Armors.PatchData.init
                    (fun pd => { pd with FullName := some v }) st.g_patchMap armo }
          | none => some st
        | Armors.ElementType.kObjectEffect =>
          match a_configData.AssignValue with
          | none => some st
          | some a =>
            match a.castString with
            | none => none
            | some effectFormStr =>
              if effectFormStr = "null" then
                some { st with
                  g_patchMap :=
                    PatchMap.modify Armors.PatchData.init
                      (fun pd => { pd with ObjectEffect := some none }) st.g_patchMap armo }
              else
                match getForm effectFormStr with
                | none => some st
                | some effectForm =>
                  match effectForm.As FormType.Enchantment with
                  | none => some st
                  | some objectEffect =>
                    some { st with
                      g_patchMap :=
                        PatchMap.modify Armors.PatchData.init
                          (fun pd => { pd with ObjectEffect := some (some objectEffect) })
                          st.g_patchMap armo }

/-- The call `Prepare(g_configVec)` at the start of `Armors::Patch()`, on the module
state. -/
def Armors.PreparePhase (getForm : String → Option TESForm) (env : Condition → Bool)
    (st : Armors.State) : Option Armors.State :=
  PrepareStatements env (Armors.PrepareState getForm) st st.g_configVec

/-- The rest of `Armors::Patch()` after `Prepare(g_configVec)`. -/
def Armors.ApplyPhase (st : Armors.State) : Armors.State :=
  ⟨[], [], Armors.PatchAll st.g_patchMap st.armors⟩

/-- The function `ArmorAddons::Prepare(const ConfigData&)` as a step on the module
state: the globals and the armor addon records of the store, which the function
could reach through the `RE::TESObjectARMA*` it resolves. -/
def ArmorAddons.PrepareState (getForm : String → Option TESForm) (st : ArmorAddons.State)
    (a_configData : ArmorAddons.ConfigData) : ArmorAddons.State :=
  match a_configData.Filter with
  | ArmorAddons.FilterType.kFormID =>
    match getForm a_configData.FilterForm with
    | none => st
    | some filterForm =>
      match filterForm.As FormType.ArmorAddon with
      | none => st
      | some arma =>
        match a_configData.Element with
        | ArmorAddons.ElementType.kBipedObjectSlots =>
          match a_configData.AssignValue with
          | some v =>
            { st with
              g_patchMap :=
                PatchMap.modify ArmorAddons.PatchData.init
                  (fun pd => { pd with BipedObjectSlots := some v }) st.g_patchMap arma }
          | none => st

/-- The call `Prepare(g_configVec)` at the start of `ArmorAddons::Patch()`, on the
module state. -/
def ArmorAddons.PreparePhase (getForm : String → Option TESForm) (env : Condition → Bool)
    (st : ArmorAddons.State) : Option ArmorAddons.State :=
  PrepareStatements env (fun s c => some (ArmorAddons.PrepareState getForm s c)) st
    st.g_configVec

/-- The rest of `ArmorAddons::Patch()` after `Prepare(g_configVec)`. -/
def ArmorAddons.ApplyPhase (st : ArmorAddons.State) : ArmorAddons.State :=
  ⟨[], [], ArmorAddons.PatchAll st.g_patchMap st.armorAddons⟩

/-- A sample Armors state: the armor of the sample store gets a new name, and the
record holds slots 5, the name `old` and no enchantment. -/
def Armors.sampleState : Armors.State :=
  ⟨[Statement.expression ⟨Armors.FilterType.kFormID, "Armo", Armors.ElementType.kFullName,
      some (Armors.AnyValue.string "new")⟩],
   [], fun _ => ⟨5, "old", none⟩⟩

/-- The `RemoveKeyword` calls made by the loop `for (auto kywd : delVec)` of
`PatchKeywords`: each call with its argument and the keyword array of the
location at the moment of the call. -/
def Locations.removeCalls : List TESForm → List TESForm → List (TESForm × List TESForm)
  | [], _ => []
  | kywd :: rest, keywords =>
    (kywd, keywords) :: Locations.removeCalls rest (Locations.RemoveKeyword keywords kywd)

/-- The `RemoveKeyword` calls made by the Delete pass of `PatchKeywords` on a
location with the keyword array `keywords`: the pass of `PatchKeywords` with the
calls recorded. -/
def Locations.deleteCalls (keywords : List TESForm) (a_keywordsData : Locations.KeywordsData) :
    List (TESForm × List TESForm) :=
  let isCleared := a_keywordsData.Clear
  let l1 := if a_keywordsData.Clear then Locations.ClearKeywords keywords else keywords
  if !isCleared && !a_keywordsData.DeleteKeywordVec.isEmpty then
    let delVec :=
      a_keywordsData.DeleteKeywordVec.filter (fun delKywd => Locations.KeywordExists l1 delKywd)
    Locations.removeCalls delVec l1
  else []

/-- The value `ParseBipedSlot` returns for a token: it depends on the token alone. -/
def ArmorAddons.slotValue (token : String) : Option Nat :=
  (ArmorAddons.ParseBipedSlot ⟨[token]⟩).1

/-- The token that `PrintExpressionStatement` renders for a FullName: a double
quote, the characters of `s`, a double quote. -/
def quoted (s : String) : String := String.mk ('"' :: (s.data ++ ['"']))

namespace Quests

/-- The value-initialised `ConfigData configData{}`. -/
def ConfigData.init : ConfigData := ⟨FilterType.kFormID, "", ElementType.kFullName, none⟩

/-- The function `QuestParser::ParseFilter`; `parseForm` is `ParseForm()` of
`Parsers.h`. -/
def ParseFilter (parseForm : Reader → Option String × Reader) (reader : Reader)
    (a_config : ConfigData) : Bool × Reader × ConfigData :=
  let (token, reader) := reader.GetToken
  if token = "FilterByFormID" then
    let a_config := { a_config with Filter := FilterType.kFormID }
    let (token, reader) := reader.GetToken
    if token ≠ "(" then (false, reader, a_config)
    else
      match parseForm reader with
      | (none, reader) => (false, reader, a_config)
      | (some filterForm, reader) =>
        let a_config := { a_config with FilterForm := filterForm }
        let (token, reader) := reader.GetToken
        if token ≠ ")" then (false, reader, a_config)
        else (true, reader, a_config)
  else (false, reader, a_config)

/-- The function `QuestParser::ParseElement`. -/
def ParseElement (reader : Reader) (a_config : ConfigData) : Bool × Reader × ConfigData :=
  let (token, reader) := reader.GetToken
  if token = "FullName" then
    (true, reader, { a_config with Element := ElementType.kFullName })
  else (false, reader, a_config)

/-- The function `QuestParser::ParseAssignment`; the stored value is
`token.substr(1, token.length() - 2)`, see `Armors.unquote`. -/
def ParseAssignment (reader : Reader) (a_config : ConfigData) : Bool × Reader × ConfigData :=
  let (token, reader) := reader.GetToken
  if token ≠ "=" then (false, reader, a_config)
  else
    let (token, reader) := reader.GetToken
    if ¬ token.data.head? = some '"' then (false, reader, a_config)
    else if ¬ token.data.getLast? = some '"' then (false, reader, a_config)
    else (true, reader, { a_config with AssignValue := some (Armors.unquote token) })

/-- The function `QuestParser::ParseExpressionStatement`. -/
def ParseExpressionStatement (parseForm : Reader → Option String × Reader) (reader : Reader) :
    Option (Statement ConfigData) × Reader :=
  if reader.EndOfFile ∨ reader.Peek = "" then (none, reader)
  else
    match ParseFilter parseForm reader ConfigData.init with
    | (false, reader, _) => (none, reader)
    | (true, reader, configData) =>
      let (token, reader) := reader.GetToken
      if token ≠ "." then (none, reader)
      else
        match ParseElement reader configData with
        | (false, reader, _) => (none, reader)
        | (true, reader, configData) =>
          match ParseAssignment reader configData with
          | (false, reader, _) => (none, reader)
          | (true, reader, configData) =>
            let (token, reader) := reader.GetToken
            if token ≠ ";" then (none, reader)
            else (some (Statement.expression configData), reader)

end Quests

namespace Locations

/-- The value-initialised `ConfigData configData{}`. -/
def ConfigData.init : ConfigData := ⟨FilterType.kFormID, "", ElementType.kKeywords, []⟩

/-- The function `LocationParser::ParseFilter`; `parseForm` is `ParseForm()` of
`Parsers.h`. -/
def ParseFilter (parseForm : Reader → Option String × Reader) (reader : Reader)
    (a_configData : ConfigData) : Bool × Reader × ConfigData :=
  let (token, reader) := reader.GetToken
  if token = "FilterByFormID" then
    let a_configData := { a_configData with Filter := FilterType.kFormID }
    let (token, reader) := reader.GetToken
    if token ≠ "(" then (false, reader, a_configData)
    else
      match parseForm reader with
      | (none, reader) => (false, reader, a_configData)
      | (some filterForm, reader) =>
        let a_configData := { a_configData with FilterForm := filterForm }
        let (token, reader) := reader.GetToken
        if token ≠ ")" then (false, reader, a_configData)
        else (true, reader, a_configData)
  else (false, reader, a_configData)

/-- The function `LocationParser::ParseElement`. -/
def ParseElement (reader : Reader) (a_configData : ConfigData) : Bool × Reader × ConfigData :=
  let (token, reader) := reader.GetToken
  if token = "Keywords" then
    (true, reader, { a_configData with Element := ElementType.kKeywords })
  else (false, reader, a_configData)

/-- The chain `if (token == "Clear") ... else if ...` of `ParseOperation`: the
operation kind a token names, if any. -/
def operationOfToken (token : String) : Option OperationType :=
  if token = "Clear" then some OperationType.kClear
  else if token = "Add" then some OperationType.kAdd
  else if token = "AddIfNotExists" then some OperationType.kAddIfNotExists
  else if token = "Delete" then some OperationType.kDelete
  else none

/-- The end of `ParseOperation`, from `token = reader.GetToken(); if (token != ")")`
on: the closing parenthesis is read and the operation is appended. -/
def closeOperation (reader : Reader) (a_configData : ConfigData) (opType : OperationType)
    (opData : Option String) : Bool × Reader × ConfigData :=
  let (token, reader) := reader.GetToken
  if token ≠ ")" then (false, reader, a_configData)
  else
    (true, reader,
      { a_configData with Operations := a_configData.Operations ++ [⟨opType, opData⟩] })

/-- The function `LocationParser::ParseOperation`; `parseForm` is `ParseForm()` of
`Parsers.h`. -/
def ParseOperation (parseForm : Reader → Option String × Reader) (reader : Reader)
    (a_configData : ConfigData) : Bool × Reader × ConfigData :=
  let (token, reader) := reader.GetToken
  match operationOfToken token with
  | none => (false, reader, a_configData)
  | some opType =>
    let (token, reader) := reader.GetToken
    if token ≠ "(" then (false, reader, a_configData)
    else if opType ≠ OperationType.kClear then
      match parseForm reader with
      | (none, reader) => (false, reader, a_configData)
      | (some opData, reader) => closeOperation reader a_configData opType (some opData)
    else closeOperation reader a_configData opType none

/-- The outcome of the `while (true)` loop of `ParseExpressionStatement`. -/
inductive OperationLoop where
  | done (reader : Reader) (configData : ConfigData)
  | failed (reader : Reader)
  | running
deriving DecidableEq

/-- The `while (true)` loop of `ParseExpressionStatement`, run for at most `fuel`
iterations; `running` means the loop has not left after `fuel` iterations. -/
def operationLoop (parseForm : Reader → Option String × Reader) :
    Nat → Reader → ConfigData → OperationLoop
  | 0, _, _ => OperationLoop.running
  | fuel + 1, reader, configData =>
    if reader.Peek = ";" then
      let (_, reader) := reader.GetToken
      OperationLoop.done reader configData
    else
      let (token, reader) := reader.GetToken
      if token ≠ "." then OperationLoop.failed reader
      else
        match ParseOperation parseForm reader configData with
        | (false, reader, _) => OperationLoop.failed reader
        | (true, reader, configData) => operationLoop parseForm fuel reader configData

/-- The function `LocationParser::ParseExpressionStatement`: `none` when the loop
does not terminate, otherwise the optional statement and the reader. The loop
is given one iteration more than there are tokens left. -/
def ParseExpressionStatement (parseForm : Reader → Option String × Reader) (reader : Reader) :
    Option (Option (Statement ConfigData) × Reader) :=
  if reader.EndOfFile ∨ reader.Peek = "" then some (none, reader)
  else
    match ParseFilter parseForm reader ConfigData.init with
    | (false, reader, _) => some (none, reader)
    | (true, reader, configData) =>
      let (token, reader) := reader.GetToken
      if token ≠ "." then some (none, reader)
      else
        match ParseElement reader configData with
        | (false, reader, _) => some (none, reader)
        | (true, reader, configData) =>
          let (token, reader) := reader.GetToken
          if token ≠ "." then some (none, reader)
          else
            match ParseOperation parseForm reader configData with
            | (false, reader, _) => some (none, reader)
            | (true, reader, configData) =>
              match operationLoop parseForm (reader.tokens.length + 1) reader configData with
              | OperationLoop.done reader configData =>
                some (some (Statement.expression configData), reader)
              | OperationLoop.failed reader => some (none, reader)
              | OperationLoop.running => none

end Locations

/-- The function `Locations::OperationTypeToString`. -/
def Locations.OperationTypeToString : Locations.OperationType → String
  | Locations.OperationType.kClear => "Clear"
  | Locations.OperationType.kAdd => "Add"
  | Locations.OperationType.kAddIfNotExists => "AddIfNotExists"
  | Locations.OperationType.kDelete => "Delete"

/-- The tokens `toks` are a well-formed reference with the text `text` for
`ParseForm()`: wherever they stand, `parseForm` consumes exactly them and
returns `text`. -/
def acceptsReference (parseForm : Reader → Option String × Reader) (toks : List String)
    (text : String) : Prop :=
  ∀ more, parseForm ⟨toks ++ more⟩ = (some text, ⟨more⟩)

/-- The tokens of one suffix `. Op(arg)` of a Keywords statement, for the operation
kind `opType` and the tokens `argToks` of its argument. -/
def Locations.operationTokens (opType : Locations.OperationType) (argToks : List String) :
    List String :=
  "." :: Locations.OperationTypeToString opType :: "(" :: (argToks ++ [")"])

/-- A textual operation (the `Operation` it denotes, with the tokens of its
argument) is well formed: `Clear` has no argument, and the argument of `Add`,
`AddIfNotExists` and `Delete` is a well-formed reference whose text is the
`OpForm`. -/
def Locations.wellFormedOperation (parseForm : Reader → Option String × Reader)
    (p : Locations.Operation × List String) : Prop :=
  (p.1.OpType = Locations.OperationType.kClear ∧ p.1.OpForm = none ∧ p.2 = []) ∨
  (p.1.OpType ≠ Locations.OperationType.kClear ∧
    ∃ s, p.1.OpForm = some s ∧ acceptsReference parseForm p.2 s)

/-- Every operation of the list has an argument exactly when its kind is not
`Clear`. -/
def Locations.argumentIffNotClear (ops : List Locations.Operation) : Prop :=
  ∀ op ∈ ops, (op.OpForm = none ↔ op.OpType = Locations.OperationType.kClear)

/-- The statement `c` is produced by `LocationParser::ParseExpressionStatement` on
some input. -/
def Locations.parserProduced (parseForm : Reader → Option String × Reader)
    (c : Locations.ConfigData) : Prop :=
  ∃ reader reader', Locations.ParseExpressionStatement parseForm reader
    = some (some (Statement.expression c), reader')

/-- The function `Armors::FilterTypeToString`. -/
def Armors.FilterTypeToString : Armors.FilterType → String
  | Armors.FilterType.kFormID => "FilterByFormID"

/-- The function `Armors::ElementTypeToString`. -/
def Armors.ElementTypeToString : Armors.ElementType → String
  | Armors.ElementType.kBipedObjectSlots => "BipedObjectSlots"
  | Armors.ElementType.kFullName => "FullName"
  | Armors.ElementType.kObjectEffect => "ObjectEffect"

/-- The function `ArmorParser::PrintExpressionStatement`: the line it logs, or
`none` when `AssignValue.value()` throws `std::bad_optional_access` or the
`std::any_cast` throws `std::bad_any_cast`. `getBipedSlots` is `GetBipedSlots`
of `Parsers.h`. -/
def Armors.PrintExpressionStatement (getBipedSlots : Nat → String)
    (a_configData : Armors.ConfigData) (a_indent : Nat) : Option String :=
  let indent := String.mk (List.replicate (a_indent * 4) ' ')
  let head := indent ++ Armors.FilterTypeToString a_configData.Filter ++ "(" ++
    a_configData.FilterForm ++ ")." ++ Armors.ElementTypeToString a_configData.Element
  match a_configData.Element with
  | Armors.ElementType.kBipedObjectSlots =>
    match a_configData.AssignValue with
    | none => none
    | some a =>
      match a.castUInt32 with
      | none => none
      | some v => some (head ++ " = " ++ getBipedSlots v ++ ";")
  | Armors.ElementType.kFullName =>
    match a_configData.AssignValue with
    | none => none
    | some a =>
      match a.castString with
      | none => none
      | some s => some (head ++ " = \"" ++ s ++ "\";")
  | Armors.ElementType.kObjectEffect =>
    match a_configData.AssignValue with
    | none => none
    | some a =>
      match a.castString with
      | none => none
      | some s => some (head ++ " = " ++ s ++ ";")

/-- The `AssignValue` of the statement is present and its stored type matches the
element: a `std::uint32_t` for BipedObjectSlots, a `std::string` for FullName and
ObjectEffect. -/
def Armors.valuePresentAndTyped (c : Armors.ConfigData) : Prop :=
  match c.Element, c.AssignValue with
  | Armors.ElementType.kBipedObjectSlots, some (Armors.AnyValue.uint32 _) => True
  | Armors.ElementType.kFullName, some (Armors.AnyValue.string _) => True
  | Armors.ElementType.kObjectEffect, some (Armors.AnyValue.string _) => True
  | _, _ => False

/-- The statement `c` is produced by `ArmorParser::ParseExpressionStatement` on some
input. -/
def Armors.parserProduced (parseBipedSlot : Reader → Option Nat × Reader)
    (parseForm : Reader → Option String × Reader) (c : Armors.ConfigData) : Prop :=
  ∃ reader reader', Armors.ParseExpressionStatement parseBipedSlot parseForm reader
    = some (some (Statement.expression c), reader')

/-- The variant of `PatchKeywords` that runs the Delete pass unconditionally: the
same passes in the same order, without the `!isCleared` guard on the Delete
pass, so that after a Clear the Delete pass runs on the freshly cleared
collection. -/
def Locations.PatchKeywordsDeleteAlways (keywords : List TESForm)
    (a_keywordsData : Locations.KeywordsData) : List TESForm :=
  -- Clear
  let l1 :=
    if a_keywordsData.Clear then Locations.ClearKeywords keywords else keywords
  -- Delete
  let l2 :=
    if !a_keywordsData.DeleteKeywordVec.isEmpty then
      let delVec :=
        a_keywordsData.DeleteKeywordVec.filter (fun delKywd => Locations.KeywordExists l1 delKywd)
      delVec.foldl Locations.RemoveKeyword l1
    else l1
  -- Add
  let l3 :=
    if !a_keywordsData.AddKeywordVec.isEmpty then
      a_keywordsData.AddKeywordVec.foldl Locations.AddKeyword l2
    else l2
  -- Add if not exists
  if !a_keywordsData.AddUniqueKeywordSet.isEmpty then
    a_keywordsData.AddUniqueKeywordSet.foldl
      (fun l addKywd =>
        if !Locations.KeywordExists l addKywd then Locations.AddKeyword l addKywd else l) l3
  else l3

/-- The pending value that the ObjectEffect text `s` stands for in `Prepare`: the
null pointer for `null`, the enchantment that `s` resolves to otherwise, and
nothing when `s` does not resolve to an enchantment. -/
def Armors.effectOf (getForm : String → Option TESForm) (s : String) :
    Option (Option TESForm) :=
  if s = "null" then some none
  else ((getForm s).bind (fun f => f.As FormType.Enchantment)).map some

/-- The statement `c` is an effective ObjectEffect write of `v` on the armor `T`
(`none` is the null pointer): its filter resolves to `T` as an armor, its
element is ObjectEffect and its value is a string that stands for `v`. -/
def Armors.writesObjectEffect (getForm : String → Option TESForm) (T : TESForm)
    (c : Armors.ConfigData) (v : Option TESForm) : Prop :=
  (getForm c.FilterForm).bind (fun f => f.As FormType.Armor) = some T ∧
    c.Element = Armors.ElementType.kObjectEffect ∧
    ∃ s, c.AssignValue = some (Armors.AnyValue.string s) ∧ Armors.effectOf getForm s = some v

/-- A sample Armors statement assigning the ObjectEffect of the armor of the sample
store. -/
def Armors.sampleEffect (value : String) : Armors.ConfigData :=
  ⟨Armors.FilterType.kFormID, "Armo", Armors.ElementType.kObjectEffect,
    some (Armors.AnyValue.string value)⟩

/-- A sample Armors state: the enchantment of the armor is set to `Ench`, then to
`null`, then to a reference that does not resolve; the armor holds the
enchantment with id 9. -/
def Armors.sampleEffects : Armors.State :=
  ⟨[Statement.expression (Armors.sampleEffect "Ench"),
    Statement.expression (Armors.sampleEffect "null"),
    Statement.expression (Armors.sampleEffect "Missing")],
   [], fun _ => ⟨5, "old", some ⟨9, FormType.Enchantment⟩⟩⟩

/-! ## Statement lists and their flattening -/

namespace Parsers

theorem PrepareEvaluated_eq {σ α : Type} (env : Condition → Bool) (f : σ → α → Option σ) (s : σ)
    (bs : List (Option Condition × List (Statement α))) :
    PrepareEvaluated env f s bs = PrepareStatements env f s (Evaluates env bs) := by
  induction bs with
  | nil => simp [PrepareEvaluated, Evaluates, PrepareStatements]
  | cons b rest ih =>
    obtain ⟨c, body⟩ := b
    cases c with
    | none => simp [PrepareEvaluated, Evaluates]
    | some c =>
      simp only [PrepareEvaluated, Evaluates]
      split <;> simp [ih]

theorem flattenEvaluated_eq {α : Type} (env : Condition → Bool)
    (bs : List (Option Condition × List (Statement α))) :
    flattenEvaluated env bs = flatten env (Evaluates env bs) := by
  induction bs with
  | nil => simp [flattenEvaluated, Evaluates, flatten]
  | cons b rest ih =>
    obtain ⟨c, body⟩ := b
    cases c with
    | none => simp [flattenEvaluated, Evaluates]
    | some c =>
      simp only [flattenEvaluated, Evaluates]
      split <;> simp [ih]

theorem flatten_append {α : Type} (env : Condition → Bool) (xs ys : List (Statement α)) :
    flatten env (xs ++ ys) = flatten env xs ++ flatten env ys := by
  induction xs with
  | nil => simp [flatten]
  | cons x xs ih => simp [flatten, ih]

theorem flatten_conditional_cons {α : Type} (env : Condition → Bool)
    (bs : List (Option Condition × List (Statement α))) (rest : List (Statement α)) :
    flatten env (Statement.conditional bs :: rest)
      = flatten env (Evaluates env bs) ++ flatten env rest := by
  simp [flatten, flattenStatement, flattenEvaluated_eq]

theorem PrepareFlat_append {σ α : Type} (f : σ → α → Option σ) (s : σ) (xs ys : List α) :
    PrepareFlat f s (xs ++ ys) = (PrepareFlat f s xs).bind (fun s' => PrepareFlat f s' ys) := by
  induction xs generalizing s with
  | nil => simp [PrepareFlat]
  | cons x xs ih =>
    simp only [List.cons_append, PrepareFlat]
    cases f s x with
    | none => simp
    | some s' => simpa using ih s'

theorem PrepareFlat_total {σ α : Type} (g : σ → α → σ) (s : σ) (xs : List α) :
    PrepareFlat (fun m c => some (g m c)) s xs = some (xs.foldl g s) := by
  induction xs generalizing s with
  | nil => simp [PrepareFlat]
  | cons x xs ih => simpa [PrepareFlat] using ih (g s x)

mutual
theorem PrepareStatements_flatten {σ α : Type} (env : Condition → Bool) (f : σ → α → Option σ) :
    ∀ (s : σ) (stmts : List (Statement α)),
      PrepareStatements env f s stmts = PrepareFlat f s (flatten env stmts)
  | s, [] => by simp [PrepareStatements, flatten, PrepareFlat]
  | s, st :: rest => by
    simp only [PrepareStatements, flatten, PrepareFlat_append]
    rw [PrepareStatement_flatten env f s st]
    cases PrepareFlat f s (flattenStatement env st) with
    | none => simp
    | some s' => simpa using PrepareStatements_flatten env f s' rest
theorem PrepareStatement_flatten {σ α : Type} (env : Condition → Bool) (f : σ → α → Option σ) :
    ∀ (s : σ) (st : Statement α),
      PrepareStatement env f s st = PrepareFlat f s (flattenStatement env st)
  | s, .expression d => by
    simp only [PrepareStatement, flattenStatement, PrepareFlat]
    cases f s d <;> rfl
  | s, .conditional bs => by
    simp only [PrepareStatement, flattenStatement]
    exact PrepareEvaluated_flatten env f s bs
theorem PrepareEvaluated_flatten {σ α : Type} (env : Condition → Bool) (f : σ → α → Option σ) :
    ∀ (s : σ) (bs : List (Option Condition × List (Statement α))),
      PrepareEvaluated env f s bs = PrepareFlat f s (flattenEvaluated env bs)
  | s, [] => by simp [PrepareEvaluated, flattenEvaluated, PrepareFlat]
  | s, (none, body) :: _ => by
    simp only [PrepareEvaluated, flattenEvaluated]
    exact PrepareStatements_flatten env f s body
  | s, (some c, body) :: rest => by
    simp only [PrepareEvaluated, flattenEvaluated]
    split
    · exact PrepareStatements_flatten env f s body
    · exact PrepareEvaluated_flatten env f s rest
end

theorem PrepareStatements_dead {σ α : Type} (env : Condition → Bool) (f : σ → α → Option σ)
    (s : σ) (pre post : List (Statement α))
    (bs : List (Option Condition × List (Statement α))) (h : Evaluates env bs = []) :
    PrepareStatements env f s (pre ++ Statement.conditional bs :: post)
      = PrepareStatements env f s (pre ++ post) := by
  rw [PrepareStatements_flatten, PrepareStatements_flatten, flatten_append, flatten_append,
    flatten_conditional_cons, h]
  simp [flatten]

end Parsers

/-! ## Claims on `Prepare` (C7, C8, C9) -/

/-- C7: in each of the four domains, `Prepare(const ConfigData&)` on a statement
whose filter reference does not resolve (`GetFormFromString` returns null), or
resolves to a record that is not of the domain's kind, returns normally and
leaves the patch map exactly as it was. -/
theorem C7_unresolved_filter_leaves_patch_map (getForm : String → Option TESForm) :
    (∀ (m : List (TESForm × Locations.PatchData)) (c : Locations.ConfigData),
      (getForm c.FilterForm = none ∨
        ∃ f, getForm c.FilterForm = some f ∧ f.formType ≠ FormType.Location) →
      Locations.Prepare getForm m c = some m) ∧
    (∀ (m : List (TESForm × Quests.PatchData)) (c : Quests.ConfigData),
      (getForm c.FilterForm = none ∨
        ∃ f, getForm c.FilterForm = some f ∧ f.formType ≠ FormType.Quest) →
      Quests.Prepare getForm m c = m) ∧
    (∀ (m : List (TESForm × Armors.PatchData)) (c : Armors.ConfigData),
      (getForm c.FilterForm = none ∨
        ∃ f, getForm c.FilterForm = some f ∧ f.formType ≠ FormType.Armor) →
      Armors.Prepare getForm m c = some m) ∧
    (∀ (m : List (TESForm × ArmorAddons.PatchData)) (c : ArmorAddons.ConfigData),
      (getForm c.FilterForm = none ∨
        ∃ f, getForm c.FilterForm = some f ∧ f.formType ≠ FormType.ArmorAddon) →
      ArmorAddons.Prepare getForm m c = m) := by
  refine ⟨?_, ?_, ?_, ?_⟩
  · intro m c h
    rcases h with h | ⟨f, hf, hk⟩
    · simp [Locations.Prepare, h]
    · simp [Locations.Prepare, hf, TESForm.As, hk]
  · intro m c h
    rcases h with h | ⟨f, hf, hk⟩
    · simp [Quests.Prepare, h]
    · simp [Quests.Prepare, hf, TESForm.As, hk]
  · intro m c h
    rcases h with h | ⟨f, hf, hk⟩
    · simp [Armors.Prepare, h]
    · simp [Armors.Prepare, hf, TESForm.As, hk]
  · intro m c h
    rcases h with h | ⟨f, hf, hk⟩
    · simp [ArmorAddons.Prepare, h]
    · simp [ArmorAddons.Prepare, hf, TESForm.As, hk]

/-- C7, at concrete inputs: a Locations statement filtered on a reference that is not
in the store, and a Quests statement filtered on a keyword, change nothing. -/
theorem C7_unresolved_filter_leaves_patch_map_witness :
    Locations.Prepare sampleForms [(⟨1, FormType.Location⟩, ⟨none⟩)]
        ⟨Locations.FilterType.kFormID, "Missing", Locations.ElementType.kKeywords,
          [⟨Locations.OperationType.kClear, none⟩]⟩
      = some [(⟨1, FormType.Location⟩, ⟨none⟩)] ∧
    Quests.Prepare sampleForms [] ⟨Quests.FilterType.kFormID, "Kw", Quests.ElementType.kFullName,
        some "Name"⟩ = [] :=
  ⟨(C7_unresolved_filter_leaves_patch_map sampleForms).1 _ _ (Or.inl (by decide)),
   (C7_unresolved_filter_leaves_patch_map sampleForms).2.1 _ _
     (Or.inr ⟨(⟨2, FormType.Keyword⟩ : TESForm), by decide, by decide⟩)⟩

/-- C8: dead-branch isolation. In each of the four domains, a conditional statement
whose `Evaluates()` returns the empty list contributes nothing: `Prepare` of a
list containing it gives the same result (patch map, or escaping exception) as
`Prepare` of the list without it, whatever its branch bodies contain, and the
calls of `Prepare(const ConfigData&)` made are those of the list without it, so
that no statement of its branches is passed on. For any conditional, the calls
made are those of the list with the conditional replaced by its `Evaluates()`:
only the chosen branch is passed on. -/
theorem C8_dead_branch_isolation (getForm : String → Option TESForm) (env : Condition → Bool) :
    (∀ (m : List (TESForm × Locations.PatchData)) (pre post : List (Statement Locations.ConfigData))
        (bs : List (Option Condition × List (Statement Locations.ConfigData))),
      Evaluates env bs = [] →
      Locations.PrepareVec getForm env m (pre ++ Statement.conditional bs :: post)
          = Locations.PrepareVec getForm env m (pre ++ post) ∧
        PrepareCalls env (pre ++ Statement.conditional bs :: post) = PrepareCalls env (pre ++ post)) ∧
    (∀ (m : List (TESForm × Quests.PatchData)) (pre post : List (Statement Quests.ConfigData))
        (bs : List (Option Condition × List (Statement Quests.ConfigData))),
      Evaluates env bs = [] →
      Quests.PrepareVec getForm env m (pre ++ Statement.conditional bs :: post)
          = Quests.PrepareVec getForm env m (pre ++ post) ∧
        PrepareCalls env (pre ++ Statement.conditional bs :: post) = PrepareCalls env (pre ++ post)) ∧
    (∀ (m : List (TESForm × Armors.PatchData)) (pre post : List (Statement Armors.ConfigData))
        (bs : List (Option Condition × List (Statement Armors.ConfigData))),
      Evaluates env bs = [] →
      Armors.PrepareVec getForm env m (pre ++ Statement.conditional bs :: post)
          = Armors.PrepareVec getForm env m (pre ++ post) ∧
        PrepareCalls env (pre ++ Statement.conditional bs :: post) = PrepareCalls env (pre ++ post)) ∧
    (∀ (m : List (TESForm × ArmorAddons.PatchData))
        (pre post : List (Statement ArmorAddons.ConfigData))
        (bs : List (Option Condition × List (Statement ArmorAddons.ConfigData))),
      Evaluates env bs = [] →
      ArmorAddons.PrepareVec getForm env m (pre ++ Statement.conditional bs :: post)
          = ArmorAddons.PrepareVec getForm env m (pre ++ post) ∧
        PrepareCalls env (pre ++ Statement.conditional bs :: post) = PrepareCalls env (pre ++ post)) ∧
    (∀ (α : Type) (pre post : List (Statement α))
        (bs : List (Option Condition × List (Statement α))),
      PrepareCalls env (pre ++ Statement.conditional bs :: post)
        = PrepareCalls env (pre ++ (Evaluates env bs ++ post))) :=
  ⟨fun m pre post bs h =>
      ⟨PrepareStatements_dead env _ m pre post bs h, PrepareStatements_dead env _ [] pre post bs h⟩,
   fun m pre post bs h =>
      ⟨PrepareStatements_dead env _ m pre post bs h, PrepareStatements_dead env _ [] pre post bs h⟩,
   fun m pre post bs h =>
      ⟨PrepareStatements_dead env _ m pre post bs h, PrepareStatements_dead env _ [] pre post bs h⟩,
   fun m pre post bs h =>
      ⟨PrepareStatements_dead env _ m pre post bs h, PrepareStatements_dead env _ [] pre post bs h⟩,
   fun α pre post bs => by
      simp only [PrepareCalls]
      rw [PrepareStatements_flatten, PrepareStatements_flatten, flatten_append, flatten_append,
        flatten_append, flatten_conditional_cons]⟩

/-- C8, at a concrete input: a Quests conditional whose only branch has a false
condition and holds a statement with an unresolvable reference. -/
theorem C8_dead_branch_isolation_witness :
    Evaluates sampleEnv Quests.sampleDead = [] ∧
    Quests.PrepareVec sampleForms sampleEnv []
        ([Statement.expression (Quests.sampleRename "a")]
          ++ Statement.conditional Quests.sampleDead
            :: [Statement.expression (Quests.sampleRename "b")])
      = Quests.PrepareVec sampleForms sampleEnv []
        ([Statement.expression (Quests.sampleRename "a")]
          ++ [Statement.expression (Quests.sampleRename "b")]) ∧
    PrepareCalls sampleEnv
        ([Statement.expression (Quests.sampleRename "a")]
          ++ Statement.conditional Quests.sampleDead
            :: [Statement.expression (Quests.sampleRename "b")])
      = PrepareCalls sampleEnv
        ([Statement.expression (Quests.sampleRename "a")]
          ++ [Statement.expression (Quests.sampleRename "b")]) :=
  ⟨by simp [Evaluates, Quests.sampleDead, sampleEnv],
   (C8_dead_branch_isolation sampleForms sampleEnv).2.1 [] _ _ _
     (by simp [Evaluates, Quests.sampleDead, sampleEnv])⟩

/-- C9: in each of the four domains, `Prepare` over a statement list (conditionals
nested to any depth) equals the in-order application of
`Prepare(const ConfigData&)` to the flattening of the list, where the flattening
keeps an expression statement in place and replaces a conditional, in place, by
the flattening of its `Evaluates()`. -/
theorem C9_prepare_equals_prepare_of_flattening
    (getForm : String → Option TESForm) (env : Condition → Bool) :
    (∀ (m : List (TESForm × Locations.PatchData)) (stmts : List (Statement Locations.ConfigData)),
      Locations.PrepareVec getForm env m stmts
        = PrepareFlat (Locations.Prepare getForm) m (flatten env stmts)) ∧
    (∀ (m : List (TESForm × Quests.PatchData)) (stmts : List (Statement Quests.ConfigData)),
      Quests.PrepareVec getForm env m stmts
        = some ((flatten env stmts).foldl (Quests.Prepare getForm) m)) ∧
    (∀ (m : List (TESForm × Armors.PatchData)) (stmts : List (Statement Armors.ConfigData)),
      Armors.PrepareVec getForm env m stmts
        = PrepareFlat (Armors.Prepare getForm) m (flatten env stmts)) ∧
    (∀ (m : List (TESForm × ArmorAddons.PatchData))
        (stmts : List (Statement ArmorAddons.ConfigData)),
      ArmorAddons.PrepareVec getForm env m stmts
        = some ((flatten env stmts).foldl (ArmorAddons.Prepare getForm) m)) ∧
    (∀ (α : Type) (d : α) (rest : List (Statement α)),
      flatten env ([] : List (Statement α)) = [] ∧
      flatten env (Statement.expression d :: rest) = d :: flatten env rest) ∧
    (∀ (α : Type) (bs : List (Option Condition × List (Statement α)))
        (pre post : List (Statement α)),
      flatten env (pre ++ Statement.conditional bs :: post)
        = flatten env pre ++ (flatten env (Evaluates env bs) ++ flatten env post)) := by
  refine ⟨?_, ?_, ?_, ?_, ?_, ?_⟩
  · intro m stmts
    exact PrepareStatements_flatten env _ m stmts
  · intro m stmts
    simp only [Quests.PrepareVec]
    rw [PrepareStatements_flatten, PrepareFlat_total]
  · intro m stmts
    exact PrepareStatements_flatten env _ m stmts
  · intro m stmts
    simp only [ArmorAddons.PrepareVec]
    rw [PrepareStatements_flatten, PrepareFlat_total]
  · intro α d rest
    simp [flatten, flattenStatement]
  · intro α bs pre post
    rw [flatten_append, flatten_conditional_cons]

/-! ## The patch map -/

namespace PatchMap

theorem find_modify_self {V : Type} (dflt : V) (f : V → V) (m : List (TESForm × V)) (k : TESForm) :
    find (modify dflt f m k) k = some (f ((find m k).getD dflt)) := by
  induction m with
  | nil => simp [modify, find]
  | cons e rest ih =>
    obtain ⟨k', v⟩ := e
    by_cases h : k' = k
    · simp [modify, find, h]
    · simp [modify, find, h, ih]

theorem find_modify_ne {V : Type} (dflt : V) (f : V → V) (m : List (TESForm × V)) (k k' : TESForm)
    (h : k' ≠ k) : find (modify dflt f m k) k' = find m k' := by
  induction m with
  | nil => simp [modify, find, Ne.symm h]
  | cons e rest ih =>
    obtain ⟨k'', v⟩ := e
    by_cases h1 : k'' = k
    · subst h1
      simp [modify, find, Ne.symm h]
    · by_cases h2 : k'' = k'
      · subst h2
        simp [modify, find, h1]
      · simp [modify, find, h1, h2, ih]

theorem mem_keys_modify {V : Type} (dflt : V) (f : V → V) (m : List (TESForm × V)) (k k' : TESForm) :
    k' ∈ keys (modify dflt f m k) ↔ k' = k ∨ k' ∈ keys m := by
  induction m with
  | nil => simp [modify, keys]
  | cons e rest ih =>
    obtain ⟨k'', v⟩ := e
    by_cases h1 : k'' = k
    · subst h1
      simp [modify, keys]
    · simp only [modify, h1, if_false, keys, List.map_cons, List.mem_cons] at ih ⊢
      rw [ih]
      tauto

theorem nodup_keys_modify {V : Type} (dflt : V) (f : V → V) (m : List (TESForm × V)) (k : TESForm)
    (h : (keys m).Nodup) : (keys (modify dflt f m k)).Nodup := by
  induction m with
  | nil => simp [modify, keys]
  | cons e rest ih =>
    obtain ⟨k', v⟩ := e
    simp only [keys, List.map_cons, List.nodup_cons] at h
    by_cases h1 : k' = k
    · subst h1
      simpa [modify, keys] using h
    · have hk := mem_keys_modify dflt f rest k k'
      simp only [modify, h1, if_false, keys, List.map_cons, List.nodup_cons]
      refine ⟨?_, ih h.2⟩
      intro hmem
      rcases hk.1 hmem with h2 | h2
      · exact h1 h2
      · exact h.1 h2

theorem find_eq_none_iff {V : Type} (m : List (TESForm × V)) (k : TESForm) :
    find m k = none ↔ k ∉ keys m := by
  induction m with
  | nil => simp [find, keys]
  | cons e rest ih =>
    obtain ⟨k', v⟩ := e
    by_cases h : k' = k
    · simp [find, keys, h]
    · simp only [find, h, if_false, keys, List.map_cons, List.mem_cons, not_or] at ih ⊢
      rw [ih]
      constructor
      · intro h2
        exact ⟨fun h3 => h h3.symm, h2⟩
      · intro h2
        exact h2.2

/-- The apply loop of `Patch()`, read at one record: the record of a key with an
entry is patched once with that entry, every other record is unchanged. -/
theorem foldl_update_apply {V R : Type} (g : R → V → R) (m : List (TESForm × V))
    (st : TESForm → R) (T : TESForm) (h : (keys m).Nodup) :
    (m.foldl (fun st e => Function.update st e.1 (g (st e.1) e.2)) st) T
      = ((find m T).map (fun pd => g (st T) pd)).getD (st T) := by
  induction m generalizing st with
  | nil => simp [find]
  | cons e rest ih =>
    obtain ⟨k, v⟩ := e
    simp only [keys, List.map_cons, List.nodup_cons] at h
    simp only [List.foldl_cons]
    rw [ih _ h.2]
    by_cases hk : k = T
    · subst hk
      have hnone : find rest k = none := (find_eq_none_iff rest k).2 h.1
      simp [find, hnone]
    · simp only [find, hk, if_false]
      have : Function.update st k (g (st k) v) T = st T := by
        simp [Function.update, Ne.symm hk]
      rw [this]

end PatchMap

/-! ## `PatchKeywords` -/

namespace Locations

theorem ClearKeywords_eq_nil (keywords : List TESForm) : ClearKeywords keywords = [] := by
  generalize h : keywords.length = n
  induction n generalizing keywords with
  | zero =>
    have : keywords = [] := List.length_eq_zero.mp h
    subst this
    simp [ClearKeywords]
  | succ n ih =>
    cases keywords with
    | nil => simp [ClearKeywords]
    | cons k rest =>
      rw [ClearKeywords]
      apply ih
      simp only [List.length_cons, Nat.add_right_cancel_iff] at h
      simp [RemoveKeyword, h]

theorem KeywordExists_eq (keywords : List TESForm) (k : TESForm) :
    KeywordExists keywords k = decide (k ∈ keywords) := by
  induction keywords with
  | nil => simp [KeywordExists]
  | cons a rest ih =>
    by_cases h : a = k
    · simp [KeywordExists, h]
    · have h' : ¬ k = a := fun e => h e.symm
      simp [KeywordExists, h, h', ih]

theorem foldl_AddKeyword (l A : List TESForm) : A.foldl AddKeyword l = l ++ A := by
  induction A generalizing l with
  | nil => simp
  | cons a A ih => simp [List.foldl_cons, AddKeyword, ih]

theorem mem_foldl_RemoveKeyword (D l : List TESForm) (x : TESForm)
    (h : x ∈ D.foldl RemoveKeyword l) : x ∈ l := by
  induction D generalizing l with
  | nil => simpa using h
  | cons d D ih =>
    simp only [List.foldl_cons] at h
    exact List.mem_of_mem_erase (ih _ h)

/-- The Delete pass: removing the members of `D` that the collection `L` held
before the pass is the same as removing, in order, each member of `D` that is
present at its turn. -/
theorem delete_pass_eq (L D l : List TESForm) (hl : ∀ x ∈ l, x ∈ L) :
    (D.filter (fun d => KeywordExists L d)).foldl RemoveKeyword l
      = D.foldl (fun l d => if d ∈ l then RemoveKeyword l d else l) l := by
  induction D generalizing l with
  | nil => simp
  | cons d D ih =>
    have hsub : ∀ x ∈ RemoveKeyword l d, x ∈ L := fun x hx =>
      hl x (List.mem_of_mem_erase hx)
    by_cases hd : d ∈ L
    · have hf : KeywordExists L d = true := by simp [KeywordExists_eq, hd]
      rw [List.filter_cons_of_pos hf]
      simp only [List.foldl_cons]
      by_cases hdl : d ∈ l
      · simp only [hdl, if_true]
        exact ih _ hsub
      · simp only [hdl, if_false]
        have : RemoveKeyword l d = l := by
          simp [RemoveKeyword, List.erase_of_not_mem hdl]
        rw [this]
        exact ih _ hl
    · have hf : ¬ KeywordExists L d = true := by simp [KeywordExists_eq, hd]
      rw [List.filter_cons_of_neg hf]
      simp only [List.foldl_cons]
      have hdl : d ∉ l := fun h => hd (hl d h)
      simp only [hdl, if_false]
      exact ih _ hl

theorem PatchKeywords_eq_replay (L : List TESForm) (kd : KeywordsData) :
    PatchKeywords L kd
      = replay L kd.Clear kd.DeleteKeywordVec kd.AddKeywordVec kd.AddUniqueKeywordSet := by
  obtain ⟨c, A, U, D⟩ := kd
  have hU : ∀ l : List TESForm,
      (if (!U.isEmpty) = true then
        U.foldl (fun l addKywd => if (!KeywordExists l addKywd) = true then AddKeyword l addKywd
          else l) l
       else l)
      = U.foldl (fun l u => if u ∈ l then l else AddKeyword l u) l := by
    intro l
    have hfun : (fun (l : List TESForm) addKywd =>
        if (!KeywordExists l addKywd) = true then AddKeyword l addKywd else l)
        = (fun l u => if u ∈ l then l else AddKeyword l u) := by
      funext l u
      by_cases h : u ∈ l <;> simp [KeywordExists_eq, h]
    rw [hfun]
    cases U with
    | nil => simp
    | cons u U => simp
  have hA : ∀ l : List TESForm,
      (if (!A.isEmpty) = true then A.foldl AddKeyword l else l) = A.foldl AddKeyword l := by
    intro l
    cases A with
    | nil => simp
    | cons a A => simp
  simp only [PatchKeywords, replay]
  rw [hU, hA]
  congr 2
  cases c with
  | true =>
    simp only [ClearKeywords_eq_nil, if_true]
    simp only [Bool.not_true, Bool.false_and, Bool.false_eq_true, if_false]
    induction D with
    | nil => simp
    | cons d D ih => simpa using ih
  | false =>
    simp only [Bool.false_eq_true, if_false, Bool.not_false, Bool.true_and]
    cases D with
    | nil => simp
    | cons d D =>
      simp only [List.isEmpty_cons, Bool.not_false, if_true]
      exact delete_pass_eq L (d :: D) L (fun x hx => hx)

end Locations

/-- C4: `PatchKeywords` equals the reference replay Clear, Delete, Add,
AddIfNotExists: for every initial keyword list and every `KeywordsData`, the
result is the list emptied if the Clear flag is set, then with each member of the
Delete list that is present removed, then with every element of the Add list
appended in order, then with each element of the AddIfNotExists set appended only
if it is not present at that moment. -/
theorem C4_PatchKeywords_equals_reference_replay (L : List TESForm)
    (kd : Locations.KeywordsData) :
    Locations.PatchKeywords L kd
      = Locations.replay L kd.Clear kd.DeleteKeywordVec kd.AddKeywordVec
          kd.AddUniqueKeywordSet :=
  Locations.PatchKeywords_eq_replay L kd

namespace Locations

theorem subset_foldl_addUnique (U l : List TESForm) (x : TESForm) (h : x ∈ l) :
    x ∈ U.foldl (fun l u => if u ∈ l then l else AddKeyword l u) l := by
  induction U generalizing l with
  | nil => simpa using h
  | cons u U ih =>
    simp only [List.foldl_cons]
    apply ih
    by_cases hu : u ∈ l
    · simpa [hu] using h
    · simp [hu, AddKeyword, h]

/-- The AddIfNotExists pass skips a keyword that is present when the pass starts. -/
theorem addUnique_pass_filter (U l : List TESForm) (a : TESForm) (h : a ∈ l) :
    U.foldl (fun l u => if u ∈ l then l else AddKeyword l u) l
      = (U.filter (fun u => decide (u ≠ a))).foldl
          (fun l u => if u ∈ l then l else AddKeyword l u) l := by
  induction U generalizing l with
  | nil => simp
  | cons u U ih =>
    by_cases hu : u = a
    · subst hu
      simp only [List.filter_cons, ne_eq, not_true_eq_false, decide_False, Bool.false_eq_true,
        if_false, List.foldl_cons, h, if_true]
      exact ih l h
    · simp only [List.filter_cons, ne_eq, hu, not_false_eq_true, decide_True, if_true,
        List.foldl_cons]
      apply ih
      by_cases hul : u ∈ l
      · simpa [hul] using h
      · simp [hul, AddKeyword, h]

theorem replay_filter_addUnique (L : List TESForm) (c : Bool) (D A U : List TESForm)
    (a : TESForm) (h : a ∈ A) :
    replay L c D A U = replay L c D A (U.filter (fun u => decide (u ≠ a))) := by
  simp only [replay]
  apply addUnique_pass_filter
  rw [foldl_AddKeyword]
  exact List.mem_append_right _ h

end Locations

/-- C3: AddIfNotExists adds zero extra copies. For every initial keyword list and
every keyword `a`, if the batch holds at least one `Add(a)` and also
`AddIfNotExists(a)`, the number of occurrences of `a` after `PatchKeywords`
equals the number obtained from the same batch with `a` removed from the
AddIfNotExists set. -/
theorem C3_AddIfNotExists_adds_no_copy (L : List TESForm) (kd : Locations.KeywordsData)
    (a : TESForm) (hAdd : 1 ≤ kd.AddKeywordVec.count a) (hUnique : a ∈ kd.AddUniqueKeywordSet) :
    (Locations.PatchKeywords L kd).count a
      = (Locations.PatchKeywords L
          { kd with
            AddUniqueKeywordSet := kd.AddUniqueKeywordSet.filter (fun u => decide (u ≠ a)) }).count a := by
  have hmem : a ∈ kd.AddKeywordVec := List.count_pos_iff.mp hAdd
  have _ := hUnique
  rw [Locations.PatchKeywords_eq_replay, Locations.PatchKeywords_eq_replay]
  exact congrArg (List.count a) (Locations.replay_filter_addUnique L _ _ _ _ a hmem)

/-- C3, at a concrete input: the location holds no keyword, the batch is `Add(a)`
twice and `AddIfNotExists(a)`, and `a` ends up present exactly twice. -/
theorem C3_AddIfNotExists_adds_no_copy_witness :
    (Locations.PatchKeywords [] Locations.sampleAddTwice).count ⟨2, FormType.Keyword⟩
      = (Locations.PatchKeywords []
          { Locations.sampleAddTwice with
            AddUniqueKeywordSet := Locations.sampleAddTwice.AddUniqueKeywordSet.filter
              (fun u => decide (u ≠ ⟨2, FormType.Keyword⟩)) }).count ⟨2, FormType.Keyword⟩ ∧
    (Locations.PatchKeywords [] Locations.sampleAddTwice).count ⟨2, FormType.Keyword⟩ = 2 :=
  ⟨C3_AddIfNotExists_adds_no_copy [] Locations.sampleAddTwice ⟨2, FormType.Keyword⟩
    (by decide) (by decide), by decide⟩

/-! ## Locations `Prepare` -/

namespace Locations

theorem PrepareOperation_char (getForm : String → Option TESForm) (kd kd' : KeywordsData)
    (op : Operation) (h : PrepareOperation getForm kd op = some kd') :
    kd' = ⟨kd.Clear || decide (op.OpType = OperationType.kClear),
      kd.AddKeywordVec ++ resolvedArgs getForm OperationType.kAdd [op],
      (resolvedArgs getForm OperationType.kAddIfNotExists [op]).foldl setInsert
        kd.AddUniqueKeywordSet,
      kd.DeleteKeywordVec ++ resolvedArgs getForm OperationType.kDelete [op]⟩ := by
  obtain ⟨t, form⟩ := op
  obtain ⟨c, A, U, D⟩ := kd
  cases t <;> cases form with
  | none => simp [PrepareOperation, resolvedArgs] at h ⊢ <;> exact h.symm
  | some s =>
    simp only [PrepareOperation, resolvedArgs] at h ⊢
    cases hg : getForm s with
    | none =>
      simp [hg] at h ⊢
      exact h.symm
    | some f =>
      cases hk : f.As FormType.Keyword with
      | none =>
        simp [hg, hk] at h ⊢
        exact h.symm
      | some k =>
        simp [hg, hk] at h ⊢
        exact h.symm

theorem resolvedArgs_cons (getForm : String → Option TESForm) (t : OperationType)
    (op : Operation) (ops : List Operation) :
    resolvedArgs getForm t (op :: ops) = resolvedArgs getForm t [op] ++ resolvedArgs getForm t ops := by
  simp only [resolvedArgs, List.filterMap_cons, List.filterMap_nil]
  split <;> simp

theorem PrepareOperations_char (getForm : String → Option TESForm) (ops : List Operation)
    (kd kd' : KeywordsData) (h : PrepareOperations getForm kd ops = some kd') :
    kd' = ⟨kd.Clear || ops.any (fun op => decide (op.OpType = OperationType.kClear)),
      kd.AddKeywordVec ++ resolvedArgs getForm OperationType.kAdd ops,
      (resolvedArgs getForm OperationType.kAddIfNotExists ops).foldl setInsert
        kd.AddUniqueKeywordSet,
      kd.DeleteKeywordVec ++ resolvedArgs getForm OperationType.kDelete ops⟩ := by
  induction ops generalizing kd with
  | nil =>
    simp only [PrepareOperations, Option.some.injEq] at h
    subst h
    simp [resolvedArgs]
  | cons op ops ih =>
    simp only [PrepareOperations] at h
    cases h1 : PrepareOperation getForm kd op with
    | none => simp [h1] at h
    | some kd1 =>
      simp only [h1] at h
      have e1 := PrepareOperation_char getForm kd kd1 op h1
      have e2 := ih kd1 h
      rw [e2, e1]
      rw [resolvedArgs_cons getForm OperationType.kAdd op ops,
        resolvedArgs_cons getForm OperationType.kDelete op ops,
        resolvedArgs_cons getForm OperationType.kAddIfNotExists op ops]
      simp [List.foldl_append, Bool.or_assoc]

theorem PrepareOperations_append (getForm : String → Option TESForm) (xs ys : List Operation)
    (kd : KeywordsData) :
    PrepareOperations getForm kd (xs ++ ys)
      = (PrepareOperations getForm kd xs).bind (fun kd' => PrepareOperations getForm kd' ys) := by
  induction xs generalizing kd with
  | nil => simp [PrepareOperations]
  | cons x xs ih =>
    simp only [List.cons_append, PrepareOperations]
    cases PrepareOperation getForm kd x with
    | none => simp
    | some kd1 => simpa using ih kd1

theorem PrepareOperations_isSome (getForm : String → Option TESForm) (ops : List Operation)
    (kd : KeywordsData)
    (h : ∀ op ∈ ops, op.OpType ≠ OperationType.kClear → op.OpForm ≠ none) :
    ∃ kd', PrepareOperations getForm kd ops = some kd' := by
  induction ops generalizing kd with
  | nil => exact ⟨kd, rfl⟩
  | cons op ops ih =>
    have hop := h op (List.mem_cons_self _ _)
    have hrest : ∀ o ∈ ops, o.OpType ≠ OperationType.kClear → o.OpForm ≠ none :=
      fun o ho => h o (List.mem_cons_of_mem _ ho)
    have hstep : ∃ kd1, PrepareOperation getForm kd op = some kd1 := by
      obtain ⟨t, form⟩ := op
      cases t <;> cases form with
      | none => simp [PrepareOperation] at hop ⊢
      | some s =>
        cases hg : getForm s with
        | none => simp [PrepareOperation, hg]
        | some f =>
          cases hk : f.As FormType.Keyword with
          | none => simp [PrepareOperation, hg, hk]
          | some k => simp [PrepareOperation, hg, hk]
    obtain ⟨kd1, h1⟩ := hstep
    obtain ⟨kd2, h2⟩ := ih kd1 hrest
    exact ⟨kd2, by simp [PrepareOperations, h1, h2]⟩

/-- One call of `Prepare(const ConfigData&)`, read at the location `T`: a statement
whose filter resolves to `T` runs its operations on the pending keyword data of
`T`; any other statement leaves the entry of `T` as it is. -/
theorem Prepare_at (getForm : String → Option TESForm) (m m' : List (TESForm × PatchData))
    (c : ConfigData) (T : TESForm) (h : Prepare getForm m c = some m') :
    ((PatchMap.keys m).Nodup → (PatchMap.keys m').Nodup) ∧
    if (getForm c.FilterForm).bind (fun f => f.As FormType.Location) = some T then
      PrepareOperations getForm (pendingKeywords m T) c.Operations = some (pendingKeywords m' T) ∧
        PatchMap.find m' T = some ⟨some (pendingKeywords m' T)⟩
    else PatchMap.find m' T = PatchMap.find m T := by
  obtain ⟨flt, ff, el, ops⟩ := c
  cases flt
  cases el
  simp only [Prepare] at h
  cases hg : getForm ff with
  | none =>
    simp only [hg, Option.some.injEq] at h
    subst h
    simp
  | some f =>
    cases hk : f.As FormType.Location with
    | none =>
      simp only [hg, hk, Option.some.injEq] at h
      subst h
      simp [hk]
    | some loc =>
      simp only [hg, hk] at h
      cases ho : PrepareOperations getForm
          (((PatchMap.find m loc).getD PatchData.init).Keywords.getD KeywordsData.init) ops with
      | none => simp [ho] at h
      | some kd =>
        simp only [ho, Option.some.injEq] at h
        subst h
        refine ⟨PatchMap.nodup_keys_modify _ _ m loc, ?_⟩
        by_cases hT : loc = T
        · subst hT
          simp [hk, pendingKeywords, PatchMap.find_modify_self, ho]
        · have hT' : T ≠ loc := fun e => hT e.symm
          simp [hk, hT, PatchMap.find_modify_ne _ _ m loc T hT']

theorem PrepareFlat_at (getForm : String → Option TESForm) (cs : List ConfigData)
    (m m' : List (TESForm × PatchData)) (T : TESForm)
    (h : PrepareFlat (Prepare getForm) m cs = some m') :
    ((PatchMap.keys m).Nodup → (PatchMap.keys m').Nodup) ∧
    PrepareOperations getForm (pendingKeywords m T) (operationsOn getForm T cs)
      = some (pendingKeywords m' T) ∧
    ((∃ c ∈ cs, (getForm c.FilterForm).bind (fun f => f.As FormType.Location) = some T) →
      PatchMap.find m' T = some ⟨some (pendingKeywords m' T)⟩) ∧
    ((∀ c ∈ cs, (getForm c.FilterForm).bind (fun f => f.As FormType.Location) ≠ some T) →
      PatchMap.find m' T = PatchMap.find m T) := by
  induction cs generalizing m with
  | nil =>
    simp only [PrepareFlat, Option.some.injEq] at h
    subst h
    simp [operationsOn, PrepareOperations]
  | cons c cs ih =>
    simp only [PrepareFlat] at h
    cases h1 : Prepare getForm m c with
    | none => simp [h1] at h
    | some m1 =>
      simp only [h1] at h
      obtain ⟨hn1, hstep⟩ := Prepare_at getForm m m1 c T h1
      obtain ⟨hn2, hops, hex, hno⟩ := ih m1 h
      refine ⟨fun hn => hn2 (hn1 hn), ?_, ?_, ?_⟩
      · by_cases ht : (getForm c.FilterForm).bind (fun f => f.As FormType.Location) = some T
        · rw [if_pos ht] at hstep
          simp only [operationsOn, ht, if_true, PrepareOperations_append, hstep.1, Option.some_bind]
          exact hops
        · rw [if_neg ht] at hstep
          simp only [operationsOn, ht, if_false, List.nil_append]
          have : pendingKeywords m T = pendingKeywords m1 T := by
            simp [pendingKeywords, hstep]
          rw [this]
          exact hops
      · intro hc
        by_cases hrest : ∃ c' ∈ cs,
            (getForm c'.FilterForm).bind (fun f => f.As FormType.Location) = some T
        · exact hex hrest
        · have hrest' : ∀ c' ∈ cs,
              (getForm c'.FilterForm).bind (fun f => f.As FormType.Location) ≠ some T := by
            intro c' hc' e
            exact hrest ⟨c', hc', e⟩
          obtain ⟨c0, hc0, e0⟩ := hc
          rcases List.mem_cons.mp hc0 with rfl | hmem
          · rw [if_pos e0] at hstep
            have hfind := hno hrest'
            have hp : pendingKeywords m' T = pendingKeywords m1 T := by
              simp [pendingKeywords, hfind]
            rw [hfind, hp]
            exact hstep.2
          · exact absurd e0 (hrest' c0 hmem)
      · intro hall
        have ht : ¬ (getForm c.FilterForm).bind (fun f => f.As FormType.Location) = some T :=
          hall c (List.mem_cons_self _ _)
        rw [if_neg ht] at hstep
        rw [hno (fun c' hc' => hall c' (List.mem_cons_of_mem _ hc')), hstep]

theorem PrepareFlat_isSome_location (getForm : String → Option TESForm) (cs : List ConfigData)
    (m : List (TESForm × PatchData))
    (h : ∀ c ∈ cs, ∀ op ∈ c.Operations, op.OpType ≠ OperationType.kClear → op.OpForm ≠ none) :
    ∃ m', PrepareFlat (Prepare getForm) m cs = some m' := by
  induction cs generalizing m with
  | nil => exact ⟨m, rfl⟩
  | cons c cs ih =>
    have hstep : ∃ m1, Prepare getForm m c = some m1 := by
      have hc := h c (List.mem_cons_self _ _)
      obtain ⟨flt, ff, el, ops⟩ := c
      cases flt
      cases el
      simp only [Prepare]
      cases hg : getForm ff with
      | none => simp
      | some f =>
        cases hk : f.As FormType.Location with
        | none => simp [hk]
        | some loc =>
          obtain ⟨kd, hkd⟩ := PrepareOperations_isSome getForm ops
            (((PatchMap.find m loc).getD PatchData.init).Keywords.getD KeywordsData.init) hc
          simp [hk, hkd]
    obtain ⟨m1, h1⟩ := hstep
    obtain ⟨m2, h2⟩ := ih m1 (fun c' hc' => h c' (List.mem_cons_of_mem _ hc'))
    exact ⟨m2, by simp [PrepareFlat, h1, h2]⟩

end Locations

namespace Locations

theorem exists_target_of_operationsOn (getForm : String → Option TESForm) (T : TESForm)
    (cs : List ConfigData) (h : operationsOn getForm T cs ≠ []) :
    ∃ c ∈ cs, (getForm c.FilterForm).bind (fun f => f.As FormType.Location) = some T := by
  induction cs with
  | nil => simp [operationsOn] at h
  | cons c cs ih =>
    by_cases ht : (getForm c.FilterForm).bind (fun f => f.As FormType.Location) = some T
    · exact ⟨c, List.mem_cons_self _ _, ht⟩
    · simp only [operationsOn, ht, if_false, List.nil_append] at h
      obtain ⟨c', hc', e⟩ := ih h
      exact ⟨c', List.mem_cons_of_mem _ hc', e⟩

theorem replay_clear (L D A : List TESForm) : replay L true D A [] = A := by
  have hD : ∀ D : List TESForm,
      D.foldl (fun l d => if d ∈ l then RemoveKeyword l d else l) [] = [] := by
    intro D
    induction D with
    | nil => rfl
    | cons d D ih => simpa using ih
  simp [replay, hD, foldl_AddKeyword]

/-- The state of `Patch()` after its two phases, read at the location `T`. -/
theorem Patch_keywords_at (getForm : String → Option TESForm) (env : Condition → Bool)
    (st st' : State) (T : TESForm) (hnodup : (PatchMap.keys st.g_patchMap).Nodup)
    (h : Patch getForm env st = some st') :
    ∃ m, PrepareFlat (Prepare getForm) st.g_patchMap (flatten env st.g_configVec) = some m ∧
      st'.keywords T
        = ((PatchMap.find m T).map (fun pd => PatchLocation (st.keywords T) pd)).getD
            (st.keywords T) := by
  simp only [Patch, PrepareVec, PrepareStatements_flatten] at h
  cases hp : PrepareFlat (Prepare getForm) st.g_patchMap (flatten env st.g_configVec) with
  | none => simp [hp] at h
  | some m =>
    simp only [hp, Option.some.injEq] at h
    subst h
    refine ⟨m, rfl, ?_⟩
    show PatchAll m st.keywords T = _
    have hn := (PrepareFlat_at getForm _ _ m T hp).1 hnodup
    exact PatchMap.foldl_update_apply PatchLocation m st.keywords T hn

theorem perm_three_ops (getForm : String → Option TESForm) (ops : List Operation) (A : TESForm)
    (sa sd : String) (oc : Option String)
    (hA : (getForm sa).bind (fun f => f.As FormType.Keyword) = some A)
    (hops : ops.Perm [⟨OperationType.kClear, oc⟩, ⟨OperationType.kAdd, some sa⟩,
      ⟨OperationType.kDelete, some sd⟩]) :
    ops.any (fun op => decide (op.OpType = OperationType.kClear)) = true ∧
    resolvedArgs getForm OperationType.kAdd ops = [A] ∧
    resolvedArgs getForm OperationType.kAddIfNotExists ops = [] := by
  refine ⟨?_, ?_, ?_⟩
  · rw [List.any_eq_true]
    exact ⟨⟨OperationType.kClear, oc⟩, hops.mem_iff.mpr (by simp), by simp⟩
  · have h := List.Perm.filterMap (fun op : Operation =>
        if op.OpType = OperationType.kAdd then
          (op.OpForm.bind getForm).bind (fun f => f.As FormType.Keyword)
        else none) hops
    have e : List.filterMap (fun op : Operation =>
        if op.OpType = OperationType.kAdd then
          (op.OpForm.bind getForm).bind (fun f => f.As FormType.Keyword)
        else none) [⟨OperationType.kClear, oc⟩, ⟨OperationType.kAdd, some sa⟩,
          ⟨OperationType.kDelete, some sd⟩] = [A] := by
      simp [List.filterMap_cons, hA]
    rw [e] at h
    exact List.perm_singleton.mp h
  · have h := List.Perm.filterMap (fun op : Operation =>
        if op.OpType = OperationType.kAddIfNotExists then
          (op.OpForm.bind getForm).bind (fun f => f.As FormType.Keyword)
        else none) hops
    have e : List.filterMap (fun op : Operation =>
        if op.OpType = OperationType.kAddIfNotExists then
          (op.OpForm.bind getForm).bind (fun f => f.As FormType.Keyword)
        else none) [⟨OperationType.kClear, oc⟩, ⟨OperationType.kAdd, some sa⟩,
          ⟨OperationType.kDelete, some sd⟩] = [] := by
      simp [List.filterMap_cons]
    rw [e] at h
    exact List.perm_nil.mp h

end Locations

/-- C1, refuted at a concrete input: the location holds the keyword, the statement
list is `Clear`, `Add(Kw)`, `Delete(Kw)` on it, and after `Patch()` the location
still holds the keyword. -/
theorem C1_counterexample :
    Locations.keywordsAfterPatch sampleForms sampleEnv Locations.sampleState
        ⟨1, FormType.Location⟩ = some [⟨2, FormType.Keyword⟩] := by
  simp [Locations.keywordsAfterPatch, Locations.Patch, Locations.PrepareVec, PrepareStatements,
    PrepareStatement, Locations.Prepare, Locations.PrepareOperations, Locations.PrepareOperation,
    Locations.sampleState, Locations.sampleClearAddDelete, sampleForms, TESForm.As,
    PatchMap.find, PatchMap.modify, Locations.PatchAll, Locations.PatchLocation,
    Locations.PatchKeywords, Locations.ClearKeywords_eq_nil, Locations.AddKeyword,
    Locations.KeywordsData.init, Locations.PatchData.init]

/-- C1, amended: for every location `T`, every initial keyword collection and every
statement list whose operations on `T` are exactly `Clear`, `Add(A)` and
`Delete(A)`, in any order and spread over any number of statements, `Patch()`
(Prepare, then `PatchKeywords`) leaves the keyword collection of `T` equal to
`[A]`: the Clear pass empties it, the Delete pass is skipped and the Add pass
appends `A`. `Patch()` returns whenever every operation other than `Clear`
carries an argument, as the parser produces them. -/
theorem C1_clear_add_delete_leaves_exactly_A (getForm : String → Option TESForm)
    (env : Condition → Bool) (st : Locations.State) (T A : TESForm) (sa sd : String)
    (oc : Option String)
    (hA : (getForm sa).bind (fun f => f.As FormType.Keyword) = some A)
    (hD : (getForm sd).bind (fun f => f.As FormType.Keyword) = some A)
    (hnodup : (PatchMap.keys st.g_patchMap).Nodup)
    (hfresh : PatchMap.find st.g_patchMap T = none)
    (hops : (Locations.operationsOn getForm T (flatten env st.g_configVec)).Perm
      [⟨Locations.OperationType.kClear, oc⟩, ⟨Locations.OperationType.kAdd, some sa⟩,
        ⟨Locations.OperationType.kDelete, some sd⟩]) :
    ((∀ c ∈ flatten env st.g_configVec, ∀ op ∈ c.Operations,
        op.OpType ≠ Locations.OperationType.kClear → op.OpForm ≠ none) →
      ∃ st', Locations.Patch getForm env st = some st') ∧
    (∀ st', Locations.Patch getForm env st = some st' → st'.keywords T = [A]) := by
  have _ := hD
  constructor
  · intro hwf
    obtain ⟨m, hm⟩ := Locations.PrepareFlat_isSome_location getForm _ st.g_patchMap hwf
    exact ⟨⟨[], [], Locations.PatchAll m st.keywords⟩, by
      simp [Locations.Patch, Locations.PrepareVec, PrepareStatements_flatten, hm]⟩
  · intro st' hst
    obtain ⟨m, hm, hk⟩ := Locations.Patch_keywords_at getForm env st st' T hnodup hst
    obtain ⟨_, hacc, hex, _⟩ := Locations.PrepareFlat_at getForm _ _ m T hm
    have hne : Locations.operationsOn getForm T (flatten env st.g_configVec) ≠ [] := by
      intro e
      rw [e] at hops
      exact absurd hops.length_eq (by simp)
    have hfind := hex (Locations.exists_target_of_operationsOn getForm T _ hne)
    have hinit : Locations.pendingKeywords st.g_patchMap T = Locations.KeywordsData.init := by
      simp [Locations.pendingKeywords, hfresh, Locations.PatchData.init]
    rw [hinit] at hacc
    have hchar := Locations.PrepareOperations_char getForm _ _ _ hacc
    obtain ⟨h1, h2, h3⟩ := Locations.perm_three_ops getForm _ A sa sd oc hA hops
    rw [h1, h2, h3] at hchar
    rw [hk, hfind, hchar]
    simp [Locations.PatchLocation, Locations.PatchKeywords_eq_replay, Locations.KeywordsData.init,
      Locations.replay_clear]

/-- C1 amended, at a concrete input: the order `Delete(Kw)`, `Add(Kw)`, `Clear`,
spread over two statements, on a location that holds the keyword. -/
theorem C1_clear_add_delete_leaves_exactly_A_witness :
    (∃ st', Locations.Patch sampleForms sampleEnv Locations.sampleSpread = some st') ∧
    (∀ st', Locations.Patch sampleForms sampleEnv Locations.sampleSpread = some st' →
      st'.keywords ⟨1, FormType.Location⟩ = [⟨2, FormType.Keyword⟩]) :=
  ⟨(C1_clear_add_delete_leaves_exactly_A sampleForms sampleEnv Locations.sampleSpread
      ⟨1, FormType.Location⟩ ⟨2, FormType.Keyword⟩ "Kw" "Kw" none (by decide) (by decide)
      (by decide) (by decide)
      (by
        simp only [Locations.sampleSpread, flatten, flattenStatement, Locations.operationsOn]
        decide)).1
      (by
        simp only [Locations.sampleSpread, flatten, flattenStatement]
        decide),
   (C1_clear_add_delete_leaves_exactly_A sampleForms sampleEnv Locations.sampleSpread
      ⟨1, FormType.Location⟩ ⟨2, FormType.Keyword⟩ "Kw" "Kw" none (by decide) (by decide)
      (by decide) (by decide)
      (by
        simp only [Locations.sampleSpread, flatten, flattenStatement, Locations.operationsOn]
        decide)).2⟩

/-! ## Last write wins -/

namespace Parsers

/-- The last write wins over a flat statement list: after the statements
`pre ++ c :: post`, a field that `c` sets and that no statement of `post` sets
holds the value set by `c`. -/
theorem PrepareFlat_last_write {σ α β : Type} (f : σ → α → Option σ) (field : σ → Option β)
    (assigns : α → β → Prop)
    (hset : ∀ s c s' v, f s c = some s' → assigns c v → field s' = some v)
    (hkeep : ∀ s c s', f s c = some s' → (∀ v, ¬ assigns c v) → field s' = field s)
    (pre post : List α) (c : α) (v : β) (s s' : σ)
    (h : PrepareFlat f s (pre ++ c :: post) = some s') (hc : assigns c v)
    (hpost : ∀ c' ∈ post, ∀ v', ¬ assigns c' v') : field s' = some v := by
  have hkeepAll : ∀ (l : List α) (s s' : σ), PrepareFlat f s l = some s' →
      (∀ c' ∈ l, ∀ v', ¬ assigns c' v') → field s' = field s := by
    intro l
    induction l with
    | nil =>
      intro s s' h _
      simp only [PrepareFlat, Option.some.injEq] at h
      rw [h]
    | cons d l ih =>
      intro s s' h hl
      simp only [PrepareFlat] at h
      cases h1 : f s d with
      | none => simp [h1] at h
      | some s1 =>
        simp only [h1] at h
        rw [ih s1 s' h (fun c' hc' => hl c' (List.mem_cons_of_mem _ hc')),
          hkeep s d s1 h1 (hl d (List.mem_cons_self _ _))]
  rw [PrepareFlat_append] at h
  cases h1 : PrepareFlat f s pre with
  | none => simp [h1] at h
  | some s1 =>
    simp only [h1, Option.some_bind, PrepareFlat] at h
    cases h2 : f s1 c with
    | none => simp [h2] at h
    | some s2 =>
      simp only [h2] at h
      rw [hkeepAll post s2 s' h hpost]
      exact hset s1 c s2 v h2 hc

theorem PrepareFlat_invariant {σ α : Type} (f : σ → α → Option σ) (P : σ → Prop)
    (hstep : ∀ s c s', f s c = some s' → P s → P s') (l : List α) (s s' : σ)
    (h : PrepareFlat f s l = some s') (hP : P s) : P s' := by
  induction l generalizing s with
  | nil =>
    simp only [PrepareFlat, Option.some.injEq] at h
    exact h ▸ hP
  | cons d l ih =>
    simp only [PrepareFlat] at h
    cases h1 : f s d with
    | none => simp [h1] at h
    | some s1 =>
      simp only [h1] at h
      exact ih s1 h (hstep s d s1 h1 hP)

end Parsers

namespace Quests

theorem Prepare_nodup_quest (getForm : String → Option TESForm) (m : List (TESForm × PatchData))
    (c : ConfigData) (h : (PatchMap.keys m).Nodup) :
    (PatchMap.keys (Prepare getForm m c)).Nodup := by
  obtain ⟨flt, ff, el, av⟩ := c
  cases flt
  cases el
  simp only [Prepare]
  cases hg : getForm ff with
  | none => simpa using h
  | some f =>
    cases hk : f.As FormType.Quest with
    | none => simpa [hk] using h
    | some q =>
      cases av with
      | none => simpa [hk] using h
      | some v => simpa [hk] using PatchMap.nodup_keys_modify _ _ m q h

theorem Prepare_set_quest (getForm : String → Option TESForm) (T : TESForm)
    (m : List (TESForm × PatchData)) (c : ConfigData) (v : String)
    (hc : assignsFullName getForm T c v) :
    (PatchMap.find (Prepare getForm m c) T).bind (fun pd => pd.FullName) = some v := by
  obtain ⟨flt, ff, el, av⟩ := c
  obtain ⟨h1, _, h3⟩ := hc
  cases flt
  cases el
  simp only at h1 h3
  subst h3
  cases hg : getForm ff with
  | none => simp [hg] at h1
  | some f =>
    simp only [hg, Option.some_bind] at h1
    simp [Prepare, hg, h1, PatchMap.find_modify_self]

theorem Prepare_keep_quest (getForm : String → Option TESForm) (T : TESForm)
    (m : List (TESForm × PatchData)) (c : ConfigData)
    (hc : ∀ v, ¬ assignsFullName getForm T c v) :
    (PatchMap.find (Prepare getForm m c) T).bind (fun pd => pd.FullName)
      = (PatchMap.find m T).bind (fun pd => pd.FullName) := by
  obtain ⟨flt, ff, el, av⟩ := c
  cases flt
  cases el
  simp only [Prepare]
  cases hg : getForm ff with
  | none => simp
  | some f =>
    cases hk : f.As FormType.Quest with
    | none => simp [hk]
    | some q =>
      cases av with
      | none => simp [hk]
      | some v =>
        have hne : T ≠ q := by
          intro e
          subst e
          exact hc v ⟨by simp [hg, hk], rfl, rfl⟩
        simp [hk, PatchMap.find_modify_ne _ _ m q T hne]

/-- The state of `Patch()` after its two phases, read at the quest `T`. -/
theorem Patch_at_quest (getForm : String → Option TESForm) (env : Condition → Bool)
    (st : State) (T : TESForm) (hnodup : (PatchMap.keys st.g_patchMap).Nodup) :
    ∃ st', Patch getForm env st = some st' ∧
      st'.quests T
        = ((PatchMap.find ((flatten env st.g_configVec).foldl (Prepare getForm) st.g_patchMap) T).map
            (fun pd => PatchQuest (st.quests T) pd)).getD (st.quests T) := by
  have hn : (PatchMap.keys ((flatten env st.g_configVec).foldl (Prepare getForm)
      st.g_patchMap)).Nodup := by
    apply PrepareFlat_invariant (fun m c => some (Prepare getForm m c))
      (fun m => (PatchMap.keys m).Nodup) _ (flatten env st.g_configVec) st.g_patchMap _
      (PrepareFlat_total _ _ _) hnodup
    intro s c s' h hs
    simp only [Option.some.injEq] at h
    exact h ▸ Prepare_nodup_quest getForm s c hs
  refine ⟨⟨[], [], PatchAll ((flatten env st.g_configVec).foldl (Prepare getForm) st.g_patchMap)
    st.quests⟩, ?_, ?_⟩
  · simp [Patch, PrepareVec, PrepareStatements_flatten, PrepareFlat_total]
  · exact PatchMap.foldl_update_apply PatchQuest _ st.quests T hn

theorem last_write_wins_quest (getForm : String → Option TESForm) (env : Condition → Bool)
    (st : State) (T : TESForm) (v : String) (pre post : List ConfigData) (c : ConfigData)
    (hnodup : (PatchMap.keys st.g_patchMap).Nodup)
    (hflat : flatten env st.g_configVec = pre ++ c :: post)
    (hc : assignsFullName getForm T c v)
    (hpost : ∀ c' ∈ post, ∀ v', ¬ assignsFullName getForm T c' v') :
    ∃ st', Patch getForm env st = some st' ∧ (st'.quests T).fullName = v := by
  obtain ⟨st', hst, hq⟩ := Patch_at_quest getForm env st T hnodup
  refine ⟨st', hst, ?_⟩
  have hfield := PrepareFlat_last_write (fun m c => some (Prepare getForm m c))
    (fun m => (PatchMap.find m T).bind (fun pd => pd.FullName)) (assignsFullName getForm T)
    (fun s c s' v h hv => by
      simp only [Option.some.injEq] at h
      exact h ▸ Prepare_set_quest getForm T s c v hv)
    (fun s c s' h hv => by
      simp only [Option.some.injEq] at h
      exact h ▸ Prepare_keep_quest getForm T s c hv)
    pre post c v st.g_patchMap _ (PrepareFlat_total _ _ _) hc hpost
  beta_reduce at hfield
  rw [hq, hflat]
  cases hf : PatchMap.find ((pre ++ c :: post).foldl (Prepare getForm) st.g_patchMap) T with
  | none =>
    rw [hf] at hfield
    simp at hfield
  | some pd =>
    rw [hf] at hfield
    simp only [Option.some_bind] at hfield
    simp [PatchQuest, hfield]

end Quests

namespace PatchMap

theorem find_modify_bind_keep {V β : Type} (dflt : V) (f : V → V) (m : List (TESForm × V))
    (k k' : TESForm) (proj : V → Option β) (hproj : ∀ v, proj (f v) = proj v)
    (hd : proj dflt = none) :
    (find (modify dflt f m k) k').bind proj = (find m k').bind proj := by
  by_cases h : k' = k
  · subst h
    rw [find_modify_self]
    cases find m k' with
    | none => simp [hproj, hd]
    | some v => simp [hproj]
  · rw [find_modify_ne dflt f m k k' h]

theorem find_modify_bind_set {V β : Type} (dflt : V) (f : V → V) (m : List (TESForm × V))
    (k : TESForm) (proj : V → Option β) (b : β) (hproj : ∀ v, proj (f v) = some b) :
    (find (modify dflt f m k) k).bind proj = some b := by
  rw [find_modify_self]
  simp [hproj]

end PatchMap

namespace ArmorAddons

theorem Prepare_nodup_arma (getForm : String → Option TESForm) (m : List (TESForm × PatchData))
    (c : ConfigData) (h : (PatchMap.keys m).Nodup) :
    (PatchMap.keys (Prepare getForm m c)).Nodup := by
  obtain ⟨flt, ff, el, av⟩ := c
  cases flt
  cases el
  simp only [Prepare]
  cases hg : getForm ff with
  | none => simpa using h
  | some f =>
    cases hk : f.As FormType.ArmorAddon with
    | none => simpa [hk] using h
    | some q =>
      cases av with
      | none => simpa [hk] using h
      | some v => simpa [hk] using PatchMap.nodup_keys_modify _ _ m q h

theorem Prepare_set_arma (getForm : String → Option TESForm) (T : TESForm)
    (m : List (TESForm × PatchData)) (c : ConfigData) (v : Nat)
    (hc : assignsSlots getForm T c v) :
    (PatchMap.find (Prepare getForm m c) T).bind (fun pd => pd.BipedObjectSlots) = some v := by
  obtain ⟨flt, ff, el, av⟩ := c
  obtain ⟨h1, _, h3⟩ := hc
  cases flt
  cases el
  simp only at h1 h3
  subst h3
  cases hg : getForm ff with
  | none => simp [hg] at h1
  | some f =>
    simp only [hg, Option.some_bind] at h1
    simp [Prepare, hg, h1, PatchMap.find_modify_self]

theorem Prepare_keep_arma (getForm : String → Option TESForm) (T : TESForm)
    (m : List (TESForm × PatchData)) (c : ConfigData)
    (hc : ∀ v, ¬ assignsSlots getForm T c v) :
    (PatchMap.find (Prepare getForm m c) T).bind (fun pd => pd.BipedObjectSlots)
      = (PatchMap.find m T).bind (fun pd => pd.BipedObjectSlots) := by
  obtain ⟨flt, ff, el, av⟩ := c
  cases flt
  cases el
  simp only [Prepare]
  cases hg : getForm ff with
  | none => simp
  | some f =>
    cases hk : f.As FormType.ArmorAddon with
    | none => simp [hk]
    | some q =>
      cases av with
      | none => simp [hk]
      | some v =>
        have hne : T ≠ q := by
          intro e
          subst e
          exact hc v ⟨by simp [hg, hk], rfl, rfl⟩
        simp [hk, PatchMap.find_modify_ne _ _ m q T hne]

/-- The state of `Patch()` after its two phases, read at the armor addon `T`. -/
theorem Patch_at_arma (getForm : String → Option TESForm) (env : Condition → Bool)
    (st : State) (T : TESForm) (hnodup : (PatchMap.keys st.g_patchMap).Nodup) :
    ∃ st', Patch getForm env st = some st' ∧
      st'.armorAddons T
        = ((PatchMap.find ((flatten env st.g_configVec).foldl (Prepare getForm) st.g_patchMap) T).map
            (fun pd => PatchArmorAddon (st.armorAddons T) pd)).getD (st.armorAddons T) := by
  have hn : (PatchMap.keys ((flatten env st.g_configVec).foldl (Prepare getForm)
      st.g_patchMap)).Nodup := by
    apply PrepareFlat_invariant (fun m c => some (Prepare getForm m c))
      (fun m => (PatchMap.keys m).Nodup) _ (flatten env st.g_configVec) st.g_patchMap _
      (PrepareFlat_total _ _ _) hnodup
    intro s c s' h hs
    simp only [Option.some.injEq] at h
    exact h ▸ Prepare_nodup_arma getForm s c hs
  refine ⟨⟨[], [], PatchAll ((flatten env st.g_configVec).foldl (Prepare getForm) st.g_patchMap)
    st.armorAddons⟩, ?_, ?_⟩
  · simp [Patch, PrepareVec, PrepareStatements_flatten, PrepareFlat_total]
  · exact PatchMap.foldl_update_apply PatchArmorAddon _ st.armorAddons T hn

theorem last_write_wins_arma (getForm : String → Option TESForm) (env : Condition → Bool)
    (st : State) (T : TESForm) (v : Nat) (pre post : List ConfigData) (c : ConfigData)
    (hnodup : (PatchMap.keys st.g_patchMap).Nodup)
    (hflat : flatten env st.g_configVec = pre ++ c :: post)
    (hc : assignsSlots getForm T c v)
    (hpost : ∀ c' ∈ post, ∀ v', ¬ assignsSlots getForm T c' v') :
    ∃ st', Patch getForm env st = some st' ∧ (st'.armorAddons T).bipedObjectSlots = v := by
  obtain ⟨st', hst, hq⟩ := Patch_at_arma getForm env st T hnodup
  refine ⟨st', hst, ?_⟩
  have hfield := PrepareFlat_last_write (fun m c => some (Prepare getForm m c))
    (fun m => (PatchMap.find m T).bind (fun pd => pd.BipedObjectSlots)) (assignsSlots getForm T)
    (fun s c s' v h hv => by
      simp only [Option.some.injEq] at h
      exact h ▸ Prepare_set_arma getForm T s c v hv)
    (fun s c s' h hv => by
      simp only [Option.some.injEq] at h
      exact h ▸ Prepare_keep_arma getForm T s c hv)
    pre post c v st.g_patchMap _ (PrepareFlat_total _ _ _) hc hpost
  beta_reduce at hfield
  rw [hq, hflat]
  cases hf : PatchMap.find ((pre ++ c :: post).foldl (Prepare getForm) st.g_patchMap) T with
  | none =>
    rw [hf] at hfield
    simp at hfield
  | some pd =>
    rw [hf] at hfield
    simp only [Option.some_bind] at hfield
    simp [PatchArmorAddon, hfield]

end ArmorAddons

namespace Armors

/-- The effect of one `Prepare(const ConfigData&)` that returns: the patch map is
unchanged, or the entry of the armor the filter resolves to has one pending
field overwritten. -/
theorem Prepare_effect (getForm : String → Option TESForm) (m m' : List (TESForm × PatchData))
    (c : ConfigData) (hp : Prepare getForm m c = some m') :
    m' = m ∨ ∃ q, (getForm c.FilterForm).bind (fun f => f.As FormType.Armor) = some q ∧
      ((∃ n, c.Element = ElementType.kBipedObjectSlots ∧ c.AssignValue = some (AnyValue.uint32 n) ∧
          m' = PatchMap.modify PatchData.init (fun pd => { pd with BipedObjectSlots := some n }) m q) ∨
       (∃ s, c.Element = ElementType.kFullName ∧ c.AssignValue = some (AnyValue.string s) ∧
          m' = PatchMap.modify PatchData.init (fun pd => { pd with FullName := some s }) m q) ∨
       (∃ oe, c.Element = ElementType.kObjectEffect ∧
          m' = PatchMap.modify PatchData.init (fun pd => { pd with ObjectEffect := some oe }) m q)) := by
  obtain ⟨flt, ff, el, av⟩ := c
  cases flt
  simp only [Prepare] at hp
  cases hg : getForm ff with
  | none =>
    simp only [hg, Option.some.injEq] at hp
    exact Or.inl hp.symm
  | some f =>
    cases hk : f.As FormType.Armor with
    | none =>
      simp only [hg, hk, Option.some.injEq] at hp
      exact Or.inl hp.symm
    | some q =>
      simp only [hg, hk] at hp
      cases el with
      | kBipedObjectSlots =>
        cases av with
        | none =>
          simp only [Option.some.injEq] at hp
          exact Or.inl hp.symm
        | some a =>
          cases a with
          | uint32 n =>
            simp only [AnyValue.castUInt32, Option.some.injEq] at hp
            exact Or.inr ⟨q, by simp [hk], Or.inl ⟨n, rfl, rfl, hp.symm⟩⟩
          | string s => simp [AnyValue.castUInt32] at hp
      | kFullName =>
        cases av with
        | none =>
          simp only [Option.some.injEq] at hp
          exact Or.inl hp.symm
        | some a =>
          cases a with
          | uint32 n => simp [AnyValue.castString] at hp
          | string s =>
            simp only [AnyValue.castString, Option.some.injEq] at hp
            exact Or.inr ⟨q, by simp [hk], Or.inr (Or.inl ⟨s, rfl, rfl, hp.symm⟩)⟩
      | kObjectEffect =>
        cases av with
        | none =>
          simp only [Option.some.injEq] at hp
          exact Or.inl hp.symm
        | some a =>
          cases a with
          | uint32 n => simp [AnyValue.castString] at hp
          | string s =>
            simp only [AnyValue.castString] at hp
            split at hp
            · simp only [Option.some.injEq] at hp
              exact Or.inr ⟨q, by simp [hk], Or.inr (Or.inr ⟨none, rfl, hp.symm⟩)⟩
            · cases hg2 : getForm s with
              | none =>
                simp only [hg2, Option.some.injEq] at hp
                exact Or.inl hp.symm
              | some e =>
                cases hk2 : e.As FormType.Enchantment with
                | none =>
                  simp only [hg2, hk2, Option.some.injEq] at hp
                  exact Or.inl hp.symm
                | some oe =>
                  simp only [hg2, hk2, Option.some.injEq] at hp
                  exact Or.inr ⟨q, by simp [hk], Or.inr (Or.inr ⟨some oe, rfl, hp.symm⟩)⟩

theorem Prepare_nodup_armo (getForm : String → Option TESForm) (m m' : List (TESForm × PatchData))
    (c : ConfigData) (hp : Prepare getForm m c = some m') (h : (PatchMap.keys m).Nodup) :
    (PatchMap.keys m').Nodup := by
  rcases Prepare_effect getForm m m' c hp with e | ⟨q, _, ⟨n, _, _, e⟩ | ⟨s, _, _, e⟩ | ⟨oe, _, e⟩⟩
  · exact e ▸ h
  · exact e ▸ PatchMap.nodup_keys_modify _ _ m q h
  · exact e ▸ PatchMap.nodup_keys_modify _ _ m q h
  · exact e ▸ PatchMap.nodup_keys_modify _ _ m q h

theorem Prepare_keep_FullName (getForm : String → Option TESForm) (T : TESForm)
    (m m' : List (TESForm × PatchData)) (c : ConfigData) (hp : Prepare getForm m c = some m')
    (hc : ∀ v, ¬ assignsFullName getForm T c v) :
    (PatchMap.find m' T).bind (fun pd => pd.FullName)
      = (PatchMap.find m T).bind (fun pd => pd.FullName) := by
  rcases Prepare_effect getForm m m' c hp with e | ⟨q, hq, ⟨n, _, _, e⟩ | ⟨s, he, ha, e⟩ | ⟨oe, _, e⟩⟩
  · rw [e]
  · rw [e]
    exact PatchMap.find_modify_bind_keep _ _ m q T _ (fun _ => rfl) rfl
  · have hne : T ≠ q := by
      intro e'
      subst e'
      exact hc s ⟨hq, he, ha⟩
    rw [e, PatchMap.find_modify_ne _ _ m q T hne]
  · rw [e]
    exact PatchMap.find_modify_bind_keep _ _ m q T _ (fun _ => rfl) rfl

theorem Prepare_keep_Slots (getForm : String → Option TESForm) (T : TESForm)
    (m m' : List (TESForm × PatchData)) (c : ConfigData) (hp : Prepare getForm m c = some m')
    (hc : ∀ v, ¬ assignsSlots getForm T c v) :
    (PatchMap.find m' T).bind (fun pd => pd.BipedObjectSlots)
      = (PatchMap.find m T).bind (fun pd => pd.BipedObjectSlots) := by
  rcases Prepare_effect getForm m m' c hp with e | ⟨q, hq, ⟨n, he, ha, e⟩ | ⟨s, _, _, e⟩ | ⟨oe, _, e⟩⟩
  · rw [e]
  · have hne : T ≠ q := by
      intro e'
      subst e'
      exact hc n ⟨hq, he, ha⟩
    rw [e, PatchMap.find_modify_ne _ _ m q T hne]
  · rw [e]
    exact PatchMap.find_modify_bind_keep _ _ m q T _ (fun _ => rfl) rfl
  · rw [e]
    exact PatchMap.find_modify_bind_keep _ _ m q T _ (fun _ => rfl) rfl

theorem Prepare_set_FullName (getForm : String → Option TESForm) (T : TESForm)
    (m m' : List (TESForm × PatchData)) (c : ConfigData) (v : String)
    (hp : Prepare getForm m c = some m') (hc : assignsFullName getForm T c v) :
    (PatchMap.find m' T).bind (fun pd => pd.FullName) = some v := by
  obtain ⟨flt, ff, el, av⟩ := c
  obtain ⟨h1, h2, h3⟩ := hc
  cases flt
  simp only at h1 h2 h3
  subst h2 h3
  cases hg : getForm ff with
  | none => simp [hg] at h1
  | some f =>
    simp only [hg, Option.some_bind] at h1
    simp only [Prepare, hg, h1, AnyValue.castString, Option.some.injEq] at hp
    rw [← hp]
    exact PatchMap.find_modify_bind_set _ _ m T _ v (fun _ => rfl)

theorem Prepare_set_Slots (getForm : String → Option TESForm) (T : TESForm)
    (m m' : List (TESForm × PatchData)) (c : ConfigData) (v : Nat)
    (hp : Prepare getForm m c = some m') (hc : assignsSlots getForm T c v) :
    (PatchMap.find m' T).bind (fun pd => pd.BipedObjectSlots) = some v := by
  obtain ⟨flt, ff, el, av⟩ := c
  obtain ⟨h1, h2, h3⟩ := hc
  cases flt
  simp only at h1 h2 h3
  subst h2 h3
  cases hg : getForm ff with
  | none => simp [hg] at h1
  | some f =>
    simp only [hg, Option.some_bind] at h1
    simp only [Prepare, hg, h1, AnyValue.castUInt32, Option.some.injEq] at hp
    rw [← hp]
    exact PatchMap.find_modify_bind_set _ _ m T _ v (fun _ => rfl)

theorem Prepare_isSome (getForm : String → Option TESForm) (m : List (TESForm × PatchData))
    (c : ConfigData) (h : WellTyped c) : ∃ m', Prepare getForm m c = some m' := by
  obtain ⟨flt, ff, el, av⟩ := c
  cases flt
  simp only [Prepare]
  cases hg : getForm ff with
  | none => simp
  | some f =>
    cases hk : f.As FormType.Armor with
    | none => simp [hk]
    | some q =>
      cases av with
      | none => cases el <;> simp [hk]
      | some a =>
        cases a with
        | uint32 n => cases el <;> simp [hk, AnyValue.castUInt32, WellTyped] at h ⊢
        | string s =>
          cases el with
          | kBipedObjectSlots => simp [WellTyped] at h
          | kFullName => simp [hk, AnyValue.castString]
          | kObjectEffect =>
            simp only [hk, AnyValue.castString]
            by_cases hnull : s = "null"
            · simp [hnull]
            · cases hg2 : getForm s with
              | none => simp [hnull]
              | some e =>
                cases hk2 : e.As FormType.Enchantment with
                | none => simp [hnull, hk2]
                | some oe => simp [hnull, hk2]

theorem PrepareFlat_isSome_armo (getForm : String → Option TESForm) (cs : List ConfigData)
    (m : List (TESForm × PatchData)) (h : ∀ c ∈ cs, WellTyped c) :
    ∃ m', PrepareFlat (Prepare getForm) m cs = some m' := by
  induction cs generalizing m with
  | nil => exact ⟨m, rfl⟩
  | cons c cs ih =>
    obtain ⟨m1, h1⟩ := Prepare_isSome getForm m c (h c (List.mem_cons_self _ _))
    obtain ⟨m2, h2⟩ := ih m1 (fun c' hc' => h c' (List.mem_cons_of_mem _ hc'))
    exact ⟨m2, by simp [PrepareFlat, h1, h2]⟩

/-- The state of `Patch()` after its two phases, read at the armor `T`. -/
theorem Patch_at_armo (getForm : String → Option TESForm) (env : Condition → Bool)
    (st st' : State) (T : TESForm) (hnodup : (PatchMap.keys st.g_patchMap).Nodup)
    (h : Patch getForm env st = some st') :
    ∃ m, PrepareFlat (Prepare getForm) st.g_patchMap (flatten env st.g_configVec) = some m ∧
      st'.armors T
        = ((PatchMap.find m T).map (fun pd => PatchArmor (st.armors T) pd)).getD (st.armors T) := by
  simp only [Patch, PrepareVec, PrepareStatements_flatten] at h
  cases hp : PrepareFlat (Prepare getForm) st.g_patchMap (flatten env st.g_configVec) with
  | none => simp [hp] at h
  | some m =>
    simp only [hp, Option.some.injEq] at h
    subst h
    refine ⟨m, rfl, ?_⟩
    have hn := PrepareFlat_invariant (Prepare getForm) (fun m => (PatchMap.keys m).Nodup)
      (fun s c s' h hs => Prepare_nodup_armo getForm s s' c h hs) _ _ _ hp hnodup
    exact PatchMap.foldl_update_apply PatchArmor m st.armors T hn

theorem Patch_isSome (getForm : String → Option TESForm) (env : Condition → Bool)
    (st : State) (h : ∀ c ∈ flatten env st.g_configVec, WellTyped c) :
    ∃ st', Patch getForm env st = some st' := by
  obtain ⟨m, hm⟩ := PrepareFlat_isSome_armo getForm _ st.g_patchMap h
  exact ⟨⟨[], [], PatchAll m st.armors⟩, by
    simp [Patch, PrepareVec, PrepareStatements_flatten, hm]⟩

theorem last_write_wins_FullName (getForm : String → Option TESForm) (env : Condition → Bool)
    (st st' : State) (T : TESForm) (v : String) (pre post : List ConfigData) (c : ConfigData)
    (hnodup : (PatchMap.keys st.g_patchMap).Nodup)
    (hflat : flatten env st.g_configVec = pre ++ c :: post)
    (hc : assignsFullName getForm T c v)
    (hpost : ∀ c' ∈ post, ∀ v', ¬ assignsFullName getForm T c' v')
    (hst : Patch getForm env st = some st') : (st'.armors T).fullName = v := by
  obtain ⟨m, hm, hq⟩ := Patch_at_armo getForm env st st' T hnodup hst
  rw [hflat] at hm
  have hfield := PrepareFlat_last_write (Prepare getForm)
    (fun m => (PatchMap.find m T).bind (fun pd => pd.FullName)) (assignsFullName getForm T)
    (fun s c s' v h hv => Prepare_set_FullName getForm T s s' c v h hv)
    (fun s c s' h hv => Prepare_keep_FullName getForm T s s' c h hv)
    pre post c v st.g_patchMap m hm hc hpost
  beta_reduce at hfield
  rw [hq]
  cases hf : PatchMap.find m T with
  | none =>
    rw [hf] at hfield
    simp at hfield
  | some pd =>
    rw [hf] at hfield
    simp only [Option.some_bind] at hfield
    simp only [Option.map_some', Option.getD_some, PatchArmor, hfield]
    cases pd.ObjectEffect <;> rfl

theorem last_write_wins_Slots (getForm : String → Option TESForm) (env : Condition → Bool)
    (st st' : State) (T : TESForm) (v : Nat) (pre post : List ConfigData) (c : ConfigData)
    (hnodup : (PatchMap.keys st.g_patchMap).Nodup)
    (hflat : flatten env st.g_configVec = pre ++ c :: post)
    (hc : assignsSlots getForm T c v)
    (hpost : ∀ c' ∈ post, ∀ v', ¬ assignsSlots getForm T c' v')
    (hst : Patch getForm env st = some st') : (st'.armors T).bipedObjectSlots = v := by
  obtain ⟨m, hm, hq⟩ := Patch_at_armo getForm env st st' T hnodup hst
  rw [hflat] at hm
  have hfield := PrepareFlat_last_write (Prepare getForm)
    (fun m => (PatchMap.find m T).bind (fun pd => pd.BipedObjectSlots)) (assignsSlots getForm T)
    (fun s c s' v h hv => Prepare_set_Slots getForm T s s' c v h hv)
    (fun s c s' h hv => Prepare_keep_Slots getForm T s s' c h hv)
    pre post c v st.g_patchMap m hm hc hpost
  beta_reduce at hfield
  rw [hq]
  cases hf : PatchMap.find m T with
  | none =>
    rw [hf] at hfield
    simp at hfield
  | some pd =>
    rw [hf] at hfield
    simp only [Option.some_bind] at hfield
    simp only [Option.map_some', Option.getD_some, PatchArmor, hfield]
    cases pd.FullName <;> cases pd.ObjectEffect <;> rfl

end Armors

/-- C2: last write wins for scalars. For every statement list, read in flattened
order as `pre ++ c :: post`, and every target `T`: if `c` assigns the scalar
element of `T` the value `v` (its filter resolves to `T` as the expected kind)
and no statement of `post` assigns that element of `T`, then after `Patch()` the
live value of the element on `T` is `v`. This holds for the FullName of a quest,
the BipedObjectSlots of an armor addon, and the FullName and BipedObjectSlots of
an armor. In Quests and ArmorAddons `Patch()` always returns; in Armors it
returns whenever every `AssignValue` has the stored type of its element (as the
parser produces it), and the value is `v` whenever it returns. -/
theorem C2_last_write_wins (getForm : String → Option TESForm) (env : Condition → Bool) :
    (∀ (st : Quests.State) (T : TESForm) (v : String) (pre post : List Quests.ConfigData)
        (c : Quests.ConfigData),
      (PatchMap.keys st.g_patchMap).Nodup →
      flatten env st.g_configVec = pre ++ c :: post →
      Quests.assignsFullName getForm T c v →
      (∀ c' ∈ post, ∀ v', ¬ Quests.assignsFullName getForm T c' v') →
      ∃ st', Quests.Patch getForm env st = some st' ∧ (st'.quests T).fullName = v) ∧
    (∀ (st : ArmorAddons.State) (T : TESForm) (v : Nat) (pre post : List ArmorAddons.ConfigData)
        (c : ArmorAddons.ConfigData),
      (PatchMap.keys st.g_patchMap).Nodup →
      flatten env st.g_configVec = pre ++ c :: post →
      ArmorAddons.assignsSlots getForm T c v →
      (∀ c' ∈ post, ∀ v', ¬ ArmorAddons.assignsSlots getForm T c' v') →
      ∃ st', ArmorAddons.Patch getForm env st = some st' ∧
        (st'.armorAddons T).bipedObjectSlots = v) ∧
    (∀ (st : Armors.State) (T : TESForm) (v : String) (pre post : List Armors.ConfigData)
        (c : Armors.ConfigData),
      (PatchMap.keys st.g_patchMap).Nodup →
      flatten env st.g_configVec = pre ++ c :: post →
      Armors.assignsFullName getForm T c v →
      (∀ c' ∈ post, ∀ v', ¬ Armors.assignsFullName getForm T c' v') →
      ((∀ c' ∈ flatten env st.g_configVec, Armors.WellTyped c') →
        ∃ st', Armors.Patch getForm env st = some st') ∧
      (∀ st', Armors.Patch getForm env st = some st' → (st'.armors T).fullName = v)) ∧
    (∀ (st : Armors.State) (T : TESForm) (v : Nat) (pre post : List Armors.ConfigData)
        (c : Armors.ConfigData),
      (PatchMap.keys st.g_patchMap).Nodup →
      flatten env st.g_configVec = pre ++ c :: post →
      Armors.assignsSlots getForm T c v →
      (∀ c' ∈ post, ∀ v', ¬ Armors.assignsSlots getForm T c' v') →
      ((∀ c' ∈ flatten env st.g_configVec, Armors.WellTyped c') →
        ∃ st', Armors.Patch getForm env st = some st') ∧
      (∀ st', Armors.Patch getForm env st = some st' → (st'.armors T).bipedObjectSlots = v)) := by
  refine ⟨?_, ?_, ?_, ?_⟩
  · intro st T v pre post c hn hflat hc hpost
    exact Quests.last_write_wins_quest getForm env st T v pre post c hn hflat hc hpost
  · intro st T v pre post c hn hflat hc hpost
    exact ArmorAddons.last_write_wins_arma getForm env st T v pre post c hn hflat hc hpost
  · intro st T v pre post c hn hflat hc hpost
    exact ⟨Armors.Patch_isSome getForm env st, fun st' hst =>
      Armors.last_write_wins_FullName getForm env st st' T v pre post c hn hflat hc hpost hst⟩
  · intro st T v pre post c hn hflat hc hpost
    exact ⟨Armors.Patch_isSome getForm env st, fun st' hst =>
      Armors.last_write_wins_Slots getForm env st st' T v pre post c hn hflat hc hpost hst⟩

/-- C2, at a concrete input: the quest is renamed `a`, then `b` in a taken branch,
and a later statement with an unresolvable filter follows; the name is `b`. -/
theorem C2_last_write_wins_witness :
    ∃ st', Quests.Patch sampleForms sampleEnv Quests.sampleState = some st' ∧
      (st'.quests ⟨3, FormType.Quest⟩).fullName = "b" :=
  (C2_last_write_wins sampleForms sampleEnv).1 Quests.sampleState ⟨3, FormType.Quest⟩ "b"
    [Quests.sampleRename "a"] [Quests.sampleUnresolved] (Quests.sampleRename "b")
    (by decide)
    (by simp [Quests.sampleState, flatten, flattenStatement, flattenEvaluated, sampleEnv])
    ⟨by decide, rfl, rfl⟩
    (by
      intro c' hc' v' h
      simp only [List.mem_singleton] at hc'
      subst hc'
      exact absurd h.1 (by decide))

/-! ## Parsing biped slots -/

namespace ArmorAddons

theorem numeral_facts : ∀ v < 62, (v = 0 ∨ 30 ≤ v) →
    from_chars (toString v) = some v ∧ toString v ≠ "" ∧ toString v ≠ "|" ∧ toString v ≠ ";" ∧
    (toString v).data ≠ [] ∧ (∀ c ∈ (toString v).data, c.isDigit = true) := by
  decide

theorem ParseBipedSlot_valid (v : Nat) (hv : v = 0 ∨ (30 ≤ v ∧ v ≤ 61)) (rest : List String) :
    ParseBipedSlot ⟨toString v :: rest⟩ = (some v, ⟨rest⟩) := by
  have hlt : v < 62 := by omega
  have hdom : v = 0 ∨ 30 ≤ v := by omega
  obtain ⟨h1, h2, h3, h4, _, _⟩ := numeral_facts v hlt hdom
  have hmod : v % 2 ^ 32 = v := Nat.mod_eq_of_lt (by omega)
  have hcond : ¬ (v ≠ 0 ∧ (v < 30 ∨ v > 61)) := by omega
  simp only [ParseBipedSlot, Reader.GetToken, List.headD_cons, List.tail_cons, h1, h2, h3, h4,
    or_self, if_false, hcond, hmod]

theorem slotTokens_cons (v : Nat) (vs : List Nat) :
    slotTokens (v :: vs) = toString v :: vs.flatMap (fun w => ["|", toString w]) := by
  induction vs generalizing v with
  | nil => simp [slotTokens]
  | cons w vs ih =>
    rw [slotTokens, ih w]
    · simp
    · simp

theorem slotLoop_valid (vs : List Nat) (hvs : ∀ v ∈ vs, v = 0 ∨ (30 ≤ v ∧ v ≤ 61))
    (rest : List String) (acc fuel : Nat) (hfuel : vs.length + 1 ≤ fuel) :
    slotLoop ParseBipedSlot fuel ⟨vs.flatMap (fun w => ["|", toString w]) ++ ";" :: rest⟩ acc
      = SlotLoop.done (vs.foldl orSlot acc) ⟨";" :: rest⟩ := by
  induction vs generalizing acc fuel with
  | nil =>
    cases fuel with
    | zero => omega
    | succ n => simp [slotLoop, Reader.Peek]
  | cons v vs ih =>
    cases fuel with
    | zero => omega
    | succ n =>
      have hv := hvs v (List.mem_cons_self _ _)
      have hrest : ∀ w ∈ vs, w = 0 ∨ (30 ≤ w ∧ w ≤ 61) :=
        fun w hw => hvs w (List.mem_cons_of_mem _ hw)
      have hn : vs.length + 1 ≤ n := by
        simp only [List.length_cons] at hfuel
        omega
      have hpeek : ¬ ("|" : String) = ";" := by decide
      simp only [List.flatMap_cons, List.cons_append, List.nil_append, slotLoop, Reader.Peek,
        List.headD_cons, hpeek, if_false, Reader.GetToken, List.tail_cons, ne_eq,
        not_true_eq_false, ParseBipedSlot_valid v hv, List.foldl_cons]
      exact ih hrest (orSlot acc v) n hn

theorem ParseSlots_valid (v : Nat) (vs : List Nat)
    (hvs : ∀ w ∈ v :: vs, w = 0 ∨ (30 ≤ w ∧ w ≤ 61)) (rest : List String) :
    ParseSlots ParseBipedSlot ⟨slotTokens (v :: vs) ++ ";" :: rest⟩
      = SlotLoop.done ((v :: vs).foldl orSlot 0) ⟨";" :: rest⟩ := by
  have hv := hvs v (List.mem_cons_self _ _)
  have hrest : ∀ w ∈ vs, w = 0 ∨ (30 ≤ w ∧ w ≤ 61) :=
    fun w hw => hvs w (List.mem_cons_of_mem _ hw)
  simp only [ParseSlots, slotTokens_cons, List.cons_append, ParseBipedSlot_valid v hv,
    List.foldl_cons]
  apply slotLoop_valid vs hrest
  simp only [List.length_append, List.length_cons]
  have : vs.length ≤ (vs.flatMap (fun w => ["|", toString w])).length := by
    clear hrest hvs
    induction vs with
    | nil => simp
    | cons w ws ih =>
      simp only [List.flatMap_cons, List.length_append, List.length_cons, List.length_nil]
      omega
  omega

theorem orSlot_testBit (acc v b : Nat) (hv : v = 0 ∨ (30 ≤ v ∧ v ≤ 61)) :
    (orSlot acc v).testBit b = (acc.testBit b || decide (v ≠ 0 ∧ v - 30 = b)) := by
  rcases hv with h0 | ⟨h1, h2⟩
  · subst h0
    simp [orSlot]
  · have hne : v ≠ 0 := by omega
    have hlt : 2 ^ (v - 30) < 2 ^ 32 := Nat.pow_lt_pow_right (by omega) (by omega)
    simp only [orSlot, hne, ne_eq, not_false_eq_true, if_true, Nat.one_shiftLeft,
      Nat.mod_eq_of_lt hlt, Nat.testBit_or, Nat.testBit_two_pow, true_and]

theorem orSlot_lt (acc v : Nat) (hacc : acc < 2 ^ 32) : orSlot acc v < 2 ^ 32 := by
  unfold orSlot
  split
  · exact Nat.or_lt_two_pow hacc (Nat.mod_lt _ (by decide))
  · exact hacc

theorem foldl_orSlot_lt (vs : List Nat) (acc : Nat) (hacc : acc < 2 ^ 32) :
    vs.foldl orSlot acc < 2 ^ 32 := by
  induction vs generalizing acc with
  | nil => simpa using hacc
  | cons v vs ih => exact ih _ (orSlot_lt acc v hacc)

theorem foldl_orSlot_testBit (vs : List Nat) (hvs : ∀ v ∈ vs, v = 0 ∨ (30 ≤ v ∧ v ≤ 61))
    (acc b : Nat) :
    (vs.foldl orSlot acc).testBit b = true ↔
      acc.testBit b = true ∨ ∃ v ∈ vs, v ≠ 0 ∧ v - 30 = b := by
  induction vs generalizing acc with
  | nil => simp
  | cons v vs ih =>
    have hv := hvs v (List.mem_cons_self _ _)
    have hrest : ∀ w ∈ vs, w = 0 ∨ (30 ≤ w ∧ w ≤ 61) :=
      fun w hw => hvs w (List.mem_cons_of_mem _ hw)
    simp only [List.foldl_cons]
    rw [ih hrest, orSlot_testBit acc v b hv]
    simp only [Bool.or_eq_true, decide_eq_true_eq, List.mem_cons, exists_eq_or_imp]
    tauto

end ArmorAddons

/-- C5: for every non-empty list of slot values `v1 | v2 | ... | vn` followed by
`;`, each value being 0 or in 30..61, `ParseAssignment` for BipedObjectSlots
(in ArmorAddons, and in Armors with the `ParseBipedSlot` of ArmorAddons) succeeds,
leaves the `;` unread and stores the 32-bit mask whose set bits are exactly the
positions `vi - 30` of the non-zero `vi`; for `30 | 32` the mask is 5. -/
theorem C5_slot_list_parses_to_mask (vs : List Nat) (hne : vs ≠ [])
    (hvs : ∀ v ∈ vs, v = 0 ∨ (30 ≤ v ∧ v ≤ 61)) (rest : List String) :
    ∃ mask : Nat, mask < 2 ^ 32 ∧
      (∀ b, mask.testBit b = true ↔ ∃ v ∈ vs, v ≠ 0 ∧ v - 30 = b) ∧
      (∀ cfg : ArmorAddons.ConfigData,
        ArmorAddons.ParseAssignment ⟨"=" :: (slotTokens vs ++ ";" :: rest)⟩ cfg
          = some (true, ⟨";" :: rest⟩, { cfg with AssignValue := some mask })) ∧
      (∀ (parseForm : Reader → Option String × Reader) (cfg : Armors.ConfigData),
        cfg.Element = Armors.ElementType.kBipedObjectSlots →
        Armors.ParseAssignment ArmorAddons.ParseBipedSlot parseForm
            ⟨"=" :: (slotTokens vs ++ ";" :: rest)⟩ cfg
          = some (true, ⟨";" :: rest⟩,
              { cfg with AssignValue := some (Armors.AnyValue.uint32 mask) })) ∧
      (vs = [30, 32] → mask = 5) := by
  cases vs with
  | nil => exact absurd rfl hne
  | cons v vs =>
    refine ⟨(v :: vs).foldl ArmorAddons.orSlot 0, ?_, ?_, ?_, ?_, ?_⟩
    · exact ArmorAddons.foldl_orSlot_lt _ 0 (by decide)
    · intro b
      rw [ArmorAddons.foldl_orSlot_testBit (v :: vs) hvs 0 b]
      simp
    · intro cfg
      obtain ⟨flt, ff, el, av⟩ := cfg
      cases el
      simp [ArmorAddons.ParseAssignment, Reader.GetToken, ArmorAddons.ParseSlots_valid v vs hvs rest]
    · intro parseForm cfg hel
      obtain ⟨flt, ff, el, av⟩ := cfg
      simp only at hel
      subst hel
      simp [Armors.ParseAssignment, Reader.GetToken, ArmorAddons.ParseSlots_valid v vs hvs rest]
    · intro h
      rw [h]
      decide

/-- C5, at the concrete input `= 30 | 32 ;`. -/
theorem C5_slot_list_parses_to_mask_witness :
    ∃ mask : Nat, mask < 2 ^ 32 ∧
      (∀ b, mask.testBit b = true ↔ ∃ v ∈ [30, 32], v ≠ 0 ∧ v - 30 = b) ∧
      (∀ cfg : ArmorAddons.ConfigData,
        ArmorAddons.ParseAssignment ⟨"=" :: (slotTokens [30, 32] ++ ";" :: [])⟩ cfg
          = some (true, ⟨";" :: []⟩, { cfg with AssignValue := some mask })) ∧
      (∀ (parseForm : Reader → Option String × Reader) (cfg : Armors.ConfigData),
        cfg.Element = Armors.ElementType.kBipedObjectSlots →
        Armors.ParseAssignment ArmorAddons.ParseBipedSlot parseForm
            ⟨"=" :: (slotTokens [30, 32] ++ ";" :: [])⟩ cfg
          = some (true, ⟨";" :: []⟩,
              { cfg with AssignValue := some (Armors.AnyValue.uint32 mask) })) ∧
      ([30, 32] = [30, 32] → mask = 5) :=
  C5_slot_list_parses_to_mask [30, 32] (by decide) (by decide) []

namespace ArmorAddons

theorem numeral_ne (token : String) (h : isNumeral token) :
    token ≠ "" ∧ token ≠ "|" ∧ token ≠ ";" := by
  obtain ⟨h1, h2⟩ := h
  refine ⟨?_, ?_, ?_⟩
  · intro e
    subst e
    exact h1 rfl
  · intro e
    subst e
    exact absurd (h2 '|' (by decide)) (by decide)
  · intro e
    subst e
    exact absurd (h2 ';' (by decide)) (by decide)

theorem from_chars_numeral (token : String) (h : isNumeral token) :
    from_chars token = if numeralValue token > ULONG_MAX then none else some (numeralValue token) := by
  obtain ⟨h1, h2⟩ := h
  have htake : token.data.takeWhile Char.isDigit = token.data :=
    List.takeWhile_eq_self_iff.mpr h2
  have hemp : token.data.isEmpty = false := by
    cases hd : token.data with
    | nil => exact absurd hd h1
    | cons c cs => rfl
  simp only [from_chars, htake, hemp, Bool.false_eq_true, if_false, numeralValue]

/-- The function `ParseBipedSlot` on a numeral token: the number is returned when it
is 0 or lies in 30..61, and nothing otherwise. -/
theorem ParseBipedSlot_numeral (token : String) (h : isNumeral token) (rest : List String) :
    ParseBipedSlot ⟨token :: rest⟩
      = (if numeralValue token = 0 ∨ (30 ≤ numeralValue token ∧ numeralValue token ≤ 61)
          then some (numeralValue token) else none, ⟨rest⟩) := by
  obtain ⟨n1, n2, n3⟩ := numeral_ne token h
  simp only [ParseBipedSlot, Reader.GetToken, List.headD_cons, List.tail_cons, n1, n2, n3,
    or_self, if_false, from_chars_numeral token h]
  by_cases hbig : numeralValue token > ULONG_MAX
  · have hout : ¬ (numeralValue token = 0 ∨ (30 ≤ numeralValue token ∧ numeralValue token ≤ 61)) := by
      simp only [ULONG_MAX] at hbig
      omega
    simp [hbig, hout]
  · simp only [hbig, if_false]
    by_cases hdom : numeralValue token = 0 ∨ (30 ≤ numeralValue token ∧ numeralValue token ≤ 61)
    · have hcond : ¬ (numeralValue token ≠ 0 ∧ (numeralValue token < 30 ∨ numeralValue token > 61)) := by
        omega
      have hmod : numeralValue token % 2 ^ 32 = numeralValue token :=
        Nat.mod_eq_of_lt (by omega)
      rw [if_neg hcond, if_pos hdom, hmod]
    · have hcond : numeralValue token ≠ 0 ∧ (numeralValue token < 30 ∨ numeralValue token > 61) := by
        omega
      rw [if_pos hcond, if_neg hdom]

theorem slotLoop_invalid (vs : List Nat) (hvs : ∀ v ∈ vs, v = 0 ∨ (30 ≤ v ∧ v ≤ 61))
    (token : String) (hnum : isNumeral token)
    (hout : ¬ (numeralValue token = 0 ∨ (30 ≤ numeralValue token ∧ numeralValue token ≤ 61)))
    (rest : List String) (acc fuel : Nat) (hfuel : vs.length + 1 ≤ fuel) :
    slotLoop ParseBipedSlot fuel
        ⟨vs.flatMap (fun w => ["|", toString w]) ++ "|" :: token :: rest⟩ acc
      = SlotLoop.failed ⟨rest⟩ := by
  induction vs generalizing acc fuel with
  | nil =>
    cases fuel with
    | zero => omega
    | succ n =>
      have hpeek : ¬ ("|" : String) = ";" := by decide
      simp [slotLoop, Reader.Peek, Reader.GetToken, hpeek, ParseBipedSlot_numeral token hnum, hout]
  | cons v vs ih =>
    cases fuel with
    | zero => omega
    | succ n =>
      have hv := hvs v (List.mem_cons_self _ _)
      have hrest : ∀ w ∈ vs, w = 0 ∨ (30 ≤ w ∧ w ≤ 61) :=
        fun w hw => hvs w (List.mem_cons_of_mem _ hw)
      have hn : vs.length + 1 ≤ n := by
        simp only [List.length_cons] at hfuel
        omega
      have hpeek : ¬ ("|" : String) = ";" := by decide
      simp only [List.flatMap_cons, List.cons_append, List.nil_append, slotLoop, Reader.Peek,
        List.headD_cons, hpeek, if_false, Reader.GetToken, List.tail_cons, ne_eq,
        not_true_eq_false, ParseBipedSlot_valid v hv]
      exact ih hrest (orSlot acc v) n hn

theorem ParseSlots_invalid (v : Nat) (vs : List Nat)
    (hvs : ∀ w ∈ v :: vs, w = 0 ∨ (30 ≤ w ∧ w ≤ 61)) (token : String) (hnum : isNumeral token)
    (hout : ¬ (numeralValue token = 0 ∨ (30 ≤ numeralValue token ∧ numeralValue token ≤ 61)))
    (rest : List String) :
    ParseSlots ParseBipedSlot ⟨slotTokens (v :: vs) ++ "|" :: token :: rest⟩
      = SlotLoop.failed ⟨rest⟩ := by
  have hv := hvs v (List.mem_cons_self _ _)
  have hrest : ∀ w ∈ vs, w = 0 ∨ (30 ≤ w ∧ w ≤ 61) :=
    fun w hw => hvs w (List.mem_cons_of_mem _ hw)
  simp only [ParseSlots, slotTokens_cons, List.cons_append, ParseBipedSlot_valid v hv]
  apply slotLoop_invalid vs hrest token hnum hout
  simp only [List.length_append, List.length_cons]
  have : vs.length ≤ (vs.flatMap (fun w => ["|", toString w])).length := by
    clear hrest hvs
    induction vs with
    | nil => simp
    | cons w ws ih =>
      simp only [List.flatMap_cons, List.length_append, List.length_cons, List.length_nil]
      omega
  omega

end ArmorAddons

/-- C10, refuted at a concrete input: the numeral token `0` denotes a number outside
30..61, yet `ParseBipedSlot` returns the value 0 for it, and the statement
`FilterByFormID(Arma).BipedObjectSlots = 0;` parses, with the empty mask. -/
theorem C10_counterexample :
    numeralValue "0" = 0 ∧
    ArmorAddons.ParseBipedSlot ⟨["0", ";"]⟩ = (some 0, ⟨[";"]⟩) ∧
    ArmorAddons.ParseExpressionStatement sampleParseForm
        ⟨["FilterByFormID", "(", "Arma", ")", ".", "BipedObjectSlots", "=", "0", ";"]⟩
      = some (some (Statement.expression
          ⟨ArmorAddons.FilterType.kFormID, "Arma", ArmorAddons.ElementType.kBipedObjectSlots,
            some 0⟩), ⟨[]⟩) := by
  refine ⟨by decide, by decide, ?_⟩
  simp [ArmorAddons.ParseExpressionStatement, ArmorAddons.ParseFilter, ArmorAddons.ParseElement,
    ArmorAddons.ParseAssignment, ArmorAddons.ParseSlots, ArmorAddons.slotLoop,
    ArmorAddons.ParseBipedSlot, ArmorAddons.from_chars, sampleParseForm, Reader.GetToken,
    Reader.Peek, Reader.EndOfFile, ArmorAddons.ConfigData.init, ArmorAddons.orSlot,
    ArmorAddons.ULONG_MAX]

/-- C10, amended: the valid domain of a biped slot value is 0 or 30..61. For every
numeral token, `ParseBipedSlot` returns the number when it is 0 or lies in
30..61 and returns nothing otherwise; a number outside this domain, as the first
slot value or after valid ones, makes `ParseAssignment` return false, and makes
`ParseExpressionStatement` yield no statement. -/
theorem C10_slot_domain_is_zero_or_30_to_61 (token : String) (hnum : isNumeral token)
    (rest : List String) :
    ArmorAddons.ParseBipedSlot ⟨token :: rest⟩
      = (if numeralValue token = 0 ∨ (30 ≤ numeralValue token ∧ numeralValue token ≤ 61)
          then some (numeralValue token) else none, ⟨rest⟩) ∧
    (¬ (numeralValue token = 0 ∨ (30 ≤ numeralValue token ∧ numeralValue token ≤ 61)) →
      (∀ cfg : ArmorAddons.ConfigData,
        ArmorAddons.ParseAssignment ⟨"=" :: token :: rest⟩ cfg = some (false, ⟨rest⟩, cfg)) ∧
      (∀ (vs : List Nat) (cfg : ArmorAddons.ConfigData), vs ≠ [] →
        (∀ v ∈ vs, v = 0 ∨ (30 ≤ v ∧ v ≤ 61)) →
        ArmorAddons.ParseAssignment ⟨"=" :: (slotTokens vs ++ "|" :: token :: rest)⟩ cfg
          = some (false, ⟨rest⟩, cfg)) ∧
      (∀ (parseForm : Reader → Option String × Reader) (ref : List String) (s : String),
        parseForm ⟨ref ++ ")" :: "." :: "BipedObjectSlots" :: "=" :: token :: rest⟩
          = (some s, ⟨")" :: "." :: "BipedObjectSlots" :: "=" :: token :: rest⟩) →
        ArmorAddons.ParseExpressionStatement parseForm
            ⟨"FilterByFormID" :: "(" ::
              (ref ++ ")" :: "." :: "BipedObjectSlots" :: "=" :: token :: rest)⟩
          = some (none, ⟨rest⟩))) := by
  refine ⟨ArmorAddons.ParseBipedSlot_numeral token hnum rest, ?_⟩
  intro hout
  have hfirst : ∀ cfg : ArmorAddons.ConfigData,
      ArmorAddons.ParseAssignment ⟨"=" :: token :: rest⟩ cfg = some (false, ⟨rest⟩, cfg) := by
    intro cfg
    obtain ⟨flt, ff, el, av⟩ := cfg
    cases el
    simp [ArmorAddons.ParseAssignment, Reader.GetToken, ArmorAddons.ParseSlots,
      ArmorAddons.ParseBipedSlot_numeral token hnum, hout]
  refine ⟨hfirst, ?_, ?_⟩
  · intro vs cfg hne hvs
    cases vs with
    | nil => exact absurd rfl hne
    | cons v vs =>
      obtain ⟨flt, ff, el, av⟩ := cfg
      cases el
      simp [ArmorAddons.ParseAssignment, Reader.GetToken,
        ArmorAddons.ParseSlots_invalid v vs hvs token hnum hout rest]
  · intro parseForm ref s hform
    have hne : ¬ ("FilterByFormID" : String) = "" := by decide
    simp [ArmorAddons.ParseExpressionStatement, Reader.EndOfFile, Reader.Peek, hne,
      ArmorAddons.ParseFilter, Reader.GetToken, hform, ArmorAddons.ParseElement, hfirst]

/-- C10 amended, at the concrete numeral token `29`. -/
theorem C10_slot_domain_is_zero_or_30_to_61_witness :
    ArmorAddons.ParseBipedSlot ⟨"29" :: [";"]⟩
      = (if numeralValue "29" = 0 ∨ (30 ≤ numeralValue "29" ∧ numeralValue "29" ≤ 61)
          then some (numeralValue "29") else none, ⟨[";"]⟩) ∧
    (¬ (numeralValue "29" = 0 ∨ (30 ≤ numeralValue "29" ∧ numeralValue "29" ≤ 61)) →
      (∀ cfg : ArmorAddons.ConfigData,
        ArmorAddons.ParseAssignment ⟨"=" :: "29" :: [";"]⟩ cfg = some (false, ⟨[";"]⟩, cfg)) ∧
      (∀ (vs : List Nat) (cfg : ArmorAddons.ConfigData), vs ≠ [] →
        (∀ v ∈ vs, v = 0 ∨ (30 ≤ v ∧ v ≤ 61)) →
        ArmorAddons.ParseAssignment ⟨"=" :: (slotTokens vs ++ "|" :: "29" :: [";"])⟩ cfg
          = some (false, ⟨[";"]⟩, cfg)) ∧
      (∀ (parseForm : Reader → Option String × Reader) (ref : List String) (s : String),
        parseForm ⟨ref ++ ")" :: "." :: "BipedObjectSlots" :: "=" :: "29" :: [";"]⟩
          = (some s, ⟨")" :: "." :: "BipedObjectSlots" :: "=" :: "29" :: [";"]⟩) →
        ArmorAddons.ParseExpressionStatement parseForm
            ⟨"FilterByFormID" :: "(" ::
              (ref ++ ")" :: "." :: "BipedObjectSlots" :: "=" :: "29" :: [";"])⟩
          = some (none, ⟨[";"]⟩))) :=
  C10_slot_domain_is_zero_or_30_to_61 "29" ⟨by decide, by decide⟩ [";"]

/-! ## Printing biped slots -/

namespace ArmorAddons

theorem and_bit_ne_zero_iff (m ii : Nat) (hii : ii < 32) :
    m &&& ((1 <<< ii) % 2 ^ 32) ≠ 0 ↔ m.testBit ii = true := by
  have hlt : 2 ^ ii < 2 ^ 32 := Nat.pow_lt_pow_right (by omega) hii
  rw [Nat.one_shiftLeft, Nat.mod_eq_of_lt hlt]
  constructor
  · intro h
    obtain ⟨j, hj⟩ := Nat.ne_zero_implies_bit_true h
    simp only [Nat.testBit_and, Nat.testBit_two_pow, Bool.and_eq_true, decide_eq_true_eq] at hj
    rw [hj.2]
    exact hj.1
  · intro h e
    have : (m &&& 2 ^ ii).testBit ii = true := by
      simp [Nat.testBit_and, Nat.testBit_two_pow, h]
    rw [e] at this
    simp at this

theorem mem_printedSlots (m v : Nat) :
    v ∈ printedSlots m ↔ 30 ≤ v ∧ v ≤ 61 ∧ m.testBit (v - 30) = true := by
  simp only [printedSlots, List.mem_map, List.mem_filter, List.mem_range, decide_eq_true_eq]
  constructor
  · rintro ⟨ii, ⟨hlt, hbit⟩, rfl⟩
    refine ⟨by omega, by omega, ?_⟩
    rw [Nat.add_sub_cancel]
    exact (and_bit_ne_zero_iff m ii hlt).mp hbit
  · rintro ⟨h1, h2, h3⟩
    refine ⟨v - 30, ⟨by omega, (and_bit_ne_zero_iff m (v - 30) (by omega)).mpr h3⟩, by omega⟩

theorem printedSlots_ne_nil (m : Nat) (h0 : m ≠ 0) (hm : m < 2 ^ 32) : printedSlots m ≠ [] := by
  obtain ⟨i, hi⟩ := Nat.ne_zero_implies_bit_true h0
  have hlt : i < 32 := by
    by_contra hge
    have h2 : 2 ^ 32 ≤ 2 ^ i := Nat.pow_le_pow_right (by omega) (by omega)
    have h3 := Nat.testBit_implies_ge hi
    omega
  intro e
  have hmem : i + 30 ∈ printedSlots m :=
    (mem_printedSlots m (i + 30)).mpr ⟨by omega, by omega, by simpa using hi⟩
  rw [e] at hmem
  simp at hmem

/-- The mask read back from the slots printed for `m` is `m`. -/
theorem foldl_orSlot_printedSlots (m : Nat) (hm : m < 2 ^ 32) :
    (printedSlots m).foldl orSlot 0 = m := by
  have hvalid : ∀ v ∈ printedSlots m, v = 0 ∨ (30 ≤ v ∧ v ≤ 61) := by
    intro v hv
    obtain ⟨h1, h2, _⟩ := (mem_printedSlots m v).mp hv
    exact Or.inr ⟨h1, h2⟩
  apply Nat.eq_of_testBit_eq
  intro b
  apply Bool.eq_iff_iff.mpr
  rw [foldl_orSlot_testBit (printedSlots m) hvalid 0 b]
  simp only [Nat.zero_testBit, Bool.false_eq_true, false_or]
  constructor
  · rintro ⟨v, hv, _, rfl⟩
    exact ((mem_printedSlots m v).mp hv).2.2
  · intro hb
    have hlt : b < 32 := by
      by_contra hge
      have h2 : 2 ^ 32 ≤ 2 ^ b := Nat.pow_le_pow_right (by omega) (by omega)
      have h3 := Nat.testBit_implies_ge hb
      omega
    exact ⟨b + 30, (mem_printedSlots m (b + 30)).mpr ⟨by omega, by omega, by simpa using hb⟩,
      by omega, by omega⟩

theorem numeral_chars : ∀ v < 62, (v = 0 ∨ 30 ≤ v) →
    (toString v).data ≠ [] ∧
    ∀ c ∈ (toString v).data, c.isWhitespace = false ∧
      c ∉ ['(', ')', '.', ';', '=', '|', '\x7b', '\x7d'] := by
  decide

theorem splitTokensAux_word (ds : List Char)
    (hds : ∀ c ∈ ds, c.isWhitespace = false ∧ c ∉ ['(', ')', '.', ';', '=', '|', '\x7b', '\x7d'])
    (cur rest : List Char) :
    splitTokensAux (ds ++ rest) cur = splitTokensAux rest (cur ++ ds) := by
  induction ds generalizing cur with
  | nil => simp
  | cons c ds ih =>
    obtain ⟨h1, h2⟩ := hds c (List.mem_cons_self _ _)
    have hrest : ∀ c' ∈ ds, c'.isWhitespace = false ∧
        c' ∉ ['(', ')', '.', ';', '=', '|', '\x7b', '\x7d'] :=
      fun c' hc' => hds c' (List.mem_cons_of_mem _ hc')
    rw [List.cons_append, splitTokensAux]
    simp only [h1, Bool.false_eq_true, if_false, h2]
    rw [ih hrest]
    simp

theorem splitTokensAux_separator (cur rest : List Char) (hcur : cur ≠ []) :
    splitTokensAux (' ' :: '|' :: ' ' :: rest) cur
      = String.mk cur :: "|" :: splitTokensAux rest [] := by
  have hemp : cur.isEmpty = false := by
    cases cur with
    | nil => exact absurd rfl hcur
    | cons c cs => rfl
  have h1 : (' ' : Char).isWhitespace = true := by decide
  have h2 : ('|' : Char).isWhitespace = false := by decide
  have h3 : ('|' : Char) ∈ ['(', ')', '.', ';', '=', '|', '\x7b', '\x7d'] := by decide
  rw [splitTokensAux]
  simp only [h1, if_true, hemp, Bool.false_eq_true, if_false]
  rw [splitTokensAux]
  simp only [h2, Bool.false_eq_true, if_false, h3, if_true, List.isEmpty_nil]
  rw [splitTokensAux]
  simp only [h1, if_true, List.isEmpty_nil]
  rfl

theorem splitTokensAux_end (cur : List Char) (hcur : cur ≠ []) :
    splitTokensAux [] cur = [String.mk cur] := by
  cases cur with
  | nil => exact absurd rfl hcur
  | cons c cs => simp [splitTokensAux]

/-- The tokens of the text that `GetBipedSlots` builds for a non-empty list of slot
values: the numerals, separated by `|`. -/
theorem splitTokensAux_printed (vs : List Nat) (hne : vs ≠ [])
    (hvs : ∀ v ∈ vs, v = 0 ∨ (30 ≤ v ∧ v ≤ 61)) :
    splitTokensAux
        ((vs.flatMap (fun v => (toString v).data ++ [' ', '|', ' '])).take
          ((vs.flatMap (fun v => (toString v).data ++ [' ', '|', ' '])).length - 3)) []
      = slotTokens vs := by
  induction vs with
  | nil => exact absurd rfl hne
  | cons v vs ih =>
    have hv := hvs v (List.mem_cons_self _ _)
    obtain ⟨hnil, hchars⟩ := numeral_chars v (by omega) (by omega)
    cases vs with
    | nil =>
      have htake : ((toString v).data ++ [' ', '|', ' ']).take
          (((toString v).data ++ [' ', '|', ' ']).length - 3) = (toString v).data := by
        apply List.take_left'
        simp
      simp only [List.flatMap_cons, List.flatMap_nil, List.append_nil, htake, slotTokens]
      have := splitTokensAux_word (toString v).data hchars [] []
      simp only [List.append_nil, List.nil_append] at this
      rw [this, splitTokensAux_end _ hnil]
    | cons w ws =>
      have hrest : ∀ u ∈ w :: ws, u = 0 ∨ (30 ≤ u ∧ u ≤ 61) :=
        fun u hu => hvs u (List.mem_cons_of_mem _ hu)
      have ih' := ih (by simp) hrest
      have hlen : 3 ≤ ((w :: ws).flatMap (fun v => (toString v).data ++ [' ', '|', ' '])).length := by
        simp only [List.flatMap_cons, List.length_append, List.length_cons, List.length_nil]
        omega
      have hsplit : ((v :: w :: ws).flatMap (fun v => (toString v).data ++ [' ', '|', ' '])).take
          (((v :: w :: ws).flatMap (fun v => (toString v).data ++ [' ', '|', ' '])).length - 3)
          = ((toString v).data ++ [' ', '|', ' ']) ++
            ((w :: ws).flatMap (fun v => (toString v).data ++ [' ', '|', ' '])).take
              (((w :: ws).flatMap (fun v => (toString v).data ++ [' ', '|', ' '])).length - 3) := by
        rw [List.flatMap_cons (v) (w :: ws)]
        generalize (w :: ws).flatMap (fun v => (toString v).data ++ [' ', '|', ' ']) = body at hlen
        rw [List.length_append]
        have e : ((toString v).data ++ [' ', '|', ' ']).length + body.length - 3
            = ((toString v).data ++ [' ', '|', ' ']).length + (body.length - 3) := by omega
        rw [e, List.take_append]
      rw [hsplit, List.append_assoc, splitTokensAux_word (toString v).data hchars,
        List.nil_append]
      rw [show ([' ', '|', ' '] ++ List.take
          (((w :: ws).flatMap (fun v => (toString v).data ++ [' ', '|', ' '])).length - 3)
          ((w :: ws).flatMap (fun v => (toString v).data ++ [' ', '|', ' ']))
        = ' ' :: '|' :: ' ' :: List.take
          (((w :: ws).flatMap (fun v => (toString v).data ++ [' ', '|', ' '])).length - 3)
          ((w :: ws).flatMap (fun v => (toString v).data ++ [' ', '|', ' '])))
        from rfl]
      rw [splitTokensAux_separator _ _ hnil, ih']
      rfl

theorem printLoop_data (m : Nat) (is : List Nat) (s0 : String) :
    (is.foldl
        (fun retStr ii =>
          if m &&& ((1 <<< ii) % 2 ^ 32) ≠ 0 then retStr ++ (toString (ii + 30) ++ " | ")
          else retStr) s0).data
      = s0.data ++
        ((is.filter (fun ii => m &&& ((1 <<< ii) % 2 ^ 32) ≠ 0)).map (fun ii => ii + 30)).flatMap
          (fun v => (toString v).data ++ [' ', '|', ' ']) := by
  induction is generalizing s0 with
  | nil => simp
  | cons i is ih =>
    simp only [List.foldl_cons]
    rw [ih]
    by_cases hb : m &&& ((1 <<< i) % 2 ^ 32) ≠ 0
    · simp only [List.filter_cons, hb, if_true, decide_True, String.data_append, List.map_cons,
        List.flatMap_cons, List.append_assoc, ne_eq, not_false_eq_true]
    · simp only [List.filter_cons, hb, if_false, decide_False, Bool.false_eq_true]

/-- The tokens of the text `GetBipedSlots` prints: the single numeral `0` for the
empty mask, otherwise the numerals of the set bits separated by `|`. -/
theorem splitTokens_GetBipedSlots (m : Nat) (hm : m < 2 ^ 32) :
    splitTokens (GetBipedSlots m) = slotTokens (if m = 0 then [0] else printedSlots m) := by
  by_cases h0 : m = 0
  · subst h0
    decide
  · have hne := printedSlots_ne_nil m h0 hm
    have hvalid : ∀ v ∈ printedSlots m, v = 0 ∨ (30 ≤ v ∧ v ≤ 61) := by
      intro v hv
      obtain ⟨h1, h2, _⟩ := (mem_printedSlots m v).mp hv
      exact Or.inr ⟨h1, h2⟩
    have hdata := printLoop_data m (List.range 32) ""
    rw [show ("" : String).data = [] from rfl, List.nil_append] at hdata
    change _ = (printedSlots m).flatMap (fun v => (toString v).data ++ [' ', '|', ' ']) at hdata
    have hbody : (printedSlots m).flatMap (fun v => (toString v).data ++ [' ', '|', ' ']) ≠ [] := by
      cases hp : printedSlots m with
      | nil => exact absurd hp hne
      | cons v vs => simp [List.flatMap_cons]
    have hemp : ((printedSlots m).flatMap
        (fun v => (toString v).data ++ [' ', '|', ' '])).isEmpty = false := by
      cases hb : (printedSlots m).flatMap (fun v => (toString v).data ++ [' ', '|', ' ']) with
      | nil => exact absurd hb hbody
      | cons c cs => rfl
    simp only [splitTokens, GetBipedSlots, h0, if_false, hdata, hemp, Bool.false_eq_true]
    exact splitTokensAux_printed (printedSlots m) hne hvalid

end ArmorAddons

/-- C6: print/parse inverse for slot masks. For every 32-bit mask `m`, the tokens of
the text `GetBipedSlots(m)` followed by `;`, read after the `=` by the
BipedObjectSlots branch of `ParseAssignment`, give `AssignValue = m`. -/
theorem C6_print_parse_inverse_for_slot_masks (m : Nat) (hm : m < 2 ^ 32) (rest : List String)
    (cfg : ArmorAddons.ConfigData) :
    ArmorAddons.ParseAssignment
        ⟨"=" :: (ArmorAddons.splitTokens (ArmorAddons.GetBipedSlots m) ++ ";" :: rest)⟩ cfg
      = some (true, ⟨";" :: rest⟩, { cfg with AssignValue := some m }) := by
  rw [ArmorAddons.splitTokens_GetBipedSlots m hm]
  obtain ⟨flt, ff, el, av⟩ := cfg
  cases el
  by_cases h0 : m = 0
  · subst h0
    have hvs : ∀ w ∈ [0], w = 0 ∨ (30 ≤ w ∧ w ≤ 61) := by decide
    simp only [if_true, ArmorAddons.ParseAssignment, Reader.GetToken, List.headD_cons,
      List.tail_cons, ne_eq, not_true_eq_false, if_false,
      ArmorAddons.ParseSlots_valid 0 [] hvs rest]
    rfl
  · have hne := ArmorAddons.printedSlots_ne_nil m h0 hm
    have hvalid : ∀ v ∈ ArmorAddons.printedSlots m, v = 0 ∨ (30 ≤ v ∧ v ≤ 61) := by
      intro v hv
      obtain ⟨h1, h2, _⟩ := (ArmorAddons.mem_printedSlots m v).mp hv
      exact Or.inr ⟨h1, h2⟩
    have hmask := ArmorAddons.foldl_orSlot_printedSlots m hm
    cases hp : ArmorAddons.printedSlots m with
    | nil => exact absurd hp hne
    | cons v vs =>
      rw [hp] at hvalid hmask
      simp only [h0, if_false, ArmorAddons.ParseAssignment, Reader.GetToken, List.headD_cons,
        List.tail_cons, ne_eq, not_true_eq_false, hp,
        ArmorAddons.ParseSlots_valid v vs hvalid rest, hmask]

/-- C6, at the concrete mask 5 (bits 0 and 2): the text is `30 | 32`. -/
theorem C6_print_parse_inverse_for_slot_masks_witness :
    ArmorAddons.GetBipedSlots 5 = "30 | 32" ∧
    ArmorAddons.ParseAssignment
        ⟨"=" :: (ArmorAddons.splitTokens (ArmorAddons.GetBipedSlots 5) ++ ";" :: [])⟩
        ArmorAddons.ConfigData.init
      = some (true, ⟨";" :: []⟩, { ArmorAddons.ConfigData.init with AssignValue := some 5 }) :=
  ⟨by decide, C6_print_parse_inverse_for_slot_masks 5 (by decide) [] ArmorAddons.ConfigData.init⟩

/-! ## Accumulation of keyword operations (C11) -/

namespace Locations

theorem mem_foldl_setInsert (l s : List TESForm) (k : TESForm) :
    k ∈ l.foldl setInsert s ↔ k ∈ s ∨ k ∈ l := by
  induction l generalizing s with
  | nil => simp
  | cons a l ih =>
    simp only [List.foldl_cons, ih, List.mem_cons]
    unfold setInsert
    by_cases ha : a ∈ s
    · simp only [ha, if_true]
      constructor
      · rintro (h | h)
        · exact Or.inl h
        · exact Or.inr (Or.inr h)
      · rintro (h | h | h)
        · exact Or.inl h
        · exact Or.inl (h ▸ ha)
        · exact Or.inr h
    · simp only [ha, if_false, List.mem_append, List.mem_singleton]
      tauto

theorem nodup_foldl_setInsert (l s : List TESForm) (h : s.Nodup) :
    (l.foldl setInsert s).Nodup := by
  induction l generalizing s with
  | nil => simpa using h
  | cons a l ih =>
    simp only [List.foldl_cons]
    apply ih
    unfold setInsert
    by_cases ha : a ∈ s
    · simpa [ha] using h
    · simp only [ha, if_false]
      exact List.Nodup.append h (List.nodup_singleton a) (by simpa using ha)

end Locations

/-- C11: for every statement list and every location `T` without a pending entry,
after Locations `Prepare` the pending `AddKeywordVec` of `T` is exactly the
sequence of resolved `Add` arguments of the statements on `T`, in statement
order with duplicates kept, `DeleteKeywordVec` is exactly the sequence of
resolved `Delete` arguments, in order with duplicates kept, and
`AddUniqueKeywordSet` holds each resolved `AddIfNotExists` argument exactly once
and nothing else. The entry of `T` holds this data when a statement is on `T`,
and `Prepare` returns whenever every operation other than `Clear` carries an
argument. -/
theorem C11_prepare_accumulates_keyword_operations (getForm : String → Option TESForm)
    (env : Condition → Bool) (m0 : List (TESForm × Locations.PatchData))
    (stmts : List (Statement Locations.ConfigData)) (T : TESForm)
    (hfresh : PatchMap.find m0 T = none) :
    ((∀ c ∈ flatten env stmts, ∀ op ∈ c.Operations,
        op.OpType ≠ Locations.OperationType.kClear → op.OpForm ≠ none) →
      ∃ m, Locations.PrepareVec getForm env m0 stmts = some m) ∧
    (∀ m, Locations.PrepareVec getForm env m0 stmts = some m →
      (Locations.pendingKeywords m T).AddKeywordVec
        = Locations.resolvedArgs getForm Locations.OperationType.kAdd
            (Locations.operationsOn getForm T (flatten env stmts)) ∧
      (Locations.pendingKeywords m T).DeleteKeywordVec
        = Locations.resolvedArgs getForm Locations.OperationType.kDelete
            (Locations.operationsOn getForm T (flatten env stmts)) ∧
      (∀ k, (Locations.pendingKeywords m T).AddUniqueKeywordSet.count k
        = if k ∈ Locations.resolvedArgs getForm Locations.OperationType.kAddIfNotExists
              (Locations.operationsOn getForm T (flatten env stmts)) then 1 else 0) ∧
      ((∃ c ∈ flatten env stmts,
          (getForm c.FilterForm).bind (fun f => f.As FormType.Location) = some T) →
        PatchMap.find m T = some ⟨some (Locations.pendingKeywords m T)⟩)) := by
  constructor
  · intro hwf
    obtain ⟨m, hm⟩ := Locations.PrepareFlat_isSome_location getForm _ m0 hwf
    exact ⟨m, by simp [Locations.PrepareVec, PrepareStatements_flatten, hm]⟩
  · intro m hm
    simp only [Locations.PrepareVec, PrepareStatements_flatten] at hm
    obtain ⟨_, hacc, hex, _⟩ := Locations.PrepareFlat_at getForm _ _ m T hm
    have hinit : Locations.pendingKeywords m0 T = Locations.KeywordsData.init := by
      simp [Locations.pendingKeywords, hfresh, Locations.PatchData.init]
    rw [hinit] at hacc
    have hchar := Locations.PrepareOperations_char getForm _ _ _ hacc
    refine ⟨?_, ?_, ?_, hex⟩
    · rw [hchar]
      simp [Locations.KeywordsData.init]
    · rw [hchar]
      simp [Locations.KeywordsData.init]
    · intro k
      rw [hchar]
      simp only [Locations.KeywordsData.init]
      have hnd := Locations.nodup_foldl_setInsert
        (Locations.resolvedArgs getForm Locations.OperationType.kAddIfNotExists
          (Locations.operationsOn getForm T (flatten env stmts))) [] List.nodup_nil
      have hmem := Locations.mem_foldl_setInsert
        (Locations.resolvedArgs getForm Locations.OperationType.kAddIfNotExists
          (Locations.operationsOn getForm T (flatten env stmts))) [] k
      simp only [List.not_mem_nil, false_or] at hmem
      by_cases hk : k ∈ Locations.resolvedArgs getForm Locations.OperationType.kAddIfNotExists
          (Locations.operationsOn getForm T (flatten env stmts))
      · rw [if_pos hk]
        exact List.count_eq_one_of_mem hnd (hmem.mpr hk)
      · rw [if_neg hk]
        exact List.count_eq_zero_of_not_mem (fun h => hk (hmem.mp h))

/-- C11, at a concrete input: two statements on the sample location giving `Add(Kw)`
twice, `AddIfNotExists(Kw)` twice and `Delete(Kw)` once. -/
theorem C11_prepare_accumulates_keyword_operations_witness :
    ∃ m, Locations.PrepareVec sampleForms sampleEnv [] Locations.sampleAccumulate = some m ∧
      (Locations.pendingKeywords m ⟨1, FormType.Location⟩).AddKeywordVec
        = [⟨2, FormType.Keyword⟩, ⟨2, FormType.Keyword⟩] ∧
      (Locations.pendingKeywords m ⟨1, FormType.Location⟩).DeleteKeywordVec
        = [⟨2, FormType.Keyword⟩] ∧
      (Locations.pendingKeywords m ⟨1, FormType.Location⟩).AddUniqueKeywordSet.count
        ⟨2, FormType.Keyword⟩ = 1 := by
  have h := C11_prepare_accumulates_keyword_operations sampleForms sampleEnv []
    Locations.sampleAccumulate ⟨1, FormType.Location⟩ (by decide)
  obtain ⟨m, hm⟩ := h.1 (by
    simp only [Locations.sampleAccumulate, flatten, flattenStatement]
    decide)
  obtain ⟨h1, h2, h3, _⟩ := h.2 m hm
  refine ⟨m, hm, ?_, ?_, ?_⟩
  · rw [h1]
    simp only [Locations.sampleAccumulate, flatten, flattenStatement, Locations.operationsOn]
    decide
  · rw [h2]
    simp only [Locations.sampleAccumulate, flatten, flattenStatement, Locations.operationsOn]
    decide
  · rw [h3]
    simp only [Locations.sampleAccumulate, flatten, flattenStatement, Locations.operationsOn]
    decide

/-! ## The two phases of `Patch()` (C12, C13) -/

namespace PatchMap

theorem modify_modify {V : Type} (dflt : V) (f g : V → V) (m : List (TESForm × V))
    (k : TESForm) :
    modify dflt f (modify dflt g m k) k = modify dflt (fun v => f (g v)) m k := by
  induction m with
  | nil => simp [modify]
  | cons e rest ih =>
    obtain ⟨k', v⟩ := e
    by_cases h : k' = k
    · simp [modify, h]
    · simp [modify, h, ih]

theorem modify_const_at {V : Type} (dflt : V) (f : V → V) (m : List (TESForm × V))
    (k : TESForm) :
    modify dflt f m k = modify dflt (fun _ => f ((find m k).getD dflt)) m k := by
  induction m with
  | nil => simp [modify, find]
  | cons e rest ih =>
    obtain ⟨k', v⟩ := e
    by_cases h : k' = k
    · simp [modify, find, h]
    · simp only [modify, find, h, if_false]
      rw [ih]

end PatchMap

namespace Parsers

/-- A step function on a larger state that acts through a component: the flat
loop on the larger state is the flat loop on the component, put back. -/
theorem PrepareFlat_lift {S σ α : Type} (f' : S → α → Option S) (f : σ → α → Option σ)
    (proj : S → σ) (emb : S → σ → S)
    (h : ∀ s c, f' s c = (f (proj s) c).map (emb s))
    (hproj : ∀ s m, proj (emb s m) = m) (hemb : ∀ s m m', emb (emb s m) m' = emb s m')
    (hid : ∀ s, emb s (proj s) = s) (l : List α) (s : S) :
    PrepareFlat f' s l = (PrepareFlat f (proj s) l).map (emb s) := by
  induction l generalizing s with
  | nil => simp [PrepareFlat, hid]
  | cons c l ih =>
    simp only [PrepareFlat, h]
    cases hc : f (proj s) c with
    | none => simp
    | some m =>
      simp only [Option.map_some']
      rw [ih, hproj]
      cases PrepareFlat f m l with
      | none => simp
      | some m' => simp [hemb]

end Parsers

namespace Locations

theorem PrepareOperationState_frame (getForm : String → Option TESForm) (location : TESForm)
    (st st' : State) (op : Operation)
    (h : PrepareOperationState getForm location st op = some st') :
    st'.keywords = st.keywords ∧ st'.g_configVec = st.g_configVec := by
  unfold PrepareOperationState at h
  repeat' split at h
  all_goals first
    | (simp only [Option.some.injEq] at h
       subst h
       exact ⟨rfl, rfl⟩)
    | simp at h

theorem PrepareOperationsState_frame (getForm : String → Option TESForm) (location : TESForm)
    (ops : List Operation) (st st' : State)
    (h : PrepareOperationsState getForm location st ops = some st') :
    st'.keywords = st.keywords ∧ st'.g_configVec = st.g_configVec := by
  induction ops generalizing st with
  | nil =>
    simp only [PrepareOperationsState, Option.some.injEq] at h
    subst h
    exact ⟨rfl, rfl⟩
  | cons op ops ih =>
    simp only [PrepareOperationsState] at h
    cases h1 : PrepareOperationState getForm location st op with
    | none => simp [h1] at h
    | some s1 =>
      simp only [h1] at h
      obtain ⟨a1, b1⟩ := PrepareOperationState_frame getForm location st s1 op h1
      obtain ⟨a2, b2⟩ := ih s1 h
      exact ⟨a2.trans a1, b2.trans b1⟩

/-- One `Prepare(const ConfigData&)` leaves the keyword arrays of the store and the
statement list as they are. -/
theorem PrepareState_frame (getForm : String → Option TESForm) (st st' : State)
    (c : ConfigData) (h : PrepareState getForm st c = some st') :
    st'.keywords = st.keywords ∧ st'.g_configVec = st.g_configVec := by
  unfold PrepareState at h
  repeat' split at h
  all_goals first
    | (simp only [Option.some.injEq] at h
       subst h
       exact ⟨rfl, rfl⟩)
    | (obtain ⟨a, b⟩ := PrepareOperationsState_frame getForm _ _ _ _ h
       exact ⟨a, b⟩)

theorem PrepareOperationState_eq (getForm : String → Option TESForm) (location : TESForm)
    (st : State) (m : List (TESForm × PatchData)) (kd : KeywordsData) (op : Operation)
    (hm : st.g_patchMap = PatchMap.modify PatchData.init (fun _ => ⟨some kd⟩) m location) :
    PrepareOperationState getForm location st op
      = (PrepareOperation getForm kd op).map (fun kd' =>
          ⟨st.g_configVec, PatchMap.modify PatchData.init (fun _ => ⟨some kd'⟩) m location,
            st.keywords⟩) := by
  obtain ⟨cv, pm, kw⟩ := st
  simp only at hm
  subst hm
  have hw : ∀ f : KeywordsData → KeywordsData,
      writeKeywords ⟨cv, PatchMap.modify PatchData.init (fun _ => ⟨some kd⟩) m location, kw⟩
        location f
      = ⟨cv, PatchMap.modify PatchData.init (fun _ => ⟨some (f kd)⟩) m location, kw⟩ := by
    intro f
    simp only [writeKeywords, PatchMap.modify_modify, Option.map_some']
  obtain ⟨t, form⟩ := op
  cases t <;> cases form with
  | none => simp [PrepareOperationState, PrepareOperation, hw]
  | some s =>
    simp only [PrepareOperationState, PrepareOperation, hw]
    cases hg : getForm s with
    | none => simp
    | some f =>
      cases hk : f.As FormType.Keyword with
      | none => simp [hk]
      | some k => simp [hk]

theorem PrepareOperationsState_eq (getForm : String → Option TESForm) (location : TESForm)
    (m : List (TESForm × PatchData)) (ops : List Operation) (st : State) (kd : KeywordsData)
    (hm : st.g_patchMap = PatchMap.modify PatchData.init (fun _ => ⟨some kd⟩) m location) :
    PrepareOperationsState getForm location st ops
      = (PrepareOperations getForm kd ops).map (fun kd' =>
          ⟨st.g_configVec, PatchMap.modify PatchData.init (fun _ => ⟨some kd'⟩) m location,
            st.keywords⟩) := by
  induction ops generalizing st kd with
  | nil =>
    obtain ⟨cv, pm, kw⟩ := st
    simp only at hm
    subst hm
    simp [PrepareOperationsState, PrepareOperations]
  | cons op ops ih =>
    simp only [PrepareOperationsState, PrepareOperations,
      PrepareOperationState_eq getForm location st m kd op hm]
    cases PrepareOperation getForm kd op with
    | none => simp
    | some kd1 =>
      simp only [Option.map_some']
      rw [ih _ kd1 rfl]

/-- The step on the module state is `Prepare(const ConfigData&)` on `g_patchMap`. -/
theorem PrepareState_eq (getForm : String → Option TESForm) (st : State) (c : ConfigData) :
    PrepareState getForm st c
      = (Prepare getForm st.g_patchMap c).map (fun m => ⟨st.g_configVec, m, st.keywords⟩) := by
  obtain ⟨flt, ff, el, ops⟩ := c
  cases flt
  cases el
  simp only [PrepareState, Prepare]
  cases hg : getForm ff with
  | none => simp
  | some f =>
    cases hk : f.As FormType.Location with
    | none => simp [hk]
    | some location =>
      simp only [hk]
      rw [PrepareOperationsState_eq getForm location st.g_patchMap ops (initKeywords st location)
        (((PatchMap.find st.g_patchMap location).getD PatchData.init).Keywords.getD
          KeywordsData.init) (by
          simp only [initKeywords]
          rw [PatchMap.modify_const_at])]
      cases PrepareOperations getForm
        (((PatchMap.find st.g_patchMap location).getD PatchData.init).Keywords.getD
          KeywordsData.init) ops with
      | none => simp
      | some kd => simp [initKeywords]

theorem PreparePhase_eq (getForm : String → Option TESForm) (env : Condition → Bool)
    (st : State) :
    PreparePhase getForm env st
      = (PrepareVec getForm env st.g_patchMap st.g_configVec).map
          (fun m => ⟨st.g_configVec, m, st.keywords⟩) := by
  simp only [PreparePhase, PrepareVec, PrepareStatements_flatten]
  exact PrepareFlat_lift (PrepareState getForm) (Prepare getForm) (fun s => s.g_patchMap)
    (fun s m => ⟨s.g_configVec, m, s.keywords⟩) (PrepareState_eq getForm)
    (fun _ _ => rfl) (fun _ _ _ => rfl) (fun _ => rfl) _ st

end Locations

namespace Quests

/-- One `Prepare(const ConfigData&)` leaves the quest records of the store and the
statement list as they are. -/
theorem PrepareState_frame_quest (getForm : String → Option TESForm) (st : State)
    (c : ConfigData) :
    (PrepareState getForm st c).quests = st.quests ∧
      (PrepareState getForm st c).g_configVec = st.g_configVec := by
  unfold PrepareState
  repeat' split
  all_goals exact ⟨rfl, rfl⟩

theorem PrepareState_eq_quest (getForm : String → Option TESForm) (st : State)
    (c : ConfigData) :
    PrepareState getForm st c = ⟨st.g_configVec, Prepare getForm st.g_patchMap c, st.quests⟩ := by
  unfold PrepareState Prepare
  repeat' split
  all_goals rfl

theorem PreparePhase_eq_quest (getForm : String → Option TESForm) (env : Condition → Bool)
    (st : State) :
    PreparePhase getForm env st
      = (PrepareVec getForm env st.g_patchMap st.g_configVec).map
          (fun m => ⟨st.g_configVec, m, st.quests⟩) := by
  simp only [PreparePhase, PrepareVec, PrepareStatements_flatten]
  exact PrepareFlat_lift (fun s c => some (PrepareState getForm s c))
    (fun m c => some (Prepare getForm m c)) (fun s => s.g_patchMap)
    (fun s m => ⟨s.g_configVec, m, s.quests⟩)
    (fun s c => by simp [PrepareState_eq_quest])
    (fun _ _ => rfl) (fun _ _ _ => rfl) (fun _ => rfl) _ st

end Quests

namespace ArmorAddons

/-- One `Prepare(const ConfigData&)` leaves the armor addon records of the store and
the statement list as they are. -/
theorem PrepareState_frame_arma (getForm : String → Option TESForm) (st : State)
    (c : ConfigData) :
    (PrepareState getForm st c).armorAddons = st.armorAddons ∧
      (PrepareState getForm st c).g_configVec = st.g_configVec := by
  unfold PrepareState
  repeat' split
  all_goals exact ⟨rfl, rfl⟩

theorem PrepareState_eq_arma (getForm : String → Option TESForm) (st : State)
    (c : ConfigData) :
    PrepareState getForm st c
      = ⟨st.g_configVec, Prepare getForm st.g_patchMap c, st.armorAddons⟩ := by
  unfold PrepareState Prepare
  repeat' split
  all_goals rfl

theorem PreparePhase_eq_arma (getForm : String → Option TESForm) (env : Condition → Bool)
    (st : State) :
    PreparePhase getForm env st
      = (PrepareVec getForm env st.g_patchMap st.g_configVec).map
          (fun m => ⟨st.g_configVec, m, st.armorAddons⟩) := by
  simp only [PreparePhase, PrepareVec, PrepareStatements_flatten]
  exact PrepareFlat_lift (fun s c => some (PrepareState getForm s c))
    (fun m c => some (Prepare getForm m c)) (fun s => s.g_patchMap)
    (fun s m => ⟨s.g_configVec, m, s.armorAddons⟩)
    (fun s c => by simp [PrepareState_eq_arma])
    (fun _ _ => rfl) (fun _ _ _ => rfl) (fun _ => rfl) _ st

end ArmorAddons

namespace Armors

/-- One `Prepare(const ConfigData&)` leaves the armor records of the store and the
statement list as they are. -/
theorem PrepareState_frame_armo (getForm : String → Option TESForm) (st st' : State)
    (c : ConfigData) (h : PrepareState getForm st c = some st') :
    st'.armors = st.armors ∧ st'.g_configVec = st.g_configVec := by
  unfold PrepareState at h
  repeat' split at h
  all_goals first
    | (simp only [Option.some.injEq] at h
       subst h
       exact ⟨rfl, rfl⟩)
    | simp at h

theorem PrepareState_eq_armo (getForm : String → Option TESForm) (st : State)
    (c : ConfigData) :
    PrepareState getForm st c
      = (Prepare getForm st.g_patchMap c).map (fun m => ⟨st.g_configVec, m, st.armors⟩) := by
  unfold PrepareState Prepare
  repeat' split
  all_goals rfl

theorem PreparePhase_eq_armo (getForm : String → Option TESForm) (env : Condition → Bool)
    (st : State) :
    PreparePhase getForm env st
      = (PrepareVec getForm env st.g_patchMap st.g_configVec).map
          (fun m => ⟨st.g_configVec, m, st.armors⟩) := by
  simp only [PreparePhase, PrepareVec, PrepareStatements_flatten]
  exact PrepareFlat_lift (PrepareState getForm) (Prepare getForm) (fun s => s.g_patchMap)
    (fun s m => ⟨s.g_configVec, m, s.armors⟩) (PrepareState_eq_armo getForm)
    (fun _ _ => rfl) (fun _ _ _ => rfl) (fun _ => rfl) _ st

end Armors

/-- C12: `Prepare` does not touch live state. In each of the four domains, with
`Prepare(const ConfigData&)` taken as a step on the whole module state
(statement list, patch map, record store), the Prepare phase of `Patch()`
changes only the patch map: when it returns, every record of the store (keyword
collections, fullName, bipedObjectSlots, formEnchanting) and the statement list
are as before; `Patch()` is this phase followed by the apply phase, which
therefore starts from the untouched store. The phase always returns in Quests
and ArmorAddons; in Locations it returns whenever every operation other than
`Clear` carries an argument, in Armors whenever every stored value has the type
of its element. -/
theorem C12_prepare_leaves_store_unchanged (getForm : String → Option TESForm)
    (env : Condition → Bool) :
    (∀ st st' : Locations.State, Locations.PreparePhase getForm env st = some st' →
      (∀ T, st'.keywords T = st.keywords T) ∧ st'.g_configVec = st.g_configVec ∧
      Locations.Patch getForm env st = some (Locations.ApplyPhase st')) ∧
    (∀ st st' : Quests.State, Quests.PreparePhase getForm env st = some st' →
      (∀ T, st'.quests T = st.quests T) ∧ st'.g_configVec = st.g_configVec ∧
      Quests.Patch getForm env st = some (Quests.ApplyPhase st')) ∧
    (∀ st st' : Armors.State, Armors.PreparePhase getForm env st = some st' →
      (∀ T, st'.armors T = st.armors T) ∧ st'.g_configVec = st.g_configVec ∧
      Armors.Patch getForm env st = some (Armors.ApplyPhase st')) ∧
    (∀ st st' : ArmorAddons.State, ArmorAddons.PreparePhase getForm env st = some st' →
      (∀ T, st'.armorAddons T = st.armorAddons T) ∧ st'.g_configVec = st.g_configVec ∧
      ArmorAddons.Patch getForm env st = some (ArmorAddons.ApplyPhase st')) ∧
    ((∀ st : Locations.State,
        (∀ c ∈ flatten env st.g_configVec, ∀ op ∈ c.Operations,
          op.OpType ≠ Locations.OperationType.kClear → op.OpForm ≠ none) →
        ∃ st', Locations.PreparePhase getForm env st = some st') ∧
      (∀ st : Quests.State, ∃ st', Quests.PreparePhase getForm env st = some st') ∧
      (∀ st : Armors.State, (∀ c ∈ flatten env st.g_configVec, Armors.WellTyped c) →
        ∃ st', Armors.PreparePhase getForm env st = some st') ∧
      (∀ st : ArmorAddons.State, ∃ st', ArmorAddons.PreparePhase getForm env st = some st')) := by
  refine ⟨?_, ?_, ?_, ?_, ?_⟩
  · intro st st' h
    have hframe : st'.keywords = st.keywords ∧ st'.g_configVec = st.g_configVec := by
      have hflat := h
      simp only [Locations.PreparePhase, PrepareStatements_flatten] at hflat
      exact PrepareFlat_invariant (Locations.PrepareState getForm)
        (fun s => s.keywords = st.keywords ∧ s.g_configVec = st.g_configVec)
        (fun s c s' hs hP =>
          ⟨(Locations.PrepareState_frame getForm s s' c hs).1.trans hP.1,
            (Locations.PrepareState_frame getForm s s' c hs).2.trans hP.2⟩)
        _ st st' hflat ⟨rfl, rfl⟩
    refine ⟨fun T => congrFun hframe.1 T, hframe.2, ?_⟩
    rw [Locations.PreparePhase_eq] at h
    cases hp : Locations.PrepareVec getForm env st.g_patchMap st.g_configVec with
    | none => simp [hp] at h
    | some m =>
      simp only [hp, Option.map_some', Option.some.injEq] at h
      subst h
      simp [Locations.Patch, hp, Locations.ApplyPhase]
  · intro st st' h
    have hframe : st'.quests = st.quests ∧ st'.g_configVec = st.g_configVec := by
      have hflat := h
      simp only [Quests.PreparePhase, PrepareStatements_flatten] at hflat
      exact PrepareFlat_invariant (fun s c => some (Quests.PrepareState getForm s c))
        (fun s => s.quests = st.quests ∧ s.g_configVec = st.g_configVec)
        (fun s c s' hs hP => by
          simp only [Option.some.injEq] at hs
          subst hs
          exact ⟨(Quests.PrepareState_frame_quest getForm s c).1.trans hP.1,
            (Quests.PrepareState_frame_quest getForm s c).2.trans hP.2⟩)
        _ st st' hflat ⟨rfl, rfl⟩
    refine ⟨fun T => congrFun hframe.1 T, hframe.2, ?_⟩
    rw [Quests.PreparePhase_eq_quest] at h
    cases hp : Quests.PrepareVec getForm env st.g_patchMap st.g_configVec with
    | none => simp [hp] at h
    | some m =>
      simp only [hp, Option.map_some', Option.some.injEq] at h
      subst h
      simp [Quests.Patch, hp, Quests.ApplyPhase]
  · intro st st' h
    have hframe : st'.armors = st.armors ∧ st'.g_configVec = st.g_configVec := by
      have hflat := h
      simp only [Armors.PreparePhase, PrepareStatements_flatten] at hflat
      exact PrepareFlat_invariant (Armors.PrepareState getForm)
        (fun s => s.armors = st.armors ∧ s.g_configVec = st.g_configVec)
        (fun s c s' hs hP =>
          ⟨(Armors.PrepareState_frame_armo getForm s s' c hs).1.trans hP.1,
            (Armors.PrepareState_frame_armo getForm s s' c hs).2.trans hP.2⟩)
        _ st st' hflat ⟨rfl, rfl⟩
    refine ⟨fun T => congrFun hframe.1 T, hframe.2, ?_⟩
    rw [Armors.PreparePhase_eq_armo] at h
    cases hp : Armors.PrepareVec getForm env st.g_patchMap st.g_configVec with
    | none => simp [hp] at h
    | some m =>
      simp only [hp, Option.map_some', Option.some.injEq] at h
      subst h
      simp [Armors.Patch, hp, Armors.ApplyPhase]
  · intro st st' h
    have hframe : st'.armorAddons = st.armorAddons ∧ st'.g_configVec = st.g_configVec := by
      have hflat := h
      simp only [ArmorAddons.PreparePhase, PrepareStatements_flatten] at hflat
      exact PrepareFlat_invariant (fun s c => some (ArmorAddons.PrepareState getForm s c))
        (fun s => s.armorAddons = st.armorAddons ∧ s.g_configVec = st.g_configVec)
        (fun s c s' hs hP => by
          simp only [Option.some.injEq] at hs
          subst hs
          exact ⟨(ArmorAddons.PrepareState_frame_arma getForm s c).1.trans hP.1,
            (ArmorAddons.PrepareState_frame_arma getForm s c).2.trans hP.2⟩)
        _ st st' hflat ⟨rfl, rfl⟩
    refine ⟨fun T => congrFun hframe.1 T, hframe.2, ?_⟩
    rw [ArmorAddons.PreparePhase_eq_arma] at h
    cases hp : ArmorAddons.PrepareVec getForm env st.g_patchMap st.g_configVec with
    | none => simp [hp] at h
    | some m =>
      simp only [hp, Option.map_some', Option.some.injEq] at h
      subst h
      simp [ArmorAddons.Patch, hp, ArmorAddons.ApplyPhase]
  · refine ⟨?_, ?_, ?_, ?_⟩
    · intro st hwf
      obtain ⟨m, hm⟩ := Locations.PrepareFlat_isSome_location getForm _ st.g_patchMap hwf
      rw [Locations.PreparePhase_eq]
      exact ⟨⟨st.g_configVec, m, st.keywords⟩, by
        simp [Locations.PrepareVec, PrepareStatements_flatten, hm]⟩
    · intro st
      rw [Quests.PreparePhase_eq_quest]
      exact ⟨_, by
        simp [Quests.PrepareVec, PrepareStatements_flatten, PrepareFlat_total]; rfl⟩
    · intro st hwt
      obtain ⟨m, hm⟩ := Armors.PrepareFlat_isSome_armo getForm _ st.g_patchMap hwt
      rw [Armors.PreparePhase_eq_armo]
      exact ⟨⟨st.g_configVec, m, st.armors⟩, by
        simp [Armors.PrepareVec, PrepareStatements_flatten, hm]⟩
    · intro st
      rw [ArmorAddons.PreparePhase_eq_arma]
      exact ⟨_, by
        simp [ArmorAddons.PrepareVec, PrepareStatements_flatten, PrepareFlat_total]; rfl⟩

/-- C12, at a concrete input: the Prepare phase on the sample Armors state returns,
with a pending name for the armor, and the armor record is as before. -/
theorem C12_prepare_leaves_store_unchanged_witness :
    ∃ st', Armors.PreparePhase sampleForms sampleEnv Armors.sampleState = some st' ∧
      st'.g_patchMap = [(⟨4, FormType.Armor⟩, ⟨none, some "new", none⟩)] ∧
      st'.armors ⟨4, FormType.Armor⟩ = ⟨5, "old", none⟩ := by
  have hp : Armors.PreparePhase sampleForms sampleEnv Armors.sampleState
      = some ⟨Armors.sampleState.g_configVec,
          [(⟨4, FormType.Armor⟩, ⟨none, some "new", none⟩)], Armors.sampleState.armors⟩ := by
    rfl
  exact ⟨_, hp, rfl,
    ((C12_prepare_leaves_store_unchanged sampleForms sampleEnv).2.2.1 _ _ hp).1 _⟩

/-- C13: in each of the four domains, for every starting content of the statement
list and the patch map, after `Patch()` returns both `g_configVec` and
`g_patchMap` are empty, and a second `Patch()` run immediately afterwards
returns and changes no record (the state is the same after it). In Quests and
ArmorAddons `Patch()` always returns; in Locations it returns whenever every
operation other than `Clear` carries an argument, in Armors whenever every
stored value has the type of its element. -/
theorem C13_patch_clears_both_globals (getForm : String → Option TESForm)
    (env : Condition → Bool) :
    (∀ st : Locations.State,
      ((∀ c ∈ flatten env st.g_configVec, ∀ op ∈ c.Operations,
          op.OpType ≠ Locations.OperationType.kClear → op.OpForm ≠ none) →
        ∃ st', Locations.Patch getForm env st = some st') ∧
      (∀ st', Locations.Patch getForm env st = some st' →
        st'.g_configVec = [] ∧ st'.g_patchMap = [] ∧
        Locations.Patch getForm env st' = some st')) ∧
    (∀ st : Quests.State, ∃ st', Quests.Patch getForm env st = some st' ∧
      st'.g_configVec = [] ∧ st'.g_patchMap = [] ∧ Quests.Patch getForm env st' = some st') ∧
    (∀ st : Armors.State,
      ((∀ c ∈ flatten env st.g_configVec, Armors.WellTyped c) →
        ∃ st', Armors.Patch getForm env st = some st') ∧
      (∀ st', Armors.Patch getForm env st = some st' →
        st'.g_configVec = [] ∧ st'.g_patchMap = [] ∧
        Armors.Patch getForm env st' = some st')) ∧
    (∀ st : ArmorAddons.State, ∃ st', ArmorAddons.Patch getForm env st = some st' ∧
      st'.g_configVec = [] ∧ st'.g_patchMap = [] ∧
      ArmorAddons.Patch getForm env st' = some st') := by
  refine ⟨?_, ?_, ?_, ?_⟩
  · intro st
    constructor
    · intro hwf
      obtain ⟨m, hm⟩ := Locations.PrepareFlat_isSome_location getForm _ st.g_patchMap hwf
      exact ⟨⟨[], [], Locations.PatchAll m st.keywords⟩, by
        simp [Locations.Patch, Locations.PrepareVec, PrepareStatements_flatten, hm]⟩
    · intro st' h
      simp only [Locations.Patch] at h
      cases hp : Locations.PrepareVec getForm env st.g_patchMap st.g_configVec with
      | none => simp [hp] at h
      | some m =>
        simp only [hp, Option.some.injEq] at h
        subst h
        refine ⟨rfl, rfl, ?_⟩
        simp [Locations.Patch, Locations.PrepareVec, PrepareStatements, Locations.PatchAll]
  · intro st
    refine ⟨⟨[], [], Quests.PatchAll
      ((flatten env st.g_configVec).foldl (Quests.Prepare getForm) st.g_patchMap) st.quests⟩,
      ?_, rfl, rfl, ?_⟩
    · simp [Quests.Patch, Quests.PrepareVec, PrepareStatements_flatten, PrepareFlat_total]
    · simp [Quests.Patch, Quests.PrepareVec, PrepareStatements, Quests.PatchAll]
  · intro st
    constructor
    · exact Armors.Patch_isSome getForm env st
    · intro st' h
      simp only [Armors.Patch] at h
      cases hp : Armors.PrepareVec getForm env st.g_patchMap st.g_configVec with
      | none => simp [hp] at h
      | some m =>
        simp only [hp, Option.some.injEq] at h
        subst h
        refine ⟨rfl, rfl, ?_⟩
        simp [Armors.Patch, Armors.PrepareVec, PrepareStatements, Armors.PatchAll]
  · intro st
    refine ⟨⟨[], [], ArmorAddons.PatchAll
      ((flatten env st.g_configVec).foldl (ArmorAddons.Prepare getForm) st.g_patchMap)
      st.armorAddons⟩, ?_, rfl, rfl, ?_⟩
    · simp [ArmorAddons.Patch, ArmorAddons.PrepareVec, PrepareStatements_flatten,
        PrepareFlat_total]
    · simp [ArmorAddons.Patch, ArmorAddons.PrepareVec, PrepareStatements, ArmorAddons.PatchAll]

/-- C13, at a concrete input: `Patch()` on the sample Locations state returns a state
with both globals empty, and a second run gives that state again. -/
theorem C13_patch_clears_both_globals_witness :
    ∃ st', Locations.Patch sampleForms sampleEnv Locations.sampleSpread = some st' ∧
      st'.g_configVec = [] ∧ st'.g_patchMap = [] ∧
      Locations.Patch sampleForms sampleEnv st' = some st' := by
  obtain ⟨st', hst⟩ := ((C13_patch_clears_both_globals sampleForms sampleEnv).1 Locations.sampleSpread).1 (by
    simp only [Locations.sampleSpread, flatten, flattenStatement]
    decide)
  exact ⟨st', hst, ((C13_patch_clears_both_globals sampleForms sampleEnv).1 Locations.sampleSpread).2 st' hst⟩

/-! ## Calls of `RemoveKeyword` in the Delete pass (C14) -/

/-- C14, the code at the failing input: on a location that holds the keyword once
and a Delete list that names it twice, the Delete pass of `PatchKeywords` calls
`RemoveKeyword` twice, and the second call is made when the keyword is no longer
a member of the collection. -/
theorem C14_second_RemoveKeyword_on_absent_keyword :
    Locations.deleteCalls [⟨2, FormType.Keyword⟩]
        ⟨false, [], [], [⟨2, FormType.Keyword⟩, ⟨2, FormType.Keyword⟩]⟩
      = [(⟨2, FormType.Keyword⟩, [⟨2, FormType.Keyword⟩]), (⟨2, FormType.Keyword⟩, [])] ∧
    Locations.PatchKeywords [⟨2, FormType.Keyword⟩]
        ⟨false, [], [], [⟨2, FormType.Keyword⟩, ⟨2, FormType.Keyword⟩]⟩ = [] := by
  decide

/-! ## Tokens that are not numerals (C20) -/

/-- C20, the code at the failing input: the token `30abc` is not a numeral, yet
`ParseBipedSlot` returns the value 30 for it, and the statement
`FilterByFormID(Arma).BipedObjectSlots = 30abc;` parses, with bit 0 set. -/
theorem C20_digit_prefix_is_accepted :
    ¬ isNumeral "30abc" ∧
    ArmorAddons.from_chars "30abc" = some 30 ∧
    ArmorAddons.ParseBipedSlot ⟨["30abc", ";"]⟩ = (some 30, ⟨[";"]⟩) ∧
    ArmorAddons.ParseExpressionStatement sampleParseForm
        ⟨["FilterByFormID", "(", "Arma", ")", ".", "BipedObjectSlots", "=", "30abc", ";"]⟩
      = some (some (Statement.expression
          ⟨ArmorAddons.FilterType.kFormID, "Arma", ArmorAddons.ElementType.kBipedObjectSlots,
            some 1⟩), ⟨[]⟩) := by
  refine ⟨?_, by decide, by decide, ?_⟩
  · intro h
    exact absurd (h.2 'a' (by decide)) (by decide)
  · simp [ArmorAddons.ParseExpressionStatement, ArmorAddons.ParseFilter, ArmorAddons.ParseElement,
      ArmorAddons.ParseAssignment, ArmorAddons.ParseSlots, ArmorAddons.slotLoop,
      ArmorAddons.ParseBipedSlot, ArmorAddons.from_chars, sampleParseForm, Reader.GetToken,
      Reader.Peek, Reader.EndOfFile, ArmorAddons.ConfigData.init, ArmorAddons.orSlot,
      ArmorAddons.ULONG_MAX]

/-! ## The quoted FullName token (C16) -/

theorem unquote_quoted (s : String) (hlen : s.data.length + 2 < 2 ^ 64) :
    Armors.unquote (quoted s) = s := by
  have hmod : (s.data.length + 1 + 1 + 2 ^ 64 - 2) % 2 ^ 64 = s.data.length := by
    have e : s.data.length + 1 + 1 + 2 ^ 64 - 2 = s.data.length + 2 ^ 64 := by omega
    rw [e, Nat.add_mod_right]
    exact Nat.mod_eq_of_lt (by omega)
  simp only [Armors.unquote, quoted, List.drop_succ_cons, List.drop_zero, List.length_cons,
    List.length_append, List.length_singleton, List.length_nil, hmod]
  rw [List.take_left]

theorem quoted_head_last (s : String) :
    (quoted s).data.head? = some '"' ∧ (quoted s).data.getLast? = some '"' := by
  constructor
  · simp [quoted]
  · simp only [quoted]
    rw [show ('"' :: (s.data ++ ['"'])) = ('"' :: s.data) ++ ['"'] from rfl,
      List.getLast?_append]
    simp

/-- C16: print/parse inverse for FullName. For every string `s` (of a length that a
`std::string` can have), the token made of a double quote, `s` and a double
quote is accepted by the FullName branch of `ParseAssignment` in Quests and in
Armors, and the stored `AssignValue` is `s`. -/
theorem C16_quoted_FullName_parses_back (s : String) (hlen : s.data.length + 2 < 2 ^ 64)
    (rest : List String) :
    (∀ cfg : Quests.ConfigData,
      Quests.ParseAssignment ⟨"=" :: quoted s :: rest⟩ cfg
        = (true, ⟨rest⟩, { cfg with AssignValue := some s })) ∧
    (∀ (parseBipedSlot : Reader → Option Nat × Reader)
        (parseForm : Reader → Option String × Reader) (cfg : Armors.ConfigData),
      cfg.Element = Armors.ElementType.kFullName →
      Armors.ParseAssignment parseBipedSlot parseForm ⟨"=" :: quoted s :: rest⟩ cfg
        = some (true, ⟨rest⟩, { cfg with AssignValue := some (Armors.AnyValue.string s) })) := by
  obtain ⟨h1, h2⟩ := quoted_head_last s
  have hu := unquote_quoted s hlen
  constructor
  · intro cfg
    simp [Quests.ParseAssignment, Reader.GetToken, h1, h2, hu]
  · intro pbs pf cfg hel
    obtain ⟨flt, ff, el, av⟩ := cfg
    simp only at hel
    subst hel
    simp [Armors.ParseAssignment, Reader.GetToken, h1, h2, hu]

/-- C16, at the concrete string `Iron Helmet`. -/
theorem C16_quoted_FullName_parses_back_witness :
    (∀ cfg : Quests.ConfigData,
      Quests.ParseAssignment ⟨"=" :: quoted "Iron Helmet" :: [";"]⟩ cfg
        = (true, ⟨[";"]⟩, { cfg with AssignValue := some "Iron Helmet" })) ∧
    (∀ (parseBipedSlot : Reader → Option Nat × Reader)
        (parseForm : Reader → Option String × Reader) (cfg : Armors.ConfigData),
      cfg.Element = Armors.ElementType.kFullName →
      Armors.ParseAssignment parseBipedSlot parseForm ⟨"=" :: quoted "Iron Helmet" :: [";"]⟩ cfg
        = some (true, ⟨[";"]⟩,
            { cfg with AssignValue := some (Armors.AnyValue.string "Iron Helmet") })) :=
  C16_quoted_FullName_parses_back "Iron Helmet" (by decide) [";"]

/-! ## The token after a slot value (C17) -/

namespace ArmorAddons

theorem ParseBipedSlot_token (token : String) (rest : List String) :
    ParseBipedSlot ⟨token :: rest⟩ = (slotValue token, ⟨rest⟩) := by
  simp only [slotValue, ParseBipedSlot, Reader.GetToken, List.headD_cons, List.tail_cons]
  split
  · rfl
  · split
    · rfl
    · split <;> rfl

theorem intersperse_cons (t0 : String) (ts : List String) :
    List.intersperse "|" (t0 :: ts) = t0 :: ts.flatMap (fun t => ["|", t]) := by
  induction ts generalizing t0 with
  | nil => simp
  | cons t ts ih =>
    rw [List.intersperse_cons_cons, ih t]
    simp

theorem length_le_flatMap_sep (ts : List String) :
    ts.length ≤ (ts.flatMap (fun t => ["|", t])).length := by
  induction ts with
  | nil => simp
  | cons w ws ih =>
    simp only [List.flatMap_cons, List.length_append, List.length_cons, List.length_nil]
    omega

theorem slotLoop_bad_follow (ts : List String) (hts : ∀ t ∈ ts, slotValue t ≠ none)
    (tail : List String) (hbad : tail.headD "" ≠ "|" ∧ tail.headD "" ≠ ";")
    (acc fuel : Nat) (hfuel : ts.length + 1 ≤ fuel) :
    slotLoop ParseBipedSlot fuel ⟨ts.flatMap (fun t => ["|", t]) ++ tail⟩ acc
      = SlotLoop.failed ⟨tail.tail⟩ := by
  induction ts generalizing acc fuel with
  | nil =>
    cases fuel with
    | zero => omega
    | succ n =>
      simp only [List.flatMap_nil, List.nil_append, slotLoop, Reader.Peek, hbad.2, if_false,
        Reader.GetToken, ne_eq, hbad.1, not_false_eq_true, if_true]
  | cons t ts ih =>
    cases fuel with
    | zero => omega
    | succ n =>
      have hrest : ∀ u ∈ ts, slotValue u ≠ none := fun u hu => hts u (List.mem_cons_of_mem _ hu)
      have hn : ts.length + 1 ≤ n := by
        simp only [List.length_cons] at hfuel
        omega
      have hpeek : ¬ ("|" : String) = ";" := by decide
      obtain ⟨v, hv⟩ := Option.ne_none_iff_exists'.mp (hts t (List.mem_cons_self _ _))
      simp only [List.flatMap_cons, List.cons_append, List.nil_append, slotLoop, Reader.Peek,
        List.headD_cons, hpeek, if_false, Reader.GetToken, List.tail_cons, ne_eq,
        not_true_eq_false, ParseBipedSlot_token, hv]
      exact ih hrest (orSlot acc v) n hn

theorem ParseSlots_bad_follow (t0 : String) (ts : List String)
    (hts : ∀ t ∈ t0 :: ts, slotValue t ≠ none)
    (tail : List String) (hbad : tail.headD "" ≠ "|" ∧ tail.headD "" ≠ ";") :
    ParseSlots ParseBipedSlot ⟨List.intersperse "|" (t0 :: ts) ++ tail⟩
      = SlotLoop.failed ⟨tail.tail⟩ := by
  obtain ⟨v, hv⟩ := Option.ne_none_iff_exists'.mp (hts t0 (List.mem_cons_self _ _))
  have hrest : ∀ u ∈ ts, slotValue u ≠ none := fun u hu => hts u (List.mem_cons_of_mem _ hu)
  simp only [ParseSlots, intersperse_cons, List.cons_append, ParseBipedSlot_token, hv]
  apply slotLoop_bad_follow ts hrest tail hbad
  have := length_le_flatMap_sep ts
  simp only [List.length_append]
  omega

end ArmorAddons

/-- C17: in a BipedObjectSlots assignment, the token after a parsed slot value must
be `|` or `;`. For every token stream in which slot values separated by `|` are
followed by any other token, or by the end of input (where the reader yields the
empty token), `ParseAssignment` returns false, in ArmorAddons and in Armors, and
`ParseExpressionStatement` yields no statement. -/
theorem C17_slot_value_must_be_followed_by_bar_or_semicolon (t0 : String) (ts tail : List String)
    (hslots : ∀ t ∈ t0 :: ts, ArmorAddons.slotValue t ≠ none)
    (hbad : tail.headD "" ≠ "|" ∧ tail.headD "" ≠ ";") :
    (∀ cfg : ArmorAddons.ConfigData,
      ArmorAddons.ParseAssignment ⟨"=" :: (List.intersperse "|" (t0 :: ts) ++ tail)⟩ cfg
        = some (false, ⟨tail.tail⟩, cfg)) ∧
    (∀ (parseForm : Reader → Option String × Reader) (cfg : Armors.ConfigData),
      cfg.Element = Armors.ElementType.kBipedObjectSlots →
      Armors.ParseAssignment ArmorAddons.ParseBipedSlot parseForm
          ⟨"=" :: (List.intersperse "|" (t0 :: ts) ++ tail)⟩ cfg
        = some (false, ⟨tail.tail⟩, cfg)) ∧
    (∀ (parseForm : Reader → Option String × Reader) (ref : List String) (s : String),
      parseForm ⟨ref ++ ")" :: "." :: "BipedObjectSlots" :: "=" ::
          (List.intersperse "|" (t0 :: ts) ++ tail)⟩
        = (some s, ⟨")" :: "." :: "BipedObjectSlots" :: "=" ::
          (List.intersperse "|" (t0 :: ts) ++ tail)⟩) →
      ArmorAddons.ParseExpressionStatement parseForm
          ⟨"FilterByFormID" :: "(" :: (ref ++ ")" :: "." :: "BipedObjectSlots" :: "=" ::
            (List.intersperse "|" (t0 :: ts) ++ tail))⟩
        = some (none, ⟨tail.tail⟩) ∧
      Armors.ParseExpressionStatement ArmorAddons.ParseBipedSlot parseForm
          ⟨"FilterByFormID" :: "(" :: (ref ++ ")" :: "." :: "BipedObjectSlots" :: "=" ::
            (List.intersperse "|" (t0 :: ts) ++ tail))⟩
        = some (none, ⟨tail.tail⟩)) := by
  have hfail := ArmorAddons.ParseSlots_bad_follow t0 ts hslots tail hbad
  have hA : ∀ cfg : ArmorAddons.ConfigData,
      ArmorAddons.ParseAssignment ⟨"=" :: (List.intersperse "|" (t0 :: ts) ++ tail)⟩ cfg
        = some (false, ⟨tail.tail⟩, cfg) := by
    intro cfg
    obtain ⟨flt, ff, el, av⟩ := cfg
    cases el
    simp [ArmorAddons.ParseAssignment, Reader.GetToken, hfail]
  have hB : ∀ (parseForm : Reader → Option String × Reader) (cfg : Armors.ConfigData),
      cfg.Element = Armors.ElementType.kBipedObjectSlots →
      Armors.ParseAssignment ArmorAddons.ParseBipedSlot parseForm
          ⟨"=" :: (List.intersperse "|" (t0 :: ts) ++ tail)⟩ cfg
        = some (false, ⟨tail.tail⟩, cfg) := by
    intro parseForm cfg hel
    obtain ⟨flt, ff, el, av⟩ := cfg
    simp only at hel
    subst hel
    simp [Armors.ParseAssignment, Reader.GetToken, hfail]
  refine ⟨hA, hB, ?_⟩
  intro parseForm ref s hform
  have hne : ¬ ("FilterByFormID" : String) = "" := by decide
  constructor
  · simp [ArmorAddons.ParseExpressionStatement, Reader.EndOfFile, Reader.Peek, hne,
      ArmorAddons.ParseFilter, Reader.GetToken, hform, ArmorAddons.ParseElement, hA]
  · simp [Armors.ParseExpressionStatement, Reader.EndOfFile, Reader.Peek, hne,
      Armors.ParseFilter, Reader.GetToken, hform, Armors.ParseElement, hB]

/-- C17, at concrete inputs: `= 30 | 32 33 ;` (a slot value followed by another slot
value) and `= 30` followed by the end of input. -/
theorem C17_slot_value_must_be_followed_by_bar_or_semicolon_witness :
    ArmorAddons.ParseAssignment ⟨"=" :: (List.intersperse "|" ("30" :: ["32"]) ++ ["33", ";"])⟩
        ArmorAddons.ConfigData.init
      = some (false, ⟨[";"]⟩, ArmorAddons.ConfigData.init) ∧
    ArmorAddons.ParseAssignment ⟨"=" :: (List.intersperse "|" ("30" :: []) ++ [])⟩
        ArmorAddons.ConfigData.init
      = some (false, ⟨[]⟩, ArmorAddons.ConfigData.init) :=
  ⟨(C17_slot_value_must_be_followed_by_bar_or_semicolon "30" ["32"] ["33", ";"]
      (by decide) (by decide)).1 _,
   (C17_slot_value_must_be_followed_by_bar_or_semicolon "30" [] []
      (by decide) (by decide)).1 _⟩

/-! ## Termination of the parser loops (C19) -/

namespace Parsers

theorem GetToken_length (r : Reader) : (r.GetToken).2.tokens.length ≤ r.tokens.length := by
  simp [Reader.GetToken]

theorem GetToken_length_lt (r : Reader) (h : (r.GetToken).1 ≠ "") :
    (r.GetToken).2.tokens.length < r.tokens.length := by
  obtain ⟨toks⟩ := r
  cases toks with
  | nil => simp [Reader.GetToken] at h
  | cons t ts => simp [Reader.GetToken]

end Parsers

namespace ArmorAddons

theorem ParseBipedSlot_length (r : Reader) :
    (ParseBipedSlot r).2.tokens.length ≤ r.tokens.length := by
  have h : (ParseBipedSlot r).2 = (r.GetToken).2 := by
    simp only [ParseBipedSlot]
    split
    · rfl
    · split
      · rfl
      · split <;> rfl
  rw [h]
  exact GetToken_length r

/-- One iteration of the slot loop: it leaves the loop (`break` or `return false`),
or it goes on with strictly fewer tokens. -/
theorem slotLoop_step (parseBipedSlot : Reader → Option Nat × Reader)
    (hSlot : ∀ r, (parseBipedSlot r).2.tokens.length ≤ r.tokens.length)
    (fuel : Nat) (reader : Reader) (acc : Nat) :
    slotLoop parseBipedSlot (fuel + 1) reader acc = SlotLoop.done acc reader ∨
    (∃ r', slotLoop parseBipedSlot (fuel + 1) reader acc = SlotLoop.failed r') ∨
    (∃ v r', r'.tokens.length < reader.tokens.length ∧
      slotLoop parseBipedSlot (fuel + 1) reader acc
        = slotLoop parseBipedSlot fuel r' (orSlot acc v)) := by
  by_cases hpeek : reader.Peek = ";"
  · left
    simp [slotLoop, hpeek]
  · by_cases htok : (reader.GetToken).1 = "|"
    · have hlt : (reader.GetToken).2.tokens.length < reader.tokens.length :=
        GetToken_length_lt reader (by rw [htok]; decide)
      cases hp : parseBipedSlot (reader.GetToken).2 with
      | mk x r' =>
        have hle := hSlot (reader.GetToken).2
        rw [hp] at hle
        cases x with
        | none =>
          right; left
          exact ⟨r', by simp [slotLoop, hpeek, htok, hp]⟩
        | some v =>
          right; right
          exact ⟨v, r', by simp only at hle; omega, by simp [slotLoop, hpeek, htok, hp]⟩
    · right; left
      exact ⟨(reader.GetToken).2, by simp [slotLoop, hpeek, htok]⟩

theorem slotLoop_not_running (parseBipedSlot : Reader → Option Nat × Reader)
    (hSlot : ∀ r, (parseBipedSlot r).2.tokens.length ≤ r.tokens.length)
    (fuel : Nat) (reader : Reader) (acc : Nat) (hfuel : reader.tokens.length + 1 ≤ fuel) :
    slotLoop parseBipedSlot fuel reader acc ≠ SlotLoop.running := by
  induction fuel generalizing reader acc with
  | zero => omega
  | succ n ih =>
    rcases slotLoop_step parseBipedSlot hSlot n reader acc with h | ⟨r', h⟩ | ⟨v, r', hlt, h⟩
    · rw [h]
      exact fun e => SlotLoop.noConfusion e
    · rw [h]
      exact fun e => SlotLoop.noConfusion e
    · rw [h]
      exact ih r' _ (by omega)

theorem ParseSlots_not_running (parseBipedSlot : Reader → Option Nat × Reader)
    (hSlot : ∀ r, (parseBipedSlot r).2.tokens.length ≤ r.tokens.length) (reader : Reader) :
    ParseSlots parseBipedSlot reader ≠ SlotLoop.running := by
  unfold ParseSlots
  cases hp : parseBipedSlot reader with
  | mk x r' =>
    cases x with
    | none => exact fun e => SlotLoop.noConfusion e
    | some v => exact slotLoop_not_running parseBipedSlot hSlot _ r' _ (Nat.le_refl _)

end ArmorAddons

namespace Locations

theorem closeOperation_length (reader : Reader) (cfg : ConfigData) (opType : OperationType)
    (opData : Option String) :
    (closeOperation reader cfg opType opData).2.1.tokens.length ≤ reader.tokens.length := by
  simp only [closeOperation]
  split <;> exact GetToken_length reader

theorem ParseOperation_length (parseForm : Reader → Option String × Reader)
    (hForm : ∀ r, (parseForm r).2.tokens.length ≤ r.tokens.length)
    (reader : Reader) (cfg : ConfigData) :
    (ParseOperation parseForm reader cfg).2.1.tokens.length ≤ reader.tokens.length := by
  have h1 := GetToken_length reader
  have h2 := GetToken_length (reader.GetToken).2
  simp only [ParseOperation]
  cases operationOfToken (reader.GetToken).1 with
  | none => exact h1
  | some opType =>
    simp only
    split
    · exact Nat.le_trans h2 h1
    · split
      · have h3 := hForm ((reader.GetToken).2.GetToken).2
        cases hp : parseForm ((reader.GetToken).2.GetToken).2 with
        | mk x r' =>
          rw [hp] at h3
          simp only at h3
          cases x with
          | none =>
            simp only
            omega
          | some opData =>
            simp only
            have h4 := closeOperation_length r' cfg opType (some opData)
            omega
      · have h4 := closeOperation_length ((reader.GetToken).2.GetToken).2 cfg opType none
        omega

/-- One iteration of the operation loop: it leaves the loop (`break` or
`return std::nullopt`), or it goes on with strictly fewer tokens. -/
theorem operationLoop_step (parseForm : Reader → Option String × Reader)
    (hForm : ∀ r, (parseForm r).2.tokens.length ≤ r.tokens.length)
    (fuel : Nat) (reader : Reader) (cfg : ConfigData) :
    operationLoop parseForm (fuel + 1) reader cfg
        = OperationLoop.done (reader.GetToken).2 cfg ∨
    (∃ r', operationLoop parseForm (fuel + 1) reader cfg = OperationLoop.failed r') ∨
    (∃ r' cfg', r'.tokens.length < reader.tokens.length ∧
      operationLoop parseForm (fuel + 1) reader cfg = operationLoop parseForm fuel r' cfg') := by
  by_cases hpeek : reader.Peek = ";"
  · left
    simp [operationLoop, hpeek]
  · by_cases htok : (reader.GetToken).1 = "."
    · have hlt : (reader.GetToken).2.tokens.length < reader.tokens.length :=
        GetToken_length_lt reader (by rw [htok]; decide)
      have hle := ParseOperation_length parseForm hForm (reader.GetToken).2 cfg
      cases hp : ParseOperation parseForm (reader.GetToken).2 cfg with
      | mk ok rc =>
        obtain ⟨r', cfg'⟩ := rc
        rw [hp] at hle
        simp only at hle
        cases ok with
        | false =>
          right; left
          exact ⟨r', by simp [operationLoop, hpeek, htok, hp]⟩
        | true =>
          right; right
          exact ⟨r', cfg', by omega, by simp [operationLoop, hpeek, htok, hp]⟩
    · right; left
      exact ⟨(reader.GetToken).2, by simp [operationLoop, hpeek, htok]⟩

theorem operationLoop_not_running (parseForm : Reader → Option String × Reader)
    (hForm : ∀ r, (parseForm r).2.tokens.length ≤ r.tokens.length)
    (fuel : Nat) (reader : Reader) (cfg : ConfigData) (hfuel : reader.tokens.length + 1 ≤ fuel) :
    operationLoop parseForm fuel reader cfg ≠ OperationLoop.running := by
  induction fuel generalizing reader cfg with
  | zero => omega
  | succ n ih =>
    rcases operationLoop_step parseForm hForm n reader cfg with h | ⟨r', h⟩ | ⟨r', cfg', hlt, h⟩
    · rw [h]
      exact fun e => OperationLoop.noConfusion e
    · rw [h]
      exact fun e => OperationLoop.noConfusion e
    · rw [h]
      exact ih r' cfg' (by omega)

theorem ParseExpressionStatement_ne_none (parseForm : Reader → Option String × Reader)
    (hForm : ∀ r, (parseForm r).2.tokens.length ≤ r.tokens.length) (reader : Reader) :
    ParseExpressionStatement parseForm reader ≠ none := by
  unfold ParseExpressionStatement
  repeat' split
  all_goals
    first
    | (exfalso
       exact operationLoop_not_running parseForm hForm _ _ _ (Nat.le_refl _) (by assumption))
    | simp

end Locations

/-- C19: the slot-list loop of `ParseAssignment` and the operation-chain loop of
`LocationParser::ParseExpressionStatement` terminate on every finite token
stream, for a reader that yields the empty token once exhausted and for
`ParseBipedSlot` / `ParseForm` that only consume tokens. Each iteration leaves
the loop or goes on with strictly fewer tokens; an iteration on an exhausted
input returns failure; a loop given one iteration more than there are tokens
never uses them up, so `ParseAssignment` (ArmorAddons and Armors) and
`LocationParser::ParseExpressionStatement` always return. -/
theorem C19_parser_loops_terminate (parseBipedSlot : Reader → Option Nat × Reader)
    (parseForm : Reader → Option String × Reader)
    (hSlot : ∀ r, (parseBipedSlot r).2.tokens.length ≤ r.tokens.length)
    (hForm : ∀ r, (parseForm r).2.tokens.length ≤ r.tokens.length) :
    (∀ (fuel : Nat) (reader : Reader) (acc : Nat),
      ArmorAddons.slotLoop parseBipedSlot (fuel + 1) reader acc
          = ArmorAddons.SlotLoop.done acc reader ∨
      (∃ r', ArmorAddons.slotLoop parseBipedSlot (fuel + 1) reader acc
          = ArmorAddons.SlotLoop.failed r') ∨
      (∃ v r', r'.tokens.length < reader.tokens.length ∧
        ArmorAddons.slotLoop parseBipedSlot (fuel + 1) reader acc
          = ArmorAddons.slotLoop parseBipedSlot fuel r' (ArmorAddons.orSlot acc v))) ∧
    (∀ (fuel acc : Nat),
      ArmorAddons.slotLoop parseBipedSlot (fuel + 1) ⟨[]⟩ acc
        = ArmorAddons.SlotLoop.failed ⟨[]⟩) ∧
    (∀ (fuel : Nat) (reader : Reader) (acc : Nat), reader.tokens.length + 1 ≤ fuel →
      ArmorAddons.slotLoop parseBipedSlot fuel reader acc ≠ ArmorAddons.SlotLoop.running) ∧
    (∀ (reader : Reader) (cfg : ArmorAddons.ConfigData),
      ArmorAddons.ParseAssignment reader cfg ≠ none) ∧
    (∀ (reader : Reader) (cfg : Armors.ConfigData),
      Armors.ParseAssignment parseBipedSlot parseForm reader cfg ≠ none) ∧
    (∀ (fuel : Nat) (reader : Reader) (cfg : Locations.ConfigData),
      Locations.operationLoop parseForm (fuel + 1) reader cfg
          = Locations.OperationLoop.done (reader.GetToken).2 cfg ∨
      (∃ r', Locations.operationLoop parseForm (fuel + 1) reader cfg
          = Locations.OperationLoop.failed r') ∨
      (∃ r' cfg', r'.tokens.length < reader.tokens.length ∧
        Locations.operationLoop parseForm (fuel + 1) reader cfg
          = Locations.operationLoop parseForm fuel r' cfg')) ∧
    (∀ (fuel : Nat) (cfg : Locations.ConfigData),
      Locations.operationLoop parseForm (fuel + 1) ⟨[]⟩ cfg
        = Locations.OperationLoop.failed ⟨[]⟩) ∧
    (∀ (fuel : Nat) (reader : Reader) (cfg : Locations.ConfigData),
      reader.tokens.length + 1 ≤ fuel →
      Locations.operationLoop parseForm fuel reader cfg ≠ Locations.OperationLoop.running) ∧
    (∀ reader : Reader, Locations.ParseExpressionStatement parseForm reader ≠ none) := by
  refine ⟨ArmorAddons.slotLoop_step parseBipedSlot hSlot, ?_,
    ArmorAddons.slotLoop_not_running parseBipedSlot hSlot, ?_, ?_,
    Locations.operationLoop_step parseForm hForm, ?_,
    Locations.operationLoop_not_running parseForm hForm,
    Locations.ParseExpressionStatement_ne_none parseForm hForm⟩
  · intro fuel acc
    simp [ArmorAddons.slotLoop, Reader.Peek, Reader.GetToken]
  · intro reader cfg
    have hnr := ArmorAddons.ParseSlots_not_running ArmorAddons.ParseBipedSlot
      ArmorAddons.ParseBipedSlot_length (reader.GetToken).2
    obtain ⟨flt, ff, el, av⟩ := cfg
    cases el
    simp only [ArmorAddons.ParseAssignment]
    split
    · simp
    · cases hs : ArmorAddons.ParseSlots ArmorAddons.ParseBipedSlot (reader.GetToken).2 with
      | done v r => simp
      | failed r => simp
      | running => exact absurd hs hnr
  · intro reader cfg
    have hnr := ArmorAddons.ParseSlots_not_running parseBipedSlot hSlot (reader.GetToken).2
    obtain ⟨flt, ff, el, av⟩ := cfg
    simp only [Armors.ParseAssignment]
    split
    · simp
    · cases el with
      | kBipedObjectSlots =>
        cases hs : ArmorAddons.ParseSlots parseBipedSlot (reader.GetToken).2 with
        | done v r => simp
        | failed r => simp
        | running => exact absurd hs hnr
      | kFullName =>
        simp only
        repeat' split
        all_goals simp
      | kObjectEffect =>
        simp only
        repeat' split
        all_goals simp
  · intro fuel cfg
    simp [Locations.operationLoop, Reader.Peek, Reader.GetToken]

/-- C19, at concrete inputs: with the `ParseBipedSlot` of ArmorAddons and a
`ParseForm` that reads one token, `ParseAssignment` returns on the stream
`= 30 |` and `ParseExpressionStatement` returns on a Keywords statement that
lacks its `;`. -/
theorem C19_parser_loops_terminate_witness :
    Armors.ParseAssignment ArmorAddons.ParseBipedSlot sampleParseForm ⟨["=", "30", "|"]⟩
        Armors.ConfigData.init ≠ none ∧
    Locations.ParseExpressionStatement sampleParseForm
        ⟨["FilterByFormID", "(", "Loc", ")", ".", "Keywords", ".", "Clear", "(", ")"]⟩ ≠ none :=
  have hForm : ∀ r : Reader, (sampleParseForm r).2.tokens.length ≤ r.tokens.length := by
    intro r
    simp only [sampleParseForm]
    split <;> exact GetToken_length r
  ⟨(C19_parser_loops_terminate ArmorAddons.ParseBipedSlot sampleParseForm
      ArmorAddons.ParseBipedSlot_length hForm).2.2.2.2.1 _ _,
   (C19_parser_loops_terminate ArmorAddons.ParseBipedSlot sampleParseForm
      ArmorAddons.ParseBipedSlot_length hForm).2.2.2.2.2.2.2.2 _⟩

/-! ## Parsing a Keywords statement (C18) -/

namespace Locations

theorem operationOfToken_toString (t : OperationType) :
    operationOfToken (OperationTypeToString t) = some t := by
  cases t <;> decide

theorem ParseOperation_wellFormed (parseForm : Reader → Option String × Reader)
    (p : Operation × List String) (hp : wellFormedOperation parseForm p)
    (more : List String) (cfg : ConfigData) :
    ParseOperation parseForm
        ⟨OperationTypeToString p.1.OpType :: "(" :: (p.2 ++ ")" :: more)⟩ cfg
      = (true, ⟨more⟩, { cfg with Operations := cfg.Operations ++ [p.1] }) := by
  obtain ⟨⟨t, form⟩, toks⟩ := p
  rcases hp with ⟨h1, h2, h3⟩ | ⟨h1, s, h2, h3⟩
  · simp only at h1 h2 h3
    subst h1 h2 h3
    simp [ParseOperation, Reader.GetToken, operationOfToken_toString, closeOperation]
  · simp only at h1 h2 h3
    subst h2
    simp [ParseOperation, Reader.GetToken, operationOfToken_toString, h1, h3 (")" :: more),
      closeOperation]

theorem operationLoop_wellFormed (parseForm : Reader → Option String × Reader)
    (ops : List (Operation × List String)) (hops : ∀ p ∈ ops, wellFormedOperation parseForm p)
    (rest : List String) (cfg : ConfigData) (fuel : Nat) (hfuel : ops.length + 1 ≤ fuel) :
    operationLoop parseForm fuel
        ⟨ops.flatMap (fun p => operationTokens p.1.OpType p.2) ++ ";" :: rest⟩ cfg
      = OperationLoop.done ⟨rest⟩
          { cfg with Operations := cfg.Operations ++ ops.map Prod.fst } := by
  induction ops generalizing cfg fuel with
  | nil =>
    cases fuel with
    | zero => omega
    | succ n => simp [operationLoop, Reader.Peek, Reader.GetToken]
  | cons p ops ih =>
    cases fuel with
    | zero => omega
    | succ n =>
      have hp := hops p (List.mem_cons_self _ _)
      have hrest : ∀ q ∈ ops, wellFormedOperation parseForm q :=
        fun q hq => hops q (List.mem_cons_of_mem _ hq)
      have hn : ops.length + 1 ≤ n := by
        simp only [List.length_cons] at hfuel
        omega
      have hpeek : ¬ ("." : String) = ";" := by decide
      have hstep := ParseOperation_wellFormed parseForm p hp
        (ops.flatMap (fun p => operationTokens p.1.OpType p.2) ++ ";" :: rest) cfg
      have htok : operationTokens p.1.OpType p.2
          = "." :: OperationTypeToString p.1.OpType :: "(" :: (p.2 ++ [")"]) := rfl
      simp only [List.flatMap_cons, htok, List.cons_append, List.append_assoc,
        List.nil_append, operationLoop, Reader.Peek, List.headD_cons, hpeek, if_false,
        Reader.GetToken, List.tail_cons, ne_eq, not_true_eq_false, hstep]
      rw [ih hrest _ n hn]
      simp

theorem length_le_flatMap_operationTokens (ops : List (Operation × List String)) :
    ops.length ≤ (ops.flatMap (fun p => operationTokens p.1.OpType p.2)).length := by
  induction ops with
  | nil => simp
  | cons p ps ih =>
    have htok : (operationTokens p.1.OpType p.2).length = p.2.length + 4 := by
      simp [operationTokens]
    simp only [List.flatMap_cons, List.length_append, List.length_cons, htok]
    omega

end Locations

/-- C18: for every `k ≥ 1` and every token stream `FilterByFormID(ref) . Keywords`
followed by `k` suffixes `. Op(arg)` and a `;`, where each `Op` is `Clear` with
no argument or `Add` / `AddIfNotExists` / `Delete` with a well-formed reference,
`LocationParser::ParseExpressionStatement` succeeds, reads the stream up to and
including the `;`, and the statement's `Operations` list has length `k` and
holds the kinds and arguments of the operations in their textual order. -/
theorem C18_keywords_statement_parses (parseForm : Reader → Option String × Reader)
    (ref : List String) (filterForm : String) (ops : List (Locations.Operation × List String))
    (rest : List String)
    (href : acceptsReference parseForm ref filterForm)
    (hk : 1 ≤ ops.length)
    (hops : ∀ p ∈ ops, Locations.wellFormedOperation parseForm p) :
    Locations.ParseExpressionStatement parseForm
        ⟨"FilterByFormID" :: "(" :: (ref ++ ")" :: "." :: "Keywords" ::
          (ops.flatMap (fun p => Locations.operationTokens p.1.OpType p.2) ++ ";" :: rest))⟩
      = some (some (Statement.expression
          ⟨Locations.FilterType.kFormID, filterForm, Locations.ElementType.kKeywords,
            ops.map Prod.fst⟩), ⟨rest⟩) ∧
    (ops.map Prod.fst).length = ops.length := by
  refine ⟨?_, by simp⟩
  cases ops with
  | nil => simp at hk
  | cons p ops =>
    have hp := hops p (List.mem_cons_self _ _)
    have hrest : ∀ q ∈ ops, Locations.wellFormedOperation parseForm q :=
      fun q hq => hops q (List.mem_cons_of_mem _ hq)
    have hne : ¬ ("FilterByFormID" : String) = "" := by decide
    have hfirst := Locations.ParseOperation_wellFormed parseForm p hp
      (ops.flatMap (fun p => Locations.operationTokens p.1.OpType p.2) ++ ";" :: rest)
      ⟨Locations.FilterType.kFormID, filterForm, Locations.ElementType.kKeywords, []⟩
    have hloop := Locations.operationLoop_wellFormed parseForm ops hrest rest
      ⟨Locations.FilterType.kFormID, filterForm, Locations.ElementType.kKeywords, [p.1]⟩
      ((ops.flatMap (fun p => Locations.operationTokens p.1.OpType p.2) ++ ";" :: rest).length + 1)
      (by
        have := Locations.length_le_flatMap_operationTokens ops
        simp only [List.length_append]
        omega)
    have htok : Locations.operationTokens p.1.OpType p.2
        = "." :: Locations.OperationTypeToString p.1.OpType :: "(" :: (p.2 ++ [")"]) := rfl
    simp only [List.nil_append] at hfirst
    simp only [Locations.ParseExpressionStatement, Reader.EndOfFile, Reader.Peek,
      List.isEmpty_cons, Bool.false_eq_true, List.headD_cons, hne, or_self, if_false,
      Locations.ParseFilter, Reader.GetToken, List.tail_cons, if_true, ne_eq, not_true_eq_false,
      href _, Locations.ConfigData.init, Locations.ParseElement, List.flatMap_cons,
      htok, List.cons_append, List.append_assoc, List.nil_append, hfirst, hloop]
    simp

/-- C18, at a concrete input: `FilterByFormID(Loc).Keywords.Clear().Add(Kw);` with a
`ParseForm` that reads one token. -/
theorem C18_keywords_statement_parses_witness :
    Locations.ParseExpressionStatement sampleParseForm
        ⟨["FilterByFormID", "(", "Loc", ")", ".", "Keywords", ".", "Clear", "(", ")",
          ".", "Add", "(", "Kw", ")", ";"]⟩
      = some (some (Statement.expression
          ⟨Locations.FilterType.kFormID, "Loc", Locations.ElementType.kKeywords,
            [⟨Locations.OperationType.kClear, none⟩,
              ⟨Locations.OperationType.kAdd, some "Kw"⟩]⟩), ⟨[]⟩) :=
  (C18_keywords_statement_parses sampleParseForm ["Loc"] "Loc"
    [(⟨Locations.OperationType.kClear, none⟩, []),
      (⟨Locations.OperationType.kAdd, some "Kw"⟩, ["Kw"])] []
    (by
      intro more
      simp [sampleParseForm, Reader.GetToken])
    (by decide)
    (by
      intro p hp
      simp only [List.mem_cons, List.mem_singleton, List.not_mem_nil, or_false] at hp
      rcases hp with rfl | rfl
      · exact Or.inl ⟨rfl, rfl, rfl⟩
      · refine Or.inr ⟨by decide, "Kw", rfl, ?_⟩
        intro more
        simp [sampleParseForm, Reader.GetToken])).1

/-! ## The one-character quote token (C21) -/

theorem quote_token_cases (token : String) :
    (token.data.head? = some '"' ∧ token.data.getLast? = some '"') ↔
      ((2 ≤ token.data.length ∧ token.data.head? = some '"' ∧ token.data.getLast? = some '"') ∨
        token = "\"") := by
  obtain ⟨l⟩ := token
  cases l with
  | nil => simp
  | cons c l =>
    cases l with
    | nil =>
      simp only [List.head?_cons, Option.some.injEq, List.getLast?_singleton, and_self,
        List.length_singleton, Nat.not_ofNat_le_one, false_and, false_or]
      constructor
      · intro h
        subst h
        rfl
      · intro h
        have := congrArg String.data h
        simpa using this
    | cons d l =>
      simp only [List.length_cons]
      constructor
      · intro h
        exact Or.inl ⟨by omega, h⟩
      · rintro (h | h)
        · exact h.2
        · have := congrArg (fun s => s.data.length) h
          simp at this

/-- C21, the code at the failing input: the one-character token that is a single
double quote passes both `starts_with` and `ends_with`;
`substr(1, token.length() - 2)` is then taken with the count wrapped around in
`std::size_t`, and the FullName branch of `ParseAssignment` accepts the token
with the empty string as value, in Quests and in Armors, so that the statement
`FilterByFormID(Qst).FullName = " ;` parses. That token is the only one on which
the code and the claim differ: a token is accepted exactly when it has length
at least 2 and begins and ends with a double quote, or is that token. -/
theorem C21_single_quote_token_is_accepted :
    ("\"" : String).length = 1 ∧
    (∀ cfg : Quests.ConfigData,
      Quests.ParseAssignment ⟨["=", "\"", ";"]⟩ cfg
        = (true, ⟨[";"]⟩, { cfg with AssignValue := some "" })) ∧
    (∀ (parseBipedSlot : Reader → Option Nat × Reader)
        (parseForm : Reader → Option String × Reader) (flt : Armors.FilterType) (ff : String)
        (av : Option Armors.AnyValue),
      Armors.ParseAssignment parseBipedSlot parseForm ⟨["=", "\"", ";"]⟩
          ⟨flt, ff, Armors.ElementType.kFullName, av⟩
        = some (true, ⟨[";"]⟩,
            ⟨flt, ff, Armors.ElementType.kFullName, some (Armors.AnyValue.string "")⟩)) ∧
    Quests.ParseExpressionStatement sampleParseForm
        ⟨["FilterByFormID", "(", "Qst", ")", ".", "FullName", "=", "\"", ";"]⟩
      = (some (Statement.expression
          ⟨Quests.FilterType.kFormID, "Qst", Quests.ElementType.kFullName, some ""⟩), ⟨[]⟩) ∧
    (∀ (token : String) (rest : List String) (cfg : Quests.ConfigData),
      (Quests.ParseAssignment ⟨"=" :: token :: rest⟩ cfg).1 = true ↔
        ((2 ≤ token.data.length ∧ token.data.head? = some '"' ∧
            token.data.getLast? = some '"') ∨ token = "\"")) ∧
    (∀ (parseBipedSlot : Reader → Option Nat × Reader)
        (parseForm : Reader → Option String × Reader) (token : String) (rest : List String)
        (flt : Armors.FilterType) (ff : String) (av : Option Armors.AnyValue),
      (Armors.ParseAssignment parseBipedSlot parseForm ⟨"=" :: token :: rest⟩
          ⟨flt, ff, Armors.ElementType.kFullName, av⟩).map (fun r => r.1) = some true ↔
        ((2 ≤ token.data.length ∧ token.data.head? = some '"' ∧
            token.data.getLast? = some '"') ∨ token = "\"")) := by
  refine ⟨rfl, fun _ => rfl, fun _ _ _ _ _ => rfl, rfl, ?_, ?_⟩
  · intro token rest cfg
    rw [← quote_token_cases]
    simp only [Quests.ParseAssignment, Reader.GetToken, List.headD_cons, List.tail_cons, ne_eq,
      not_true_eq_false, if_false]
    by_cases h1 : token.data.head? = some '"' <;>
      by_cases h2 : token.data.getLast? = some '"' <;> simp [h1, h2]
  · intro pbs pf token rest flt ff av
    rw [← quote_token_cases]
    simp only [Armors.ParseAssignment, Reader.GetToken, List.headD_cons, List.tail_cons, ne_eq,
      not_true_eq_false, if_false]
    by_cases h1 : token.data.head? = some '"' <;>
      by_cases h2 : token.data.getLast? = some '"' <;> simp [h1, h2]

/-! ## Operations whose argument does not resolve (C22) -/

namespace Locations

theorem PrepareOperation_unresolved (getForm : String → Option TESForm) (kd : KeywordsData)
    (op : Operation) (s : String) (hkind : op.OpType ≠ OperationType.kClear)
    (harg : op.OpForm = some s)
    (hunres : (getForm s).bind (fun f => f.As FormType.Keyword) = none) :
    PrepareOperation getForm kd op = some kd := by
  obtain ⟨t, form⟩ := op
  simp only at hkind harg
  subst harg
  cases hg : getForm s with
  | none => cases t <;> simp [PrepareOperation, hg] at hkind ⊢
  | some f =>
    simp only [hg, Option.some_bind] at hunres
    cases t <;> simp [PrepareOperation, hg, hunres] at hkind ⊢

theorem PrepareOperations_unresolved (getForm : String → Option TESForm) (kd : KeywordsData)
    (pre post : List Operation) (op : Operation) (s : String)
    (hkind : op.OpType ≠ OperationType.kClear) (harg : op.OpForm = some s)
    (hunres : (getForm s).bind (fun f => f.As FormType.Keyword) = none) :
    PrepareOperations getForm kd (pre ++ op :: post)
      = PrepareOperations getForm kd (pre ++ post) := by
  rw [PrepareOperations_append, PrepareOperations_append]
  cases PrepareOperations getForm kd pre with
  | none => rfl
  | some kd1 =>
    simp only [Option.some_bind, PrepareOperations,
      PrepareOperation_unresolved getForm kd1 op s hkind harg hunres]

end Locations

/-- C22: in Locations `Prepare`, an `Add`, `AddIfNotExists` or `Delete` whose
argument does not resolve to a keyword is skipped and nothing else: for every
statement and every such operation in it, the operation loop, and `Prepare` of
the statement on any patch map, give the same result as for the statement
without that operation, whatever stands before or after it. `Prepare` returns
whenever the other operations that are not `Clear` carry an argument. -/
theorem C22_unresolved_argument_skips_only_its_operation (getForm : String → Option TESForm)
    (m : List (TESForm × Locations.PatchData)) (flt : Locations.FilterType) (ff : String)
    (el : Locations.ElementType) (pre post : List Locations.Operation)
    (op : Locations.Operation) (s : String)
    (hkind : op.OpType ≠ Locations.OperationType.kClear) (harg : op.OpForm = some s)
    (hunres : (getForm s).bind (fun f => f.As FormType.Keyword) = none) :
    (∀ kd, Locations.PrepareOperations getForm kd (pre ++ op :: post)
      = Locations.PrepareOperations getForm kd (pre ++ post)) ∧
    Locations.Prepare getForm m ⟨flt, ff, el, pre ++ op :: post⟩
      = Locations.Prepare getForm m ⟨flt, ff, el, pre ++ post⟩ ∧
    ((∀ o ∈ pre ++ post, o.OpType ≠ Locations.OperationType.kClear → o.OpForm ≠ none) →
      ∃ m', Locations.Prepare getForm m ⟨flt, ff, el, pre ++ op :: post⟩ = some m') := by
  have hops := fun kd =>
    Locations.PrepareOperations_unresolved getForm kd pre post op s hkind harg hunres
  have hprep : Locations.Prepare getForm m ⟨flt, ff, el, pre ++ op :: post⟩
      = Locations.Prepare getForm m ⟨flt, ff, el, pre ++ post⟩ := by
    simp only [Locations.Prepare, hops]
  refine ⟨hops, hprep, ?_⟩
  intro hwf
  rw [hprep]
  obtain ⟨m', hm'⟩ := Locations.PrepareFlat_isSome_location getForm
    [⟨flt, ff, el, pre ++ post⟩] m (by
      intro c hc
      simp only [List.mem_singleton] at hc
      subst hc
      exact hwf)
  refine ⟨m', ?_⟩
  simp only [PrepareFlat] at hm'
  cases hp : Locations.Prepare getForm m ⟨flt, ff, el, pre ++ post⟩ with
  | none => simp [hp] at hm'
  | some m1 =>
    simp only [hp, Option.some.injEq] at hm'
    rw [hm']

/-- C22, at a concrete input: on the sample location, `Add(Kw)`, `Add(Missing)`,
`Delete(Kw)` is prepared like `Add(Kw)`, `Delete(Kw)`. -/
theorem C22_unresolved_argument_skips_only_its_operation_witness :
    Locations.Prepare sampleForms []
        ⟨Locations.FilterType.kFormID, "Loc", Locations.ElementType.kKeywords,
          [⟨Locations.OperationType.kAdd, some "Kw"⟩] ++
            ⟨Locations.OperationType.kAdd, some "Missing"⟩ ::
              [⟨Locations.OperationType.kDelete, some "Kw"⟩]⟩
      = Locations.Prepare sampleForms []
        ⟨Locations.FilterType.kFormID, "Loc", Locations.ElementType.kKeywords,
          [⟨Locations.OperationType.kAdd, some "Kw"⟩] ++
            [⟨Locations.OperationType.kDelete, some "Kw"⟩]⟩ ∧
    Locations.Prepare sampleForms []
        ⟨Locations.FilterType.kFormID, "Loc", Locations.ElementType.kKeywords,
          [⟨Locations.OperationType.kAdd, some "Kw"⟩] ++
            [⟨Locations.OperationType.kDelete, some "Kw"⟩]⟩
      = some [(⟨1, FormType.Location⟩,
          ⟨some ⟨false, [⟨2, FormType.Keyword⟩], [], [⟨2, FormType.Keyword⟩]⟩⟩)] :=
  ⟨(C22_unresolved_argument_skips_only_its_operation sampleForms []
      Locations.FilterType.kFormID "Loc" Locations.ElementType.kKeywords
      [⟨Locations.OperationType.kAdd, some "Kw"⟩] [⟨Locations.OperationType.kDelete, some "Kw"⟩]
      ⟨Locations.OperationType.kAdd, some "Missing"⟩ "Missing" (by decide) rfl
      (by decide)).2.1, by decide⟩

/-! ## Arguments of parsed operations (C24) -/

namespace Locations

theorem ParseFilter_Operations (parseForm : Reader → Option String × Reader) (reader : Reader)
    (cfg : ConfigData) : (ParseFilter parseForm reader cfg).2.2.Operations = cfg.Operations := by
  unfold ParseFilter
  simp only
  repeat' split
  all_goals rfl

theorem ParseElement_Operations (reader : Reader) (cfg : ConfigData) :
    (ParseElement reader cfg).2.2.Operations = cfg.Operations := by
  unfold ParseElement
  simp only
  split <;> rfl

theorem argumentIffNotClear_append (ops : List Operation) (op : Operation)
    (h : argumentIffNotClear ops)
    (hop : op.OpForm = none ↔ op.OpType = OperationType.kClear) :
    argumentIffNotClear (ops ++ [op]) := by
  intro o ho
  simp only [List.mem_append, List.mem_singleton] at ho
  rcases ho with ho | ho
  · exact h o ho
  · exact ho ▸ hop

theorem closeOperation_inv (reader reader' : Reader) (cfg cfg' : ConfigData)
    (opType : OperationType) (opData : Option String)
    (hop : opData = none ↔ opType = OperationType.kClear)
    (h : closeOperation reader cfg opType opData = (true, reader', cfg'))
    (hinv : argumentIffNotClear cfg.Operations) : argumentIffNotClear cfg'.Operations := by
  unfold closeOperation at h
  simp only at h
  split at h
  · simp at h
  · simp only [Prod.mk.injEq, true_and] at h
    rw [← h.2]
    exact argumentIffNotClear_append _ _ hinv hop

theorem ParseOperation_inv (parseForm : Reader → Option String × Reader)
    (reader reader' : Reader) (cfg cfg' : ConfigData)
    (h : ParseOperation parseForm reader cfg = (true, reader', cfg'))
    (hinv : argumentIffNotClear cfg.Operations) : argumentIffNotClear cfg'.Operations := by
  unfold ParseOperation at h
  simp only at h
  split at h
  · simp at h
  · rename_i opType _
    split at h
    · simp at h
    · split at h
      · rename_i hne
        split at h
        · simp at h
        · rename_i opData r2 _
          exact closeOperation_inv _ _ _ _ opType (some opData) (by simpa using hne) h hinv
      · rename_i hcl
        have hcl' : opType = OperationType.kClear := by simpa using hcl
        exact closeOperation_inv _ _ _ _ opType none (by simp [hcl']) h hinv

theorem operationLoop_inv (parseForm : Reader → Option String × Reader) (fuel : Nat)
    (reader reader' : Reader) (cfg cfg' : ConfigData)
    (h : operationLoop parseForm fuel reader cfg = OperationLoop.done reader' cfg')
    (hinv : argumentIffNotClear cfg.Operations) : argumentIffNotClear cfg'.Operations := by
  induction fuel generalizing reader cfg with
  | zero => simp [operationLoop] at h
  | succ n ih =>
    unfold operationLoop at h
    simp only at h
    split at h
    · simp only [OperationLoop.done.injEq] at h
      exact h.2 ▸ hinv
    · split at h
      · simp at h
      · split at h
        · simp at h
        · rename_i r2 cfg2 hpo
          exact ih _ _ h (ParseOperation_inv parseForm _ _ _ _ hpo hinv)

theorem ParseExpressionStatement_inv (parseForm : Reader → Option String × Reader)
    (reader reader' : Reader) (stmt : Statement ConfigData)
    (h : ParseExpressionStatement parseForm reader = some (some stmt, reader')) :
    ∃ c, stmt = Statement.expression c ∧ argumentIffNotClear c.Operations := by
  unfold ParseExpressionStatement at h
  simp only at h
  split at h
  · simp at h
  · split at h
    · simp at h
    · rename_i r1 cfg1 hf
      split at h
      · simp at h
      · split at h
        · simp at h
        · rename_i r2 cfg2 he
          split at h
          · simp at h
          · split at h
            · simp at h
            · rename_i r3 cfg3 hpo
              split at h
              · rename_i r4 cfg4 hloop
                simp only [Option.some.injEq, Prod.mk.injEq] at h
                refine ⟨cfg4, h.1.symm, ?_⟩
                have h1 : cfg1.Operations = [] := by
                  have := ParseFilter_Operations parseForm reader ConfigData.init
                  rw [hf] at this
                  exact this
                have h2 : cfg2.Operations = [] := by
                  have := ParseElement_Operations (r1.GetToken).2 cfg1
                  rw [he] at this
                  exact this.trans h1
                have h3 := ParseOperation_inv parseForm _ _ _ _ hpo (by
                  rw [h2]
                  intro o ho
                  simp at ho)
                exact operationLoop_inv parseForm _ _ _ _ _ hloop h3
              · simp at h
              · simp at h

end Locations

/-- C24: every operation of a statement produced by
`LocationParser::ParseExpressionStatement` has an argument exactly when its kind
is not `Clear`. Therefore `Prepare` of such a statement returns on every patch
map (`op.OpForm.value()` is never taken on an empty optional), and so does
`Prepare` of every statement list whose expression statements, inside
conditionals included, are produced by the parser. -/
theorem C24_parsed_operations_carry_their_argument
    (parseForm : Reader → Option String × Reader) :
    (∀ (reader reader' : Reader) (stmt : Statement Locations.ConfigData),
      Locations.ParseExpressionStatement parseForm reader = some (some stmt, reader') →
      ∃ c, stmt = Statement.expression c ∧ Locations.argumentIffNotClear c.Operations ∧
        ∀ (getForm : String → Option TESForm) (m : List (TESForm × Locations.PatchData)),
          ∃ m', Locations.Prepare getForm m c = some m') ∧
    (∀ (getForm : String → Option TESForm) (env : Condition → Bool)
        (m : List (TESForm × Locations.PatchData)) (stmts : List (Statement Locations.ConfigData)),
      (∀ c ∈ flatten env stmts, Locations.parserProduced parseForm c) →
      ∃ m', Locations.PrepareVec getForm env m stmts = some m') := by
  have hwf : ∀ c, Locations.parserProduced parseForm c →
      ∀ op ∈ c.Operations, op.OpType ≠ Locations.OperationType.kClear → op.OpForm ≠ none := by
    intro c hc op hop hne hnone
    obtain ⟨r, r', hr⟩ := hc
    obtain ⟨c', hc', hinv⟩ := Locations.ParseExpressionStatement_inv parseForm r r' _ hr
    simp only [Statement.expression.injEq] at hc'
    subst hc'
    exact hne ((hinv op hop).mp hnone)
  constructor
  · intro reader reader' stmt h
    obtain ⟨c, hc, hinv⟩ := Locations.ParseExpressionStatement_inv parseForm reader reader' stmt h
    refine ⟨c, hc, hinv, ?_⟩
    intro getForm m
    obtain ⟨m', hm'⟩ := Locations.PrepareFlat_isSome_location getForm [c] m (by
      intro c' hc'
      simp only [List.mem_singleton] at hc'
      subst hc'
      exact hwf c' ⟨reader, reader', hc ▸ h⟩)
    refine ⟨m', ?_⟩
    simp only [PrepareFlat] at hm'
    cases hp : Locations.Prepare getForm m c with
    | none => simp [hp] at hm'
    | some m1 =>
      simp only [hp, Option.some.injEq] at hm'
      rw [hm']
  · intro getForm env m stmts hall
    obtain ⟨m', hm'⟩ := Locations.PrepareFlat_isSome_location getForm (flatten env stmts) m
      (fun c hc => hwf c (hall c hc))
    exact ⟨m', by simp [Locations.PrepareVec, PrepareStatements_flatten, hm']⟩

/-- C24, at a concrete input: the statement parsed from
`FilterByFormID(Loc).Keywords.Clear().Add(Kw);` has no argument on `Clear` and
one on `Add`, and `Prepare` returns on it. -/
theorem C24_parsed_operations_carry_their_argument_witness :
    ∃ c, (Statement.expression
          ⟨Locations.FilterType.kFormID, "Loc", Locations.ElementType.kKeywords,
            [⟨Locations.OperationType.kClear, none⟩,
              ⟨Locations.OperationType.kAdd, some "Kw"⟩]⟩ : Statement Locations.ConfigData)
        = Statement.expression c ∧
      Locations.argumentIffNotClear c.Operations ∧
      ∀ (getForm : String → Option TESForm) (m : List (TESForm × Locations.PatchData)),
        ∃ m', Locations.Prepare getForm m c = some m' :=
  (C24_parsed_operations_carry_their_argument sampleParseForm).1
    ⟨["FilterByFormID", "(", "Loc", ")", ".", "Keywords", ".", "Clear", "(", ")",
      ".", "Add", "(", "Kw", ")", ";"]⟩ ⟨[]⟩ _ (by rfl)

/-! ## The stored type of parsed values (C23) -/

namespace Armors

theorem ParseAssignment_typed (parseBipedSlot : Reader → Option Nat × Reader)
    (parseForm : Reader → Option String × Reader) (reader reader' : Reader)
    (cfg cfg' : ConfigData)
    (h : ParseAssignment parseBipedSlot parseForm reader cfg = some (true, reader', cfg')) :
    valuePresentAndTyped cfg' := by
  obtain ⟨flt, ff, el, av⟩ := cfg
  unfold ParseAssignment at h
  simp only at h
  split at h
  · simp at h
  · cases el with
    | kBipedObjectSlots =>
      simp only at h
      split at h
      · simp only [Option.some.injEq, Prod.mk.injEq, true_and] at h
        rw [← h.2]
        simp [valuePresentAndTyped]
      · simp at h
      · simp at h
    | kFullName =>
      simp only at h
      split at h
      · simp at h
      · split at h
        · simp at h
        · simp only [Option.some.injEq, Prod.mk.injEq, true_and] at h
          rw [← h.2]
          simp [valuePresentAndTyped]
    | kObjectEffect =>
      simp only at h
      split at h
      · simp only [Option.some.injEq, Prod.mk.injEq, true_and] at h
        rw [← h.2]
        simp [valuePresentAndTyped]
      · split at h
        · simp at h
        · simp only [Option.some.injEq, Prod.mk.injEq, true_and] at h
          rw [← h.2]
          simp [valuePresentAndTyped]

theorem ParseExpressionStatement_typed (parseBipedSlot : Reader → Option Nat × Reader)
    (parseForm : Reader → Option String × Reader) (reader reader' : Reader)
    (stmt : Statement ConfigData)
    (h : ParseExpressionStatement parseBipedSlot parseForm reader = some (some stmt, reader')) :
    ∃ c, stmt = Statement.expression c ∧ valuePresentAndTyped c := by
  unfold ParseExpressionStatement at h
  simp only at h
  split at h
  · simp at h
  · split at h
    · simp at h
    · split at h
      · simp at h
      · split at h
        · simp at h
        · split at h
          · simp at h
          · simp at h
          · rename_i r3 cfg3 hpa
            split at h
            · simp at h
            · simp only [Option.some.injEq, Prod.mk.injEq] at h
              exact ⟨cfg3, h.1.symm, ParseAssignment_typed _ _ _ _ _ _ hpa⟩

theorem valuePresentAndTyped_WellTyped (c : ConfigData) (h : valuePresentAndTyped c) :
    WellTyped c := by
  obtain ⟨flt, ff, el, av⟩ := c
  cases el <;> cases av with
  | none => simp [valuePresentAndTyped] at h
  | some a => cases a <;> simp [valuePresentAndTyped, WellTyped] at h ⊢

theorem PrintExpressionStatement_isSome (getBipedSlots : Nat → String) (c : ConfigData)
    (a_indent : Nat) (h : valuePresentAndTyped c) :
    ∃ line, PrintExpressionStatement getBipedSlots c a_indent = some line := by
  obtain ⟨flt, ff, el, av⟩ := c
  cases el <;> cases av with
  | none => simp [valuePresentAndTyped] at h
  | some a =>
    cases a <;>
      simp [valuePresentAndTyped, PrintExpressionStatement, AnyValue.castUInt32,
        AnyValue.castString] at h ⊢

end Armors

/-- C23: every statement produced by `ArmorParser::ParseExpressionStatement` has its
`AssignValue` present, with a stored type that matches its `Element` (a 32-bit
unsigned integer for BipedObjectSlots, a string for FullName and ObjectEffect).
Therefore `Prepare` of such a statement returns on every patch map and
`PrintExpressionStatement` returns its line (no `value()` and no `any_cast`
throws), and `Prepare` returns on every statement list whose expression
statements, inside conditionals included, are produced by the parser. -/
theorem C23_parsed_values_are_present_and_typed
    (parseBipedSlot : Reader → Option Nat × Reader)
    (parseForm : Reader → Option String × Reader) :
    (∀ (reader reader' : Reader) (stmt : Statement Armors.ConfigData),
      Armors.ParseExpressionStatement parseBipedSlot parseForm reader
        = some (some stmt, reader') →
      ∃ c, stmt = Statement.expression c ∧ Armors.valuePresentAndTyped c ∧
        (∀ (getForm : String → Option TESForm) (m : List (TESForm × Armors.PatchData)),
          ∃ m', Armors.Prepare getForm m c = some m') ∧
        (∀ (getBipedSlots : Nat → String) (a_indent : Nat),
          ∃ line, Armors.PrintExpressionStatement getBipedSlots c a_indent = some line)) ∧
    (∀ (getForm : String → Option TESForm) (env : Condition → Bool)
        (m : List (TESForm × Armors.PatchData)) (stmts : List (Statement Armors.ConfigData)),
      (∀ c ∈ flatten env stmts, Armors.parserProduced parseBipedSlot parseForm c) →
      ∃ m', Armors.PrepareVec getForm env m stmts = some m') := by
  constructor
  · intro reader reader' stmt h
    obtain ⟨c, hc, ht⟩ :=
      Armors.ParseExpressionStatement_typed parseBipedSlot parseForm reader reader' stmt h
    exact ⟨c, hc, ht,
      fun getForm m => Armors.Prepare_isSome getForm m c
        (Armors.valuePresentAndTyped_WellTyped c ht),
      fun gbs ind => Armors.PrintExpressionStatement_isSome gbs c ind ht⟩
  · intro getForm env m stmts hall
    obtain ⟨m', hm'⟩ := Armors.PrepareFlat_isSome_armo getForm (flatten env stmts) m (by
      intro c hc
      obtain ⟨r, r', hr⟩ := hall c hc
      obtain ⟨c', hc', ht⟩ :=
        Armors.ParseExpressionStatement_typed parseBipedSlot parseForm r r' _ hr
      simp only [Statement.expression.injEq] at hc'
      subst hc'
      exact Armors.valuePresentAndTyped_WellTyped c ht)
    exact ⟨m', by simp [Armors.PrepareVec, PrepareStatements_flatten, hm']⟩

/-- C23, at a concrete input: the statement parsed from
`FilterByFormID(Armo).ObjectEffect = null;` holds the string `null`; `Prepare`
and `PrintExpressionStatement` return on it. -/
theorem C23_parsed_values_are_present_and_typed_witness :
    ∃ c, (Statement.expression
          ⟨Armors.FilterType.kFormID, "Armo", Armors.ElementType.kObjectEffect,
            some (Armors.AnyValue.string "null")⟩ : Statement Armors.ConfigData)
        = Statement.expression c ∧ Armors.valuePresentAndTyped c ∧
      (∀ (getForm : String → Option TESForm) (m : List (TESForm × Armors.PatchData)),
        ∃ m', Armors.Prepare getForm m c = some m') ∧
      (∀ (getBipedSlots : Nat → String) (a_indent : Nat),
        ∃ line, Armors.PrintExpressionStatement getBipedSlots c a_indent = some line) :=
  (C23_parsed_values_are_present_and_typed ArmorAddons.ParseBipedSlot sampleParseForm).1
    ⟨["FilterByFormID", "(", "Armo", ")", ".", "ObjectEffect", "=", "null", ";"]⟩ ⟨[]⟩ _
    (by rfl)

/-! ## Iteration order of the AddIfNotExists set (C25) -/

namespace Locations

theorem count_foldl_addUnique (U l : List TESForm) (x : TESForm) :
    (U.foldl (fun l u => if u ∈ l then l else AddKeyword l u) l).count x
      = if x ∈ l then l.count x else if x ∈ U then 1 else 0 := by
  induction U generalizing l with
  | nil =>
    by_cases hx : x ∈ l
    · simp [hx]
    · simp [hx, List.count_eq_zero_of_not_mem hx]
  | cons u U ih =>
    simp only [List.foldl_cons]
    by_cases hu : u ∈ l
    · simp only [hu, if_true]
      rw [ih]
      by_cases hx : x ∈ l
      · simp [hx]
      · have hxu : x ≠ u := fun e => hx (e ▸ hu)
        simp [hx, hxu]
    · simp only [hu, if_false]
      rw [ih]
      by_cases hx : x ∈ l
      · have hxu : u ≠ x := fun e => hu (e ▸ hx)
        have hbeq : (u == x) = false := by simpa using hxu
        simp [AddKeyword, hx, List.count_append, List.count_cons, hbeq]
      · by_cases hxu : x = u
        · subst hxu
          simp [AddKeyword, hx, List.count_append, List.count_eq_zero_of_not_mem hx]
        · simp [AddKeyword, hx, hxu]

theorem prefix_foldl_addUnique (U l : List TESForm) :
    ∃ s, U.foldl (fun l u => if u ∈ l then l else AddKeyword l u) l = l ++ s := by
  induction U generalizing l with
  | nil => exact ⟨[], by simp⟩
  | cons u U ih =>
    simp only [List.foldl_cons]
    by_cases hu : u ∈ l
    · simpa [hu] using ih l
    · obtain ⟨s, hs⟩ := ih (AddKeyword l u)
      refine ⟨u :: s, ?_⟩
      simp only [hu, if_false]
      rw [hs]
      simp [AddKeyword]

theorem perm_foldl_addUnique (U U' l : List TESForm) (h : U'.Perm U) :
    (U'.foldl (fun l u => if u ∈ l then l else AddKeyword l u) l).Perm
      (U.foldl (fun l u => if u ∈ l then l else AddKeyword l u) l) := by
  rw [List.perm_iff_count]
  intro x
  rw [count_foldl_addUnique, count_foldl_addUnique]
  simp only [h.mem_iff]

end Locations

/-- C25: the iteration order of the AddIfNotExists set does not change which
keywords `PatchKeywords` leaves, nor how many times. For every keyword
collection, every `KeywordsData` and every reordering `U'` of its
`AddUniqueKeywordSet`, the collection left with `U'` is a permutation of the one
left with the original order; both start with the same list (the collection
after the Clear, Delete and Add passes) and differ only in the order of the
keywords appended after it. -/
theorem C25_AddIfNotExists_order_changes_positions_only (L : List TESForm)
    (kd : Locations.KeywordsData) (U' : List TESForm)
    (hperm : U'.Perm kd.AddUniqueKeywordSet) :
    (Locations.PatchKeywords L { kd with AddUniqueKeywordSet := U' }).Perm
      (Locations.PatchKeywords L kd) ∧
    (∀ k, (Locations.PatchKeywords L { kd with AddUniqueKeywordSet := U' }).count k
      = (Locations.PatchKeywords L kd).count k) ∧
    ∃ base s s', Locations.PatchKeywords L kd = base ++ s ∧
      Locations.PatchKeywords L { kd with AddUniqueKeywordSet := U' } = base ++ s' ∧
      s'.Perm s := by
  obtain ⟨c, A, U, D⟩ := kd
  simp only at hperm
  have hP : (Locations.PatchKeywords L ⟨c, A, U', D⟩).Perm
      (Locations.PatchKeywords L ⟨c, A, U, D⟩) := by
    rw [Locations.PatchKeywords_eq_replay, Locations.PatchKeywords_eq_replay]
    simp only [Locations.replay]
    exact Locations.perm_foldl_addUnique U U' _ hperm
  refine ⟨hP, fun k => hP.count_eq k, ?_⟩
  rw [Locations.PatchKeywords_eq_replay, Locations.PatchKeywords_eq_replay] at hP ⊢
  simp only [Locations.replay] at hP ⊢
  obtain ⟨s, hs⟩ := Locations.prefix_foldl_addUnique U
    (A.foldl Locations.AddKeyword
      (D.foldl (fun l d => if d ∈ l then Locations.RemoveKeyword l d else l)
        (if c = true then [] else L)))
  obtain ⟨s', hs'⟩ := Locations.prefix_foldl_addUnique U'
    (A.foldl Locations.AddKeyword
      (D.foldl (fun l d => if d ∈ l then Locations.RemoveKeyword l d else l)
        (if c = true then [] else L)))
  refine ⟨_, s, s', hs, hs', ?_⟩
  rw [hs, hs'] at hP
  exact (List.perm_append_left_iff _).mp hP

/-- C25, at a concrete input: with the set iterated as `[k2, k7]` or as `[k7, k2]`
on a collection holding `k1`, the results `[k1, k2, k7]` and `[k1, k7, k2]` are
permutations of each other. -/
theorem C25_AddIfNotExists_order_changes_positions_only_witness :
    Locations.PatchKeywords [⟨1, FormType.Keyword⟩]
        ⟨false, [], [⟨2, FormType.Keyword⟩, ⟨7, FormType.Keyword⟩], []⟩
      = [⟨1, FormType.Keyword⟩, ⟨2, FormType.Keyword⟩, ⟨7, FormType.Keyword⟩] ∧
    Locations.PatchKeywords [⟨1, FormType.Keyword⟩]
        ⟨false, [], [⟨7, FormType.Keyword⟩, ⟨2, FormType.Keyword⟩], []⟩
      = [⟨1, FormType.Keyword⟩, ⟨7, FormType.Keyword⟩, ⟨2, FormType.Keyword⟩] ∧
    (Locations.PatchKeywords [⟨1, FormType.Keyword⟩]
        ⟨false, [], [⟨7, FormType.Keyword⟩, ⟨2, FormType.Keyword⟩], []⟩).Perm
      (Locations.PatchKeywords [⟨1, FormType.Keyword⟩]
        ⟨false, [], [⟨2, FormType.Keyword⟩, ⟨7, FormType.Keyword⟩], []⟩) :=
  ⟨by decide, by decide,
    (C25_AddIfNotExists_order_changes_positions_only [⟨1, FormType.Keyword⟩]
      ⟨false, [], [⟨2, FormType.Keyword⟩, ⟨7, FormType.Keyword⟩], []⟩
      [⟨7, FormType.Keyword⟩, ⟨2, FormType.Keyword⟩] (List.Perm.swap _ _ _)).1⟩

/-! ## The Delete pass after a Clear (C26) -/

/-- C26: skipping the Delete pass after a Clear is a sound shortcut. For every
keyword collection and every `KeywordsData` with `Clear` set, `PatchKeywords`
(which bypasses the Delete pass when `isCleared`) leaves the same collection as
the variant that runs the Delete pass unconditionally, on the freshly cleared
collection; the two also agree when `Clear` is not set. -/
theorem C26_skipping_Delete_after_Clear_is_sound :
    (∀ (L : List TESForm) (kd : Locations.KeywordsData), kd.Clear = true →
      Locations.PatchKeywords L kd = Locations.PatchKeywordsDeleteAlways L kd) ∧
    (∀ (L : List TESForm) (kd : Locations.KeywordsData),
      Locations.PatchKeywords L kd = Locations.PatchKeywordsDeleteAlways L kd) := by
  have hall : ∀ (L : List TESForm) (kd : Locations.KeywordsData),
      Locations.PatchKeywords L kd = Locations.PatchKeywordsDeleteAlways L kd := by
    intro L kd
    obtain ⟨c, A, U, D⟩ := kd
    cases c with
    | false => simp [Locations.PatchKeywords, Locations.PatchKeywordsDeleteAlways]
    | true =>
      simp [Locations.PatchKeywords, Locations.PatchKeywordsDeleteAlways,
        Locations.ClearKeywords_eq_nil, Locations.KeywordExists]
  exact ⟨fun L kd _ => hall L kd, hall⟩

/-- C26, at a concrete input: a collection holding `k1` twice, with `Clear`,
`Delete(k1)` and `Add(k2)` pending. -/
theorem C26_skipping_Delete_after_Clear_is_sound_witness :
    Locations.PatchKeywords [⟨1, FormType.Keyword⟩, ⟨1, FormType.Keyword⟩]
        ⟨true, [⟨2, FormType.Keyword⟩], [], [⟨1, FormType.Keyword⟩]⟩
      = Locations.PatchKeywordsDeleteAlways [⟨1, FormType.Keyword⟩, ⟨1, FormType.Keyword⟩]
        ⟨true, [⟨2, FormType.Keyword⟩], [], [⟨1, FormType.Keyword⟩]⟩ :=
  C26_skipping_Delete_after_Clear_is_sound.1 _ _ rfl

/-! ## What the apply loop and `Prepare` leave unchanged (C27) -/

namespace PatchMap

theorem foldl_update_no_entry {V R : Type} (g : R → V → R) (m : List (TESForm × V))
    (st : TESForm → R) (T : TESForm) (h : find m T = none) :
    (m.foldl (fun st e => Function.update st e.1 (g (st e.1) e.2)) st) T = st T := by
  induction m generalizing st with
  | nil => rfl
  | cons e rest ih =>
    obtain ⟨k, v⟩ := e
    by_cases hk : k = T
    · simp [find, hk] at h
    · simp only [find, hk, if_false] at h
      simp only [List.foldl_cons]
      rw [ih _ h]
      exact Function.update_noteq (fun e' => hk e'.symm) _ _

end PatchMap

namespace Armors

theorem Prepare_other_target (getForm : String → Option TESForm)
    (m m' : List (TESForm × PatchData)) (c : ConfigData) (hp : Prepare getForm m c = some m')
    (T : TESForm) (hT : (getForm c.FilterForm).bind (fun f => f.As FormType.Armor) ≠ some T) :
    PatchMap.find m' T = PatchMap.find m T := by
  rcases Prepare_effect getForm m m' c hp with e | ⟨q, hq, ⟨n, _, _, e⟩ | ⟨s, _, _, e⟩ | ⟨oe, _, e⟩⟩
  · rw [e]
  all_goals
    have hne : T ≠ q := fun e' => hT (e' ▸ hq)
    rw [e, PatchMap.find_modify_ne _ _ m q T hne]

theorem Prepare_keep_other_Slots (getForm : String → Option TESForm)
    (m m' : List (TESForm × PatchData)) (c : ConfigData) (hp : Prepare getForm m c = some m')
    (T : TESForm) (hE : c.Element ≠ ElementType.kBipedObjectSlots) :
    (PatchMap.find m' T).bind (fun pd => pd.BipedObjectSlots)
      = (PatchMap.find m T).bind (fun pd => pd.BipedObjectSlots) := by
  rcases Prepare_effect getForm m m' c hp with e | ⟨q, _, ⟨n, he, _, e⟩ | ⟨s, _, _, e⟩ | ⟨oe, _, e⟩⟩
  · rw [e]
  · exact absurd he hE
  · rw [e]
    exact PatchMap.find_modify_bind_keep _ _ m q T _ (fun _ => rfl) rfl
  · rw [e]
    exact PatchMap.find_modify_bind_keep _ _ m q T _ (fun _ => rfl) rfl

theorem Prepare_keep_other_FullName (getForm : String → Option TESForm)
    (m m' : List (TESForm × PatchData)) (c : ConfigData) (hp : Prepare getForm m c = some m')
    (T : TESForm) (hE : c.Element ≠ ElementType.kFullName) :
    (PatchMap.find m' T).bind (fun pd => pd.FullName)
      = (PatchMap.find m T).bind (fun pd => pd.FullName) := by
  rcases Prepare_effect getForm m m' c hp with e | ⟨q, _, ⟨n, _, _, e⟩ | ⟨s, he, _, e⟩ | ⟨oe, _, e⟩⟩
  · rw [e]
  · rw [e]
    exact PatchMap.find_modify_bind_keep _ _ m q T _ (fun _ => rfl) rfl
  · exact absurd he hE
  · rw [e]
    exact PatchMap.find_modify_bind_keep _ _ m q T _ (fun _ => rfl) rfl

theorem Prepare_keep_other_ObjectEffect (getForm : String → Option TESForm)
    (m m' : List (TESForm × PatchData)) (c : ConfigData) (hp : Prepare getForm m c = some m')
    (T : TESForm) (hE : c.Element ≠ ElementType.kObjectEffect) :
    (PatchMap.find m' T).bind (fun pd => pd.ObjectEffect)
      = (PatchMap.find m T).bind (fun pd => pd.ObjectEffect) := by
  rcases Prepare_effect getForm m m' c hp with e | ⟨q, _, ⟨n, _, _, e⟩ | ⟨s, _, _, e⟩ | ⟨oe, he, e⟩⟩
  · rw [e]
  · rw [e]
    exact PatchMap.find_modify_bind_keep _ _ m q T _ (fun _ => rfl) rfl
  · rw [e]
    exact PatchMap.find_modify_bind_keep _ _ m q T _ (fun _ => rfl) rfl
  · exact absurd he hE

theorem PatchArmor_frame (armo : TESObjectARMO) (pd : PatchData) :
    (pd.BipedObjectSlots = none →
      (PatchArmor armo pd).bipedObjectSlots = armo.bipedObjectSlots) ∧
    (pd.FullName = none → (PatchArmor armo pd).fullName = armo.fullName) ∧
    (pd.ObjectEffect = none → (PatchArmor armo pd).formEnchanting = armo.formEnchanting) := by
  obtain ⟨s, n, e⟩ := pd
  refine ⟨?_, ?_, ?_⟩
  · intro h
    simp only at h
    subst h
    cases n <;> cases e <;> rfl
  · intro h
    simp only at h
    subst h
    cases s <;> cases e <;> rfl
  · intro h
    simp only at h
    subst h
    cases s <;> cases n <;> rfl

end Armors

namespace Locations

theorem Prepare_other_target_location (getForm : String → Option TESForm)
    (m m' : List (TESForm × PatchData)) (c : ConfigData) (hp : Prepare getForm m c = some m')
    (T : TESForm)
    (hT : (getForm c.FilterForm).bind (fun f => f.As FormType.Location) ≠ some T) :
    PatchMap.find m' T = PatchMap.find m T := by
  obtain ⟨flt, ff, el, ops⟩ := c
  cases flt
  cases el
  simp only [Prepare] at hp
  cases hg : getForm ff with
  | none =>
    simp only [hg, Option.some.injEq] at hp
    rw [← hp]
  | some f =>
    cases hk : f.As FormType.Location with
    | none =>
      simp only [hg, hk, Option.some.injEq] at hp
      rw [← hp]
    | some q =>
      simp only [hg, hk] at hp
      have hne : T ≠ q := by
        intro e
        apply hT
        simp [hg, hk, e]
      split at hp
      · simp at hp
      · simp only [Option.some.injEq] at hp
        rw [← hp, PatchMap.find_modify_ne _ _ m q T hne]

end Locations

/-- C27: the apply loop of `Patch()` and `Prepare` change only what they are aimed
at. After the apply loop, a record without an entry in the patch map is
unchanged (in the four domains), and for a record with an entry every field
whose pending value is absent is unchanged: each of bipedObjectSlots, fullName
and formEnchanting of an armor, and the keyword collection of a location when
`Keywords` is absent. A returning `Prepare` of a statement leaves the entry of
every target other than the one its filter resolves to unchanged (Armors and
Locations), and in Armors the pending values of the elements other than the
statement's element are unchanged for every target. -/
theorem C27_apply_and_prepare_change_only_their_target :
    (∀ (m : List (TESForm × Armors.PatchData)) (armors : TESForm → Armors.TESObjectARMO)
        (T : TESForm),
      (PatchMap.find m T = none → Armors.PatchAll m armors T = armors T) ∧
      (∀ pd, (PatchMap.keys m).Nodup → PatchMap.find m T = some pd →
        (pd.BipedObjectSlots = none →
          (Armors.PatchAll m armors T).bipedObjectSlots = (armors T).bipedObjectSlots) ∧
        (pd.FullName = none → (Armors.PatchAll m armors T).fullName = (armors T).fullName) ∧
        (pd.ObjectEffect = none →
          (Armors.PatchAll m armors T).formEnchanting = (armors T).formEnchanting))) ∧
    (∀ (m : List (TESForm × Locations.PatchData)) (keywords : TESForm → List TESForm)
        (T : TESForm),
      (PatchMap.find m T = none → Locations.PatchAll m keywords T = keywords T) ∧
      (∀ pd, (PatchMap.keys m).Nodup → PatchMap.find m T = some pd → pd.Keywords = none →
        Locations.PatchAll m keywords T = keywords T)) ∧
    (∀ (m : List (TESForm × Quests.PatchData)) (quests : TESForm → Quests.TESQuest)
        (T : TESForm),
      (PatchMap.find m T = none → Quests.PatchAll m quests T = quests T) ∧
      (∀ pd, (PatchMap.keys m).Nodup → PatchMap.find m T = some pd → pd.FullName = none →
        Quests.PatchAll m quests T = quests T)) ∧
    (∀ (m : List (TESForm × ArmorAddons.PatchData))
        (armorAddons : TESForm → ArmorAddons.TESObjectARMA) (T : TESForm),
      (PatchMap.find m T = none → ArmorAddons.PatchAll m armorAddons T = armorAddons T) ∧
      (∀ pd, (PatchMap.keys m).Nodup → PatchMap.find m T = some pd →
        pd.BipedObjectSlots = none → ArmorAddons.PatchAll m armorAddons T = armorAddons T)) ∧
    (∀ (getForm : String → Option TESForm) (m m' : List (TESForm × Armors.PatchData))
        (c : Armors.ConfigData), Armors.Prepare getForm m c = some m' →
      (∀ T, (getForm c.FilterForm).bind (fun f => f.As FormType.Armor) ≠ some T →
        PatchMap.find m' T = PatchMap.find m T) ∧
      (∀ T, c.Element ≠ Armors.ElementType.kBipedObjectSlots →
        (PatchMap.find m' T).bind (fun pd => pd.BipedObjectSlots)
          = (PatchMap.find m T).bind (fun pd => pd.BipedObjectSlots)) ∧
      (∀ T, c.Element ≠ Armors.ElementType.kFullName →
        (PatchMap.find m' T).bind (fun pd => pd.FullName)
          = (PatchMap.find m T).bind (fun pd => pd.FullName)) ∧
      (∀ T, c.Element ≠ Armors.ElementType.kObjectEffect →
        (PatchMap.find m' T).bind (fun pd => pd.ObjectEffect)
          = (PatchMap.find m T).bind (fun pd => pd.ObjectEffect))) ∧
    (∀ (getForm : String → Option TESForm) (m m' : List (TESForm × Locations.PatchData))
        (c : Locations.ConfigData), Locations.Prepare getForm m c = some m' →
      ∀ T, (getForm c.FilterForm).bind (fun f => f.As FormType.Location) ≠ some T →
        PatchMap.find m' T = PatchMap.find m T) := by
  refine ⟨?_, ?_, ?_, ?_, ?_, ?_⟩
  · intro m armors T
    refine ⟨PatchMap.foldl_update_no_entry Armors.PatchArmor m armors T, ?_⟩
    intro pd hn hf
    have hq : Armors.PatchAll m armors T = Armors.PatchArmor (armors T) pd := by
      simp only [Armors.PatchAll]
      rw [PatchMap.foldl_update_apply Armors.PatchArmor m armors T hn, hf]
      rfl
    rw [hq]
    exact Armors.PatchArmor_frame (armors T) pd
  · intro m keywords T
    refine ⟨PatchMap.foldl_update_no_entry Locations.PatchLocation m keywords T, ?_⟩
    intro pd hn hf hk
    simp only [Locations.PatchAll]
    rw [PatchMap.foldl_update_apply Locations.PatchLocation m keywords T hn, hf]
    simp [Locations.PatchLocation, hk]
  · intro m quests T
    refine ⟨PatchMap.foldl_update_no_entry Quests.PatchQuest m quests T, ?_⟩
    intro pd hn hf hk
    simp only [Quests.PatchAll]
    rw [PatchMap.foldl_update_apply Quests.PatchQuest m quests T hn, hf]
    simp [Quests.PatchQuest, hk]
  · intro m armorAddons T
    refine ⟨PatchMap.foldl_update_no_entry ArmorAddons.PatchArmorAddon m armorAddons T, ?_⟩
    intro pd hn hf hk
    simp only [ArmorAddons.PatchAll]
    rw [PatchMap.foldl_update_apply ArmorAddons.PatchArmorAddon m armorAddons T hn, hf]
    simp [ArmorAddons.PatchArmorAddon, hk]
  · intro getForm m m' c hp
    exact ⟨fun T hT => Armors.Prepare_other_target getForm m m' c hp T hT,
      fun T hE => Armors.Prepare_keep_other_Slots getForm m m' c hp T hE,
      fun T hE => Armors.Prepare_keep_other_FullName getForm m m' c hp T hE,
      fun T hE => Armors.Prepare_keep_other_ObjectEffect getForm m m' c hp T hE⟩
  · intro getForm m m' c hp T hT
    exact Locations.Prepare_other_target_location getForm m m' c hp T hT

/-- C27, at a concrete input: with a pending FullName only, the apply loop leaves
the slots and the enchantment of the armor as they were. -/
theorem C27_apply_and_prepare_change_only_their_target_witness :
    (Armors.PatchAll [(⟨4, FormType.Armor⟩, ⟨none, some "new", none⟩)]
        (fun _ => ⟨5, "old", some ⟨6, FormType.Enchantment⟩⟩) ⟨4, FormType.Armor⟩).bipedObjectSlots
      = 5 ∧
    (Armors.PatchAll [(⟨4, FormType.Armor⟩, ⟨none, some "new", none⟩)]
        (fun _ => ⟨5, "old", some ⟨6, FormType.Enchantment⟩⟩) ⟨4, FormType.Armor⟩).formEnchanting
      = some ⟨6, FormType.Enchantment⟩ ∧
    (Armors.PatchAll [(⟨4, FormType.Armor⟩, ⟨none, some "new", none⟩)]
        (fun _ => ⟨5, "old", some ⟨6, FormType.Enchantment⟩⟩) ⟨4, FormType.Armor⟩).fullName
      = "new" :=
  ⟨((C27_apply_and_prepare_change_only_their_target.1
      [(⟨4, FormType.Armor⟩, ⟨none, some "new", none⟩)]
      (fun _ => ⟨5, "old", some ⟨6, FormType.Enchantment⟩⟩) ⟨4, FormType.Armor⟩).2
      ⟨none, some "new", none⟩ (by decide) rfl).1 rfl,
   ((C27_apply_and_prepare_change_only_their_target.1
      [(⟨4, FormType.Armor⟩, ⟨none, some "new", none⟩)]
      (fun _ => ⟨5, "old", some ⟨6, FormType.Enchantment⟩⟩) ⟨4, FormType.Armor⟩).2
      ⟨none, some "new", none⟩ (by decide) rfl).2.2 rfl,
   rfl⟩

/-! ## The pending ObjectEffect (C28) -/

namespace Armors

theorem Prepare_set_ObjectEffect (getForm : String → Option TESForm) (T : TESForm)
    (m m' : List (TESForm × PatchData)) (c : ConfigData) (v : Option TESForm)
    (hp : Prepare getForm m c = some m') (hc : writesObjectEffect getForm T c v) :
    (PatchMap.find m' T).bind (fun pd => pd.ObjectEffect) = some v := by
  obtain ⟨flt, ff, el, av⟩ := c
  obtain ⟨h1, h2, s, h3, h4⟩ := hc
  cases flt
  simp only at h1 h2 h3
  subst h2 h3
  cases hg : getForm ff with
  | none => simp [hg] at h1
  | some f =>
    simp only [hg, Option.some_bind] at h1
    simp only [Prepare, hg, h1, AnyValue.castString] at hp
    by_cases hnull : s = "null"
    · simp only [effectOf, hnull, if_true, Option.some.injEq] at h4
      simp only [hnull, if_true, Option.some.injEq] at hp
      rw [← hp, ← h4]
      exact PatchMap.find_modify_bind_set _ _ m T _ none (fun _ => rfl)
    · simp only [effectOf, hnull, if_false] at h4
      simp only [hnull, if_false] at hp
      cases hg2 : getForm s with
      | none => simp [hg2] at h4
      | some e =>
        simp only [hg2, Option.some_bind] at h4
        cases hk2 : e.As FormType.Enchantment with
        | none => simp [hk2] at h4
        | some oe =>
          simp only [hk2, Option.map_some', Option.some.injEq] at h4
          simp only [hg2, hk2, Option.some.injEq] at hp
          rw [← hp, ← h4]
          exact PatchMap.find_modify_bind_set _ _ m T _ (some oe) (fun _ => rfl)

theorem Prepare_keep_ObjectEffect (getForm : String → Option TESForm) (T : TESForm)
    (m m' : List (TESForm × PatchData)) (c : ConfigData) (hp : Prepare getForm m c = some m')
    (hc : ∀ v, ¬ writesObjectEffect getForm T c v) :
    (PatchMap.find m' T).bind (fun pd => pd.ObjectEffect)
      = (PatchMap.find m T).bind (fun pd => pd.ObjectEffect) := by
  by_cases hE : c.Element = ElementType.kObjectEffect
  · by_cases hT : (getForm c.FilterForm).bind (fun f => f.As FormType.Armor) = some T
    · obtain ⟨flt, ff, el, av⟩ := c
      cases flt
      simp only at hE hT
      subst hE
      cases hg : getForm ff with
      | none => simp [hg] at hT
      | some f =>
        simp only [hg, Option.some_bind] at hT
        simp only [Prepare, hg, hT] at hp
        cases av with
        | none =>
          simp only [Option.some.injEq] at hp
          rw [← hp]
        | some a =>
          cases a with
          | uint32 n => simp [AnyValue.castString] at hp
          | string s =>
            simp only [AnyValue.castString] at hp
            cases he : effectOf getForm s with
            | some v =>
              exact absurd ⟨by simp [hg, hT], rfl, s, rfl, he⟩ (hc v)
            | none =>
              have hnull : ¬ s = "null" := by
                intro e
                simp [effectOf, e] at he
              simp only [effectOf, hnull, if_false, Option.map_eq_none'] at he
              simp only [hnull, if_false] at hp
              cases hg2 : getForm s with
              | none =>
                simp only [hg2, Option.some.injEq] at hp
                rw [← hp]
              | some e =>
                simp only [hg2, Option.some_bind] at he
                simp only [hg2, he, Option.some.injEq] at hp
                rw [← hp]
    · rw [Prepare_other_target getForm m m' c hp T hT]
  · exact Prepare_keep_other_ObjectEffect getForm m m' c hp T hE

theorem last_write_wins_ObjectEffect (getForm : String → Option TESForm)
    (env : Condition → Bool) (st st' : State) (T : TESForm) (v : Option TESForm)
    (pre post : List ConfigData) (c : ConfigData)
    (hnodup : (PatchMap.keys st.g_patchMap).Nodup)
    (hflat : flatten env st.g_configVec = pre ++ c :: post)
    (hc : writesObjectEffect getForm T c v)
    (hpost : ∀ c' ∈ post, ∀ v', ¬ writesObjectEffect getForm T c' v')
    (hst : Patch getForm env st = some st') : (st'.armors T).formEnchanting = v := by
  obtain ⟨m, hm, hq⟩ := Patch_at_armo getForm env st st' T hnodup hst
  rw [hflat] at hm
  have hfield := PrepareFlat_last_write (Prepare getForm)
    (fun m => (PatchMap.find m T).bind (fun pd => pd.ObjectEffect)) (writesObjectEffect getForm T)
    (fun s c s' v h hv => Prepare_set_ObjectEffect getForm T s s' c v h hv)
    (fun s c s' h hv => Prepare_keep_ObjectEffect getForm T s s' c h hv)
    pre post c v st.g_patchMap m hm hc hpost
  beta_reduce at hfield
  rw [hq]
  cases hf : PatchMap.find m T with
  | none =>
    rw [hf] at hfield
    simp at hfield
  | some pd =>
    rw [hf] at hfield
    simp only [Option.some_bind] at hfield
    simp only [Option.map_some', Option.getD_some, PatchArmor, hfield]

end Armors

/-- C28: the pending ObjectEffect. For every armor `T` and statement list in which
the statement `c` is the last effective ObjectEffect write on `T`, writing `v`,
`Patch()` leaves `formEnchanting` of `T` equal to `v`; for `ObjectEffect = null`
that value is the null pointer. A statement whose ObjectEffect value is not
`null` and does not resolve to an enchantment is dropped by `Prepare` with the
patch map unchanged and is no effective write, so it may stand after `c` and the
earlier pending ObjectEffect is the one applied. `Patch()` returns whenever every
stored value has the type of its element. -/
theorem C28_null_and_unresolved_ObjectEffect (getForm : String → Option TESForm)
    (env : Condition → Bool) (st : Armors.State) (T : TESForm) (v : Option TESForm)
    (pre post : List Armors.ConfigData) (c : Armors.ConfigData)
    (hnodup : (PatchMap.keys st.g_patchMap).Nodup)
    (hflat : flatten env st.g_configVec = pre ++ c :: post)
    (hc : Armors.writesObjectEffect getForm T c v)
    (hpost : ∀ c' ∈ post, ∀ v', ¬ Armors.writesObjectEffect getForm T c' v') :
    ((∀ c' ∈ flatten env st.g_configVec, Armors.WellTyped c') →
      ∃ st', Armors.Patch getForm env st = some st') ∧
    (∀ st', Armors.Patch getForm env st = some st' → (st'.armors T).formEnchanting = v) ∧
    (c.AssignValue = some (Armors.AnyValue.string "null") → v = none) ∧
    (∀ (m : List (TESForm × Armors.PatchData)) (c' : Armors.ConfigData) (s : String),
      c'.Element = Armors.ElementType.kObjectEffect →
      c'.AssignValue = some (Armors.AnyValue.string s) → s ≠ "null" →
      (getForm s).bind (fun f => f.As FormType.Enchantment) = none →
      Armors.Prepare getForm m c' = some m ∧
        ∀ T' v', ¬ Armors.writesObjectEffect getForm T' c' v') := by
  refine ⟨Armors.Patch_isSome getForm env st, ?_, ?_, ?_⟩
  · intro st' hst
    exact Armors.last_write_wins_ObjectEffect getForm env st st' T v pre post c hnodup hflat hc
      hpost hst
  · intro hnull
    obtain ⟨_, _, s, hs, he⟩ := hc
    rw [hnull] at hs
    simp only [Option.some.injEq, Armors.AnyValue.string.injEq] at hs
    subst hs
    simpa [Armors.effectOf] using he.symm
  · intro m c' s hE hA hnull hunres
    constructor
    · obtain ⟨flt, ff, el, av⟩ := c'
      cases flt
      simp only at hE hA
      subst hE hA
      simp only [Armors.Prepare, Armors.AnyValue.castString, hnull, if_false]
      cases hg : getForm ff with
      | none => rfl
      | some f =>
        cases hk : f.As FormType.Armor with
        | none => simp [hk]
        | some q =>
          cases hg2 : getForm s with
          | none => simp [hk, hg2]
          | some e =>
            simp only [hg2, Option.some_bind] at hunres
            simp [hk, hg2, hunres]
    · intro T' v' hw
      obtain ⟨_, _, s', hs', he⟩ := hw
      rw [hA] at hs'
      simp only [Option.some.injEq, Armors.AnyValue.string.injEq] at hs'
      subst hs'
      simp [Armors.effectOf, hnull, hunres] at he

/-- C28, at a concrete input: the enchantment of the sample armor is set to `Ench`,
then to `null`, then to a reference that does not resolve; after `Patch()` the
armor has no enchantment. -/
theorem C28_null_and_unresolved_ObjectEffect_witness :
    ∃ st', Armors.Patch sampleForms sampleEnv Armors.sampleEffects = some st' ∧
      (st'.armors ⟨4, FormType.Armor⟩).formEnchanting = none := by
  have h := C28_null_and_unresolved_ObjectEffect sampleForms sampleEnv Armors.sampleEffects
    ⟨4, FormType.Armor⟩ none [Armors.sampleEffect "Ench"] [Armors.sampleEffect "Missing"]
    (Armors.sampleEffect "null") (by decide) rfl
    ⟨rfl, rfl, "null", rfl, rfl⟩ (by
      intro c' hc' v' hw
      simp only [List.mem_singleton] at hc'
      subst hc'
      obtain ⟨_, _, s, hs, he⟩ := hw
      simp only [Armors.sampleEffect, Option.some.injEq, Armors.AnyValue.string.injEq] at hs
      subst hs
      have hn : Armors.effectOf sampleForms "Missing" = none := by decide
      rw [hn] at he
      exact Option.noConfusion he)
  obtain ⟨st', hst⟩ := h.1 (by
    intro c' hc'
    have hmem : c' ∈ [Armors.sampleEffect "Ench", Armors.sampleEffect "null",
        Armors.sampleEffect "Missing"] := hc'
    simp only [List.mem_cons, List.mem_singleton, List.not_mem_nil, or_false] at hmem
    rcases hmem with rfl | rfl | rfl <;> simp [Armors.WellTyped, Armors.sampleEffect])
  exact ⟨st', hst, h.2.1 st' hst⟩

/-! ## Error isolation in `Parse()` (C15) -/

namespace Parsers

end Parsers

namespace Quests

end Quests

end TullPatcher
